import Mathlib

/-!
# InspectorStyleSheet.cpp: the editable style sheet model

A shallow embedding of `WebCore/inspector/InspectorStyleSheet.cpp`.

* `WTF::String` is the list of its characters; `unsigned` values are natural numbers and
  every subtraction or addition that the source performs on `unsigned` is reduced modulo `2^32`.
* A method that mutates its object returns the new object next to its result.
* A method that can dereference a null pointer or index a vector out of bounds returns an
  `Option`: `none` stands for that fault, `some` for a normal return.
* The collaborators that live outside the file (CSS parser, live style engine, DOM, resource
  loader) are the fields of `Env`.
* `m_parsedStyleSheet` and `m_pageStyleSheet` are set by the constructor, `m_parentStyleSheet`
  is the sheet passed to each method of `InspectorStyle`, and a `CSSStyleDeclaration*` argument
  is the identity of a live object: the tests of these pointers against null always pass and
  are left out. `ASSERT`s are compiled out, as in a release build.
-/

namespace WebCore

/-! ## Strings and machine integers -/

/-- The characters of a `WTF::String`. -/
abbrev Str := List Char

/-- Modelled from the spec: `String::substring(pos, len)`, the at most `len` characters that
start at offset `pos` (the WTF string class is not part of the file). -/
def substring (s : Str) (pos len : Nat) : Str := (s.drop pos).take len

/-- Modelled from the spec: `String::replace(pos, len, str)`, which replaces the `len`
characters at offset `pos` by `str`; both are clamped to the length of the string. -/
def replace (s : Str) (pos len : Nat) (str : Str) : Str := s.take pos ++ str ++ s.drop (pos + len)

/-- Modelled from the spec: `String::insert(str, pos)`, which puts `str` before offset `pos`
and appends it when `pos` is at or past the end. -/
def insert (s : Str) (str : Str) (pos : Nat) : Str := s.take pos ++ str ++ s.drop pos

/-- The constant `UINT_MAX` for a 32-bit `unsigned`. -/
def UINT_MAX : Nat := 4294967295

/-- Subtraction of two `unsigned` values, `a - b` modulo `2^32`. -/
def usub (a b : Nat) : Nat := (a + 4294967296 - b) % 4294967296

/-- The statement `x += delta` for an `unsigned x` and a `long delta`: the sum is converted
back to `unsigned`, that is reduced modulo `2^32` (the same value for a 32-bit and a 64-bit
`long`). -/
def addLong (x : Nat) (delta : Int) : Nat := (((x : Int) + delta) % 4294967296).toNat

/-! ## Source data (CSSPropertySourceData.h) -/

/-- Half-open range of offsets. -/
structure SourceRange where
  start : Nat
  end_ : Nat
  deriving DecidableEq, Repr

/-- One property as the parser saw it. -/
structure CSSPropertySourceData where
  name : Str
  value : Str
  important : Bool
  parsedOk : Bool
  range : SourceRange
  deriving DecidableEq, Repr

/-- Body range and property list of one rule. -/
structure CSSStyleSourceData where
  styleBodyRange : SourceRange
  propertyData : List CSSPropertySourceData
  deriving DecidableEq, Repr

/-- Selector range and style source data of one rule. The parser attaches a style source data
record to every rule source data it emits, so the field is not optional here. -/
structure CSSRuleSourceData where
  selectorListRange : SourceRange
  styleSourceData : CSSStyleSourceData
  deriving DecidableEq, Repr

/-! ## The live style engine, as far as the file uses it -/

/-- One property of a live style declaration. -/
structure LiveProperty where
  name : Str
  value : Str
  important : Bool
  implicit : Bool
  shorthand : Str
  deriving DecidableEq, Repr

/-- A live `CSSStyleDeclaration`; `handle` is the identity of the object (its address). -/
structure CSSStyleDeclaration where
  handle : Nat
  properties : List LiveProperty
  deriving DecidableEq, Repr

/-- A live `CSSStyleRule`. -/
structure CSSStyleRule where
  selectorText : Str
  style : CSSStyleDeclaration
  deriving DecidableEq, Repr

/-- A child of a live style sheet: a style rule or any other rule (`@import`, ...). -/
inductive CSSRule where
  | styleRule (rule : CSSStyleRule)
  | otherRule (tag : Nat)
  deriving DecidableEq, Repr

/-- The cast `InspectorCSSAgent::asCSSStyleRule`. -/
def asCSSStyleRule : CSSRule → Option CSSStyleRule
  | .styleRule rule => some rule
  | .otherRule _ => none

/-- A live `CSSStyleSheet`: its children and its parsing mode. -/
structure CSSStyleSheet where
  rules : List CSSRule
  useStrictParsing : Bool
  deriving DecidableEq, Repr

/-- Modelled from the spec: the live sheet operation `remove(i)`, which drops the child at
position `i` and does nothing when `i` is not a position of the sheet. -/
def CSSStyleSheet.remove (sheet : CSSStyleSheet) (i : Nat) : CSSStyleSheet :=
  { sheet with rules := sheet.rules.eraseIdx i }

/-- One rule of the sheet the parser builds in `ensureSourceData`: whether it is a style rule
and the entry of the rule range map for it, if there is one. -/
structure ParsedRule where
  isStyleRule : Bool
  sourceData : Option CSSRuleSourceData
  deriving DecidableEq, Repr

/-- The owner node of a style sheet, as `inlineStyleSheetText` looks at it. -/
structure OwnerNode where
  isElementNode : Bool
  tagNameLower : Str
  innerText : Str
  deriving DecidableEq, Repr

/-- The collaborators outside the file. -/
structure Env where
  /-- `CSSParser::parseSheet` on a fresh sheet: the rules of that sheet, in order. -/
  parseSheet : Str → List ParsedRule
  /-- `CSSStyleDeclaration::setCssText`: `none` when it sets the exception code, otherwise
  the properties the declaration holds afterwards. -/
  setCssText : Nat → Str → Option (List LiveProperty)
  /-- `CSSStyleSheet::parseString(text, strict)`: the rules it appends to the sheet. -/
  parseString : Str → Bool → List CSSRule
  /-- `CSSStyleSheet::addRule(selector, "", ec)`: `none` when it sets the exception code,
  otherwise the rule it appends. -/
  addRule : List CSSRule → Str → Option CSSStyleRule
  /-- `CSSStyleSheet::ownerNode`. -/
  ownerNode : Option OwnerNode
  /-- Whether `ownerDocument()` is non-null. -/
  hasOwnerDocument : Bool
  /-- `InspectorResourceAgent::resourceContent` for the final URL of the sheet. -/
  resourceContent : Option Str

/-! ## ParsedStyleSheet -/

/-- The class `ParsedStyleSheet`. -/
structure ParsedStyleSheet where
  m_parserOutput : Option CSSStyleSheet
  m_text : Str
  m_hasText : Bool
  m_sourceData : Option (List CSSRuleSourceData)
  deriving DecidableEq, Repr

namespace ParsedStyleSheet

/-- The constructor `ParsedStyleSheet::ParsedStyleSheet`. -/
def new : ParsedStyleSheet :=
  { m_parserOutput := none, m_text := [], m_hasText := false, m_sourceData := none }

def cssStyleSheet (p : ParsedStyleSheet) : Option CSSStyleSheet := p.m_parserOutput

def text (p : ParsedStyleSheet) : Str := p.m_text

def hasText (p : ParsedStyleSheet) : Bool := p.m_hasText

def hasSourceData (p : ParsedStyleSheet) : Bool := p.m_sourceData.isSome

def setSourceData (p : ParsedStyleSheet) (sourceData : Option (List CSSRuleSourceData)) :
    ParsedStyleSheet :=
  { p with m_sourceData := sourceData }

def setText (p : ParsedStyleSheet) (text : Str) : ParsedStyleSheet :=
  ({ p with m_hasText := true, m_text := text }).setSourceData none

def ruleSourceDataAt (p : ParsedStyleSheet) (index : Nat) : Option CSSRuleSourceData :=
  match p.m_sourceData with
  | none => none
  | some v => if index ≥ v.length then none else v.get? index

end ParsedStyleSheet

/-! ## InspectorStyle and InspectorStyleSheet: data -/

/-- One entry of the flat property listing (InspectorStyleSheet.h). -/
structure InspectorStyleProperty where
  sourceData : CSSPropertySourceData
  hasSource : Bool
  disabled : Bool
  rawText : Str
  deriving DecidableEq, Repr

/-- The identifier of a rule or style; `empty` is the default-constructed id. -/
inductive InspectorCSSId where
  | empty
  | parts (styleSheetId : Str) (ordinal : Str)
  deriving DecidableEq, Repr

def InspectorCSSId.isEmpty : InspectorCSSId → Bool
  | .empty => true
  | .parts _ _ => false

/-- The class `InspectorStyle`: the style it edits (by identity) and its disabled
properties. The parent style sheet is passed to every method. -/
structure InspectorStyle where
  m_styleId : InspectorCSSId
  m_style : Nat
  m_disabledProperties : List InspectorStyleProperty
  deriving DecidableEq, Repr

/-- The class `InspectorStyleSheet`. -/
structure InspectorStyleSheet where
  m_id : Str
  m_pageStyleSheet : CSSStyleSheet
  m_parsedStyleSheet : ParsedStyleSheet
  m_inspectorStyles : List (Nat × InspectorStyle)
  m_isRevalidating : Bool
  deriving DecidableEq, Repr

/-- Modelled from the spec: `String::toUInt(&ok)` on an ordinal, a decimal integer that fits
an `unsigned`; `none` when `ok` comes back false. -/
def toUInt (s : Str) : Option Nat :=
  if s ≠ [] ∧ s.all Char.isDigit = true then
    let n := s.foldl (fun acc c => 10 * acc + (c.toNat - 48)) 0
    if n ≤ UINT_MAX then some n else none
  else none

/-- Modelled from the spec: `String::number(n)`, the decimal digits of `n`. -/
def number (n : Nat) : Str := Nat.toDigits 10 n

/-- The live style object behind a `CSSStyleDeclaration*`: the style of the first style rule
of the sheet that has this identity. -/
def CSSStyleSheet.styleObject (sheet : CSSStyleSheet) (style : Nat) : Option CSSStyleDeclaration :=
  (sheet.rules.filterMap asCSSStyleRule).map (fun r => r.style) |>.find? (fun d => d.handle = style)

/-- The effect of a successful `style->setCssText(text, ec)` on the sheet that holds the
style object: the object now holds `properties`. -/
def CSSStyleSheet.withStyleProperties (sheet : CSSStyleSheet) (style : Nat)
    (properties : List LiveProperty) : CSSStyleSheet :=
  { sheet with rules := sheet.rules.map fun r =>
      match r with
      | .styleRule rule =>
          if rule.style.handle = style then
            .styleRule { rule with style := { rule.style with properties := properties } }
          else r
      | .otherRule _ => r }

/-! ## InspectorStyleSheet: readiness, ordinals and the text of one style -/

namespace InspectorStyleSheet

def pageStyleSheet (s : InspectorStyleSheet) : CSSStyleSheet := s.m_pageStyleSheet

def id (s : InspectorStyleSheet) : Str := s.m_id

/-- The loop of `ruleIndexByStyle` over the children that are left, `index` being the number
of style rules passed so far. -/
def ruleIndexByStyleLoop (pageStyle : Nat) : List CSSRule → Nat → Nat
  | [], _ => UINT_MAX
  | r :: rest, index =>
      match asCSSStyleRule r with
      | none => ruleIndexByStyleLoop pageStyle rest index
      | some rule =>
          if rule.style.handle = pageStyle then index
          else ruleIndexByStyleLoop pageStyle rest (index + 1)

def ruleIndexByStyle (s : InspectorStyleSheet) (pageStyle : Nat) : Nat :=
  ruleIndexByStyleLoop pageStyle s.m_pageStyleSheet.rules 0

def ruleSourceDataFor (s : InspectorStyleSheet) (style : Nat) : Option CSSRuleSourceData :=
  s.m_parsedStyleSheet.ruleSourceDataAt (s.ruleIndexByStyle style)

def ruleOrStyleId (s : InspectorStyleSheet) (style : Nat) : InspectorCSSId :=
  let index := s.ruleIndexByStyle style
  if index ≠ UINT_MAX then InspectorCSSId.parts s.id (number index) else InspectorCSSId.empty

/-- The loop of `ruleForId`: `i` is the position of the next child and `currentIndex` the
number of style rules passed so far. The result is the rule and its position in the sheet. -/
def ruleForIdLoop (index : Nat) : List CSSRule → Nat → Nat → Option (Nat × CSSStyleRule)
  | [], _, _ => none
  | r :: rest, i, currentIndex =>
      match asCSSStyleRule r with
      | none => ruleForIdLoop index rest (i + 1) currentIndex
      | some rule =>
          if index = currentIndex then some (i, rule)
          else ruleForIdLoop index rest (i + 1) (currentIndex + 1)

/-- The method `ruleForId`; a rule pointer is the position of the rule among the children of
the sheet together with the rule found there. -/
def ruleForId (s : InspectorStyleSheet) (id : InspectorCSSId) : Option (Nat × CSSStyleRule) :=
  match id with
  | .empty => none
  | .parts _ ordinal =>
      match toUInt ordinal with
      | none => none
      | some index => ruleForIdLoop index s.m_pageStyleSheet.rules 0 0

def inlineStyleSheetText (env : Env) : Option Str :=
  match env.ownerNode with
  | none => none
  | some ownerNode =>
      if !ownerNode.isElementNode then none
      else if ownerNode.tagNameLower ≠ "style".toList then none
      else some ownerNode.innerText

def resourceStyleSheetText (env : Env) : Option Str :=
  if !env.hasOwnerDocument then none else env.resourceContent

def originalStyleSheetText (env : Env) : Option Str :=
  match inlineStyleSheetText env with
  | some text => some text
  | none => resourceStyleSheetText env

def ensureText (env : Env) (s : InspectorStyleSheet) : Bool × InspectorStyleSheet :=
  if s.m_parsedStyleSheet.hasText then (true, s)
  else
    match originalStyleSheetText env with
    | some text => (true, { s with m_parsedStyleSheet := s.m_parsedStyleSheet.setText text })
    | none => (false, s)

def ensureSourceData (env : Env) (s : InspectorStyleSheet) : Bool × InspectorStyleSheet :=
  if s.m_parsedStyleSheet.hasSourceData then (true, s)
  else if !s.m_parsedStyleSheet.hasText then (false, s)
  else
    let rangesVector := (env.parseSheet s.m_parsedStyleSheet.text).filterMap
      fun r => if r.isStyleRule then r.sourceData else none
    let s1 := { s with m_parsedStyleSheet := s.m_parsedStyleSheet.setSourceData (some rangesVector) }
    (s1.m_parsedStyleSheet.hasSourceData, s1)

def ensureParsedDataReady (env : Env) (s : InspectorStyleSheet) : Bool × InspectorStyleSheet :=
  let r := ensureText env s
  if r.1 then ensureSourceData env r.2 else (false, r.2)

/-- The method `text(String* result)`: the text when it returns true. -/
def text (env : Env) (s : InspectorStyleSheet) : Option Str × InspectorStyleSheet :=
  let r := ensureText env s
  if r.1 then (some r.2.m_parsedStyleSheet.text, r.2) else (none, r.2)

/-- The method `styleSheetTextWithChangedStyle`: the outer `none` is the dereference of a null
`sourceData`, the inner one the return value false. -/
def styleSheetTextWithChangedStyle (env : Env) (s : InspectorStyleSheet) (style : Nat)
    (newStyleText : Str) : Option (Option Str × InspectorStyleSheet) :=
  let r := ensureParsedDataReady env s
  if !r.1 then some (none, r.2)
  else
    match r.2.ruleSourceDataFor style with
    | none => none
    | some sourceData =>
        let bodyStart := sourceData.styleSourceData.styleBodyRange.start
        let bodyEnd := sourceData.styleSourceData.styleBodyRange.end_
        let text := r.2.m_parsedStyleSheet.text
        some (some (replace text bodyStart (usub bodyEnd bodyStart) newStyleText), r.2)

def setStyleText (env : Env) (s : InspectorStyleSheet) (style : Nat) (text : Str) :
    Option (Bool × InspectorStyleSheet) :=
  let r := ensureParsedDataReady env s
  if !r.1 then some (false, r.2)
  else
    match styleSheetTextWithChangedStyle env r.2 style text with
    | none => none
    | some (none, s2) => some (false, s2)
    | some (some patchedStyleSheetText, s2) =>
        if (s2.ruleOrStyleId style).isEmpty then some (false, s2)
        else
          match env.setCssText style text with
          | none => some (false, s2)
          | some properties =>
              some (true, { s2 with
                m_pageStyleSheet := s2.m_pageStyleSheet.withStyleProperties style properties
                m_parsedStyleSheet := s2.m_parsedStyleSheet.setText patchedStyleSheetText })

/-! ## InspectorStyleSheet: sheet-level edits -/

def setText (env : Env) (s : InspectorStyleSheet) (text : Str) : Bool × InspectorStyleSheet :=
  let parsed := s.m_parsedStyleSheet.setText text
  let size := s.m_pageStyleSheet.rules.length
  let page := (List.range size).foldl (fun sheet i => sheet.remove i) s.m_pageStyleSheet
  let page := { page with rules := page.rules ++ env.parseString text page.useStrictParsing }
  (true, { s with m_parsedStyleSheet := parsed, m_pageStyleSheet := page, m_inspectorStyles := [] })

/-- Modelled from the spec: the live rule operation `set_selector_text`, which sets the
selector of the rule at position `i` of the sheet. -/
def setSelectorText (sheet : CSSStyleSheet) (i : Nat) (rule : CSSStyleRule) (selector : Str) :
    CSSStyleSheet :=
  { sheet with rules := sheet.rules.set i (.styleRule { rule with selectorText := selector }) }

def setRuleSelector (env : Env) (s : InspectorStyleSheet) (id : InspectorCSSId) (selector : Str) :
    Bool × InspectorStyleSheet :=
  match s.ruleForId id with
  | none => (false, s)
  | some (i, rule) =>
      let r := ensureParsedDataReady env s
      if !r.1 then (false, r.2)
      else
        let s2 := { r.2 with m_pageStyleSheet := setSelectorText r.2.m_pageStyleSheet i rule selector }
        match s2.ruleSourceDataFor rule.style.handle with
        | none => (false, s2)
        | some sourceData =>
            let sheetText := replace s2.m_parsedStyleSheet.text sourceData.selectorListRange.start
              (usub sourceData.selectorListRange.end_ sourceData.selectorListRange.start) selector
            (true, { s2 with m_parsedStyleSheet := s2.m_parsedStyleSheet.setText sheetText })

def addRule (env : Env) (s : InspectorStyleSheet) (selector : Str) :
    Option CSSStyleRule × InspectorStyleSheet :=
  let r := s.text env
  match r.1 with
  | none => (none, r.2)
  | some styleSheetText =>
      match env.addRule r.2.m_pageStyleSheet.rules selector with
      | none => (none, r.2)
      | some added =>
          let page := { r.2.m_pageStyleSheet with
            rules := r.2.m_pageStyleSheet.rules ++ [CSSRule.styleRule added] }
          let rule := page.rules.getLast?.bind asCSSStyleRule
          let styleSheetText := if styleSheetText.length ≠ 0 then styleSheetText ++ "\n".toList
            else styleSheetText
          let styleSheetText := styleSheetText ++ selector
          let styleSheetText := styleSheetText ++ " {}".toList
          (rule, { r.2 with
            m_pageStyleSheet := page
            m_parsedStyleSheet := r.2.m_parsedStyleSheet.setText styleSheetText })

end InspectorStyleSheet

/-! ## InspectorStyle: the property edit engine -/

namespace InspectorStyle

/-- The loop of `disabledIndexByOrdinal` over the entries that are left: `i` is the flat
position of the next entry, `disabledIndex` the number of disabled entries passed so far. -/
def disabledIndexByOrdinalLoop (ordinal : Nat) (canUseSubsequent : Bool) :
    List InspectorStyleProperty → Nat → Nat → Nat
  | [], _, _ => UINT_MAX
  | property :: rest, i, disabledIndex =>
      if property.disabled then
        if i = ordinal ∨ (canUseSubsequent = true ∧ i > ordinal) then disabledIndex
        else disabledIndexByOrdinalLoop ordinal canUseSubsequent rest (i + 1) (disabledIndex + 1)
      else disabledIndexByOrdinalLoop ordinal canUseSubsequent rest (i + 1) disabledIndex

def disabledIndexByOrdinal (ordinal : Nat) (canUseSubsequent : Bool)
    (allProperties : List InspectorStyleProperty) : Nat :=
  disabledIndexByOrdinalLoop ordinal canUseSubsequent allProperties 0 0

/-- The method `styleText(String* result)`: the body text when it returns true. -/
def styleText (env : Env) (s : InspectorStyleSheet) (style : InspectorStyle) :
    Option Str × InspectorStyleSheet :=
  match s.ruleSourceDataFor style.m_style with
  | none => (none, s)
  | some sourceData =>
      let r := s.text env
      match r.1 with
      | none => (none, r.2)
      | some styleSheetText =>
          let bodyRange := sourceData.styleSourceData.styleBodyRange
          (some (substring styleSheetText bodyRange.start (usub bodyRange.end_ bodyRange.start)), r.2)

def replacePropertyInStyleText (env : Env) (s : InspectorStyleSheet) (style : InspectorStyle)
    (property : InspectorStyleProperty) (newText : Str) : Option (Bool × InspectorStyleSheet) :=
  let r := styleText env s style
  match r.1 with
  | none => some (false, r.2)
  | some text =>
      let range := property.sourceData.range
      r.2.setStyleText env style.m_style (replace text range.start (usub range.end_ range.start) newText)

/-- The body of the loop of `shiftDisabledProperties` for one entry. -/
def shiftRange (delta : Int) (property : InspectorStyleProperty) : InspectorStyleProperty :=
  { property with sourceData := { property.sourceData with
      range := { start := addLong property.sourceData.range.start delta
                 end_ := addLong property.sourceData.range.end_ delta } } }

def shiftDisabledProperties (style : InspectorStyle) (fromIndex : Nat) (delta : Int) :
    InspectorStyle :=
  { style with m_disabledProperties :=
      style.m_disabledProperties.take fromIndex ++
        (style.m_disabledProperties.drop fromIndex).map (shiftRange delta) }

/-- The inner `while` loop of the source walk in `populateAllProperties`: the disabled
properties it appends before a source property that starts at `start`, and the ones left. -/
def flushDisabled (start : Nat) :
    List InspectorStyleProperty → List InspectorStyleProperty × List InspectorStyleProperty
  | [] => ([], [])
  | disabledProperty :: rest =>
      if disabledProperty.sourceData.range.start ≤ start then
        let r := flushDisabled start rest
        (disabledProperty :: r.1, r.2)
      else ([], disabledProperty :: rest)

/-- The `for` loop over the source properties in `populateAllProperties`: the entries it
appends and the disabled properties it has not reached. -/
def walkSource : List CSSPropertySourceData → List InspectorStyleProperty →
    List InspectorStyleProperty × List InspectorStyleProperty
  | [], disabled => ([], disabled)
  | it :: rest, disabled =>
      let f := flushDisabled it.range.start disabled
      let r := walkSource rest f.2
      (f.1 ++ { sourceData := it, hasSource := true, disabled := false, rawText := [] } :: r.1, r.2)

/-- Modelled from the spec: the live style queries `get_property_value(name)` and
`get_property_priority(name)`, answered by the first property of that name. -/
def getPropertyValue (style : CSSStyleDeclaration) (name : Str) : Str :=
  match style.properties.find? (fun p => p.name = name) with
  | some p => p.value
  | none => []

def getPropertyPriorityIsEmpty (style : CSSStyleDeclaration) (name : Str) : Bool :=
  match style.properties.find? (fun p => p.name = name) with
  | some p => !p.important
  | none => true

/-- The last `for` loop of `populateAllProperties` over the names `m_style->item(i)` that are
left; `sourcePropertyNames` is the set of names seen so far. -/
def appendStyleProperties (style : CSSStyleDeclaration) :
    List Str → List Str → List InspectorStyleProperty
  | [], _ => []
  | name :: rest, sourcePropertyNames =>
      if name ∈ sourcePropertyNames then appendStyleProperties style rest sourcePropertyNames
      else
        { sourceData := { name := name, value := getPropertyValue style name
                          important := !getPropertyPriorityIsEmpty style name
                          parsedOk := true, range := { start := 0, end_ := 0 } }
          hasSource := false, disabled := false, rawText := [] } ::
          appendStyleProperties style rest (name :: sourcePropertyNames)

/-- The method `populateAllProperties`: the flat listing, and the parent sheet after the call
of `ensureParsedDataReady`. A style object that is not in the live sheet lists no property of
its own. -/
def populateAllProperties (env : Env) (s : InspectorStyleSheet) (style : InspectorStyle) :
    List InspectorStyleProperty × InspectorStyleSheet :=
  let r := s.ensureParsedDataReady env
  let sourceData := if r.1 then r.2.ruleSourceDataFor style.m_style else none
  let sourcePropertyData := sourceData.map fun d => d.styleSourceData.propertyData
  let walked := match sourcePropertyData with
    | some properties => walkSource properties style.m_disabledProperties
    | none => ([], style.m_disabledProperties)
  let sourcePropertyNames := match sourcePropertyData with
    | some properties => properties.map fun p => p.name
    | none => []
  let live := match r.2.m_pageStyleSheet.styleObject style.m_style with
    | some m_style =>
        appendStyleProperties m_style (m_style.properties.map fun p => p.name) sourcePropertyNames
    | none => []
  (walked.1 ++ walked.2 ++ live, r.2)

def disableProperty (env : Env) (s : InspectorStyleSheet) (style : InspectorStyle)
    (indexToDisable : Nat) (allProperties : List InspectorStyleProperty) :
    Option (Bool × InspectorStyleSheet × InspectorStyle) :=
  match allProperties.get? indexToDisable with
  | none => none
  | some property =>
      let propertyStart := property.sourceData.range.start
      let propertyLength : Int := usub property.sourceData.range.end_ propertyStart
      let r := styleText env s style
      match r.1 with
      | none => some (false, r.2, style)
      | some oldStyleText =>
          let disabledProperty : InspectorStyleProperty :=
            { sourceData := { property.sourceData with
                range := { start := propertyStart, end_ := propertyStart } }
              hasSource := property.hasSource
              disabled := true
              rawText := substring oldStyleText propertyStart (addLong 0 propertyLength) }
          match replacePropertyInStyleText env r.2 style property [] with
          | none => none
          | some (false, s2) => some (false, s2, style)
          | some (true, s2) =>
              let insertionIndex := disabledIndexByOrdinal indexToDisable true allProperties
              if insertionIndex = UINT_MAX then
                some (true, s2, { style with
                  m_disabledProperties := style.m_disabledProperties ++ [disabledProperty] })
              else if insertionIndex > style.m_disabledProperties.length then none
              else
                let inserted := { style with m_disabledProperties :=
                  style.m_disabledProperties.take insertionIndex ++
                    disabledProperty :: style.m_disabledProperties.drop insertionIndex }
                some (true, s2, shiftDisabledProperties inserted (insertionIndex + 1) (-propertyLength))

def enableProperty (env : Env) (s : InspectorStyleSheet) (style : InspectorStyle)
    (indexToEnable : Nat) (allProperties : List InspectorStyleProperty) :
    Option (Bool × InspectorStyleSheet × InspectorStyle) :=
  let disabledIndex := disabledIndexByOrdinal indexToEnable false allProperties
  if disabledIndex = UINT_MAX then some (false, s, style)
  else
    match style.m_disabledProperties.get? disabledIndex with
    | none => none
    | some disabledProperty =>
        let removed := { style with
          m_disabledProperties := style.m_disabledProperties.eraseIdx disabledIndex }
        match replacePropertyInStyleText env s removed disabledProperty disabledProperty.rawText with
        | none => none
        | some (true, s2) =>
            some (true, s2, shiftDisabledProperties removed disabledIndex disabledProperty.rawText.length)
        | some (false, s2) => some (false, s2, removed)

def toggleProperty (env : Env) (s : InspectorStyleSheet) (style : InspectorStyle)
    (index : Nat) (disable : Bool) : Option (Bool × InspectorStyleSheet × InspectorStyle) :=
  let r := s.ensureParsedDataReady env
  if !r.1 then some (false, r.2, style)
  else
    match r.2.ruleSourceDataFor style.m_style with
    | none => some (false, r.2, style)
    | some _ =>
        let all := populateAllProperties env r.2 style
        match all.1.get? index with
        | none => some (false, all.2, style)
        | some property =>
            if property.disabled = disable then some (true, all.2, style)
            else if !disable then enableProperty env all.2 style index all.1
            else disableProperty env all.2 style index all.1

def setPropertyText (env : Env) (s : InspectorStyleSheet) (style : InspectorStyle)
    (index : Nat) (propertyText : Str) (overwrite : Bool) :
    Option (Bool × InspectorStyleSheet × InspectorStyle) :=
  let r := s.ensureParsedDataReady env
  if !r.1 then some (false, r.2, style)
  else
    let all := populateAllProperties env r.2 style
    let allProperties := all.1
    if overwrite then
      match allProperties.get? index with
      | none => none
      | some property =>
          let propertyStart := property.sourceData.range.start
          let propertyEnd := property.sourceData.range.end_
          let oldLength := usub propertyEnd propertyStart
          let newLength := propertyText.length
          let propertyLengthDelta : Int := usub newLength oldLength
          if !property.disabled then
            match replacePropertyInStyleText env all.2 style property propertyText with
            | none => none
            | some (false, s2) => some (false, s2, style)
            | some (true, s2) =>
                some (true, s2, shiftDisabledProperties style
                  (disabledIndexByOrdinal index true allProperties) propertyLengthDelta)
          else
            let allProperties := allProperties.set index { property with rawText := propertyText }
            if propertyText.length = 0 then enableProperty env all.2 style index allProperties
            else
              some (true, all.2, shiftDisabledProperties style
                (disabledIndexByOrdinal index true allProperties) propertyLengthDelta)
    else
      match all.2.ruleSourceDataFor style.m_style with
      | none => some (false, all.2, style)
      | some sourceData =>
          let r2 := styleText env all.2 style
          match r2.1 with
          | none => some (false, r2.2, style)
          | some text =>
              let propertyLengthDelta : Int := propertyText.length
              let propertyStart :=
                match allProperties.get? index with
                | some property =>
                    if property.hasSource then property.sourceData.range.start
                    else sourceData.styleSourceData.styleBodyRange.end_
                | none => sourceData.styleSourceData.styleBodyRange.end_
              match r2.2.setStyleText env style.m_style (insert text propertyText propertyStart) with
              | none => none
              | some (_, s3) =>
                  some (true, s3, shiftDisabledProperties style
                    (disabledIndexByOrdinal index true allProperties) propertyLengthDelta)

end InspectorStyle

/-! ## InspectorStyleSheet: edits by id, retained styles, revalidation -/

namespace InspectorStyle

/-- The factory `InspectorStyle::create(styleId, style, parentStyleSheet)`. -/
def create (styleId : InspectorCSSId) (style : Nat) : InspectorStyle :=
  { m_styleId := styleId, m_style := style, m_disabledProperties := [] }

def cssStyle (style : InspectorStyle) : Nat := style.m_style

/-- Modelled from the spec: `hasDisabledProperties()` of InspectorStyleSheet.h, true when the
list of disabled properties is not empty. -/
def hasDisabledProperties (style : InspectorStyle) : Bool := !style.m_disabledProperties.isEmpty

end InspectorStyle

namespace InspectorStyleSheet

def styleForId (s : InspectorStyleSheet) (id : InspectorCSSId) : Option Nat :=
  match s.ruleForId id with
  | none => none
  | some (_, rule) => some rule.style.handle

/-- The lookup `m_inspectorStyles.find(style)`. -/
def findInspectorStyle (s : InspectorStyleSheet) (style : Nat) : Option InspectorStyle :=
  (s.m_inspectorStyles.find? fun e => e.1 = style).map fun e => e.2

def inspectorStyleForId (s : InspectorStyleSheet) (id : InspectorCSSId) : Option InspectorStyle :=
  match s.styleForId id with
  | none => none
  | some style =>
      match s.findInspectorStyle style with
      | none => some (InspectorStyle.create id style)
      | some inspectorStyle => some inspectorStyle

/-- The map holds `RefPtr`s: an `InspectorStyle` found in the map is the retained object
itself, so what a call does to the object is seen through the map. This writes the object
back to the entry of its style, if there is one. -/
def shareInspectorStyle (s : InspectorStyleSheet) (inspectorStyle : InspectorStyle) :
    InspectorStyleSheet :=
  { s with m_inspectorStyles := s.m_inspectorStyles.map fun e =>
      if e.1 = inspectorStyle.cssStyle then (e.1, inspectorStyle) else e }

/-- The call `m_inspectorStyles.set(inspectorStyle->cssStyle(), inspectorStyle)`. -/
def rememberInspectorStyle (s : InspectorStyleSheet) (inspectorStyle : InspectorStyle) :
    InspectorStyleSheet :=
  if (s.findInspectorStyle inspectorStyle.cssStyle).isSome then s.shareInspectorStyle inspectorStyle
  else { s with m_inspectorStyles := s.m_inspectorStyles ++ [(inspectorStyle.cssStyle, inspectorStyle)] }

/-- The call `m_inspectorStyles.remove(style)`. -/
def forgetInspectorStyle (s : InspectorStyleSheet) (style : Nat) : InspectorStyleSheet :=
  { s with m_inspectorStyles := s.m_inspectorStyles.filter fun e => e.1 ≠ style }

/-- The method `InspectorStyleSheet::setPropertyText`. -/
def setPropertyText (env : Env) (s : InspectorStyleSheet) (id : InspectorCSSId)
    (propertyIndex : Nat) (text : Str) (overwrite : Bool) : Option (Bool × InspectorStyleSheet) :=
  match s.inspectorStyleForId id with
  | none => some (false, s)
  | some inspectorStyle =>
      match InspectorStyle.setPropertyText env s inspectorStyle propertyIndex text overwrite with
      | none => none
      | some (success, s1, inspectorStyle1) => some (success, s1.shareInspectorStyle inspectorStyle1)

/-- The method `InspectorStyleSheet::toggleProperty`. -/
def toggleProperty (env : Env) (s : InspectorStyleSheet) (id : InspectorCSSId)
    (propertyIndex : Nat) (disable : Bool) : Option (Bool × InspectorStyleSheet) :=
  match s.inspectorStyleForId id with
  | none => some (false, s)
  | some inspectorStyle =>
      match InspectorStyle.toggleProperty env s inspectorStyle propertyIndex disable with
      | none => none
      | some (success, s1, inspectorStyle1) =>
          let s2 := s1.shareInspectorStyle inspectorStyle1
          if success then
            if disable then some (success, s2.rememberInspectorStyle inspectorStyle1)
            else if !inspectorStyle1.hasDisabledProperties then
              some (success, s2.forgetInspectorStyle inspectorStyle1.cssStyle)
            else some (success, s2)
          else some (success, s2)

/-- The loop of `revalidateStyle` over the rules of the parsed sheet that are left. `cssText`
is `CSSStyleDeclaration::cssText()` of the live object with a given identity. -/
def revalidateStyleLoop (env : Env) (cssText : Nat → Str) (pageStyle : Nat) :
    List CSSRule → InspectorStyleSheet → Option InspectorStyleSheet
  | [], s => some s
  | styleBase :: rest, s =>
      match asCSSStyleRule styleBase with
      | none => revalidateStyleLoop env cssText pageStyle rest s
      | some parsedRule =>
          if parsedRule.style.handle = pageStyle then
            if cssText parsedRule.style.handle ≠ cssText pageStyle then
              let s1 := { s with
                m_inspectorStyles := s.m_inspectorStyles.filter fun e => e.1 ≠ pageStyle }
              match s1.setStyleText env pageStyle (cssText pageStyle) with
              | none => none
              | some (_, s2) => some s2
            else some s
          else revalidateStyleLoop env cssText pageStyle rest s

/-- The method `revalidateStyle`; `none` is the dereference of a null `parsedSheet`. -/
def revalidateStyle (env : Env) (cssText : Nat → Str) (s : InspectorStyleSheet) (pageStyle : Nat) :
    Option InspectorStyleSheet :=
  if s.m_isRevalidating then some s
  else
    let s1 := { s with m_isRevalidating := true }
    match s1.m_parsedStyleSheet.cssStyleSheet with
    | none => none
    | some parsedSheet =>
        match revalidateStyleLoop env cssText pageStyle parsedSheet.rules s1 with
        | none => none
        | some s2 => some { s2 with m_isRevalidating := false }

end InspectorStyleSheet

/-! ## InspectorStyle: the inspectable view -/

/-- The `InspectorObject` that `populateObjectWithStyleProperties` builds for one entry of the
listing. `status` and `parsedOk` are set for every entry; a key that has not been set is
`none`. -/
structure PropertyObject where
  status : Str
  parsedOk : Bool
  name : Option Str
  value : Option Str
  priority : Option Str
  implicit : Option Bool
  startOffset : Option Nat
  endOffset : Option Nat
  text : Option Str
  shorthandName : Option Str
  deriving DecidableEq, Repr

/-- The locals of `populateObjectWithStyleProperties`. The hash map
`propertyNameToPreviousActiveProperty` holds references to objects of the array
`propertiesObject`: a reference is the position of the object in the array. -/
structure StylePropertiesState where
  propertiesObject : List PropertyObject
  shorthandValues : List (Str × Str)
  propertyNameToPreviousActiveProperty : Str → Option Nat
  foundShorthands : List Str

namespace InspectorStyle

/-- The live style object of an `InspectorStyle`; a style object that is not in the live
sheet holds no property. -/
def liveStyle (s : InspectorStyleSheet) (style : InspectorStyle) : CSSStyleDeclaration :=
  match s.m_pageStyleSheet.styleObject style.m_style with
  | some m_style => m_style
  | none => { handle := style.m_style, properties := [] }

/-- Modelled from the spec: the live style queries `get_property_shorthand(name)` and
`is_property_implicit(name)`, answered by the first property of that name. -/
def getPropertyShorthand (style : CSSStyleDeclaration) (name : Str) : Str :=
  match style.properties.find? (fun p => p.name = name) with
  | some p => p.shorthand
  | none => []

def isPropertyImplicit (style : CSSStyleDeclaration) (name : Str) : Bool :=
  match style.properties.find? (fun p => p.name = name) with
  | some p => p.implicit
  | none => false

/-- The loop of `shorthandValue` over the names `m_style->item(i)` that are left. -/
def shorthandValueLoop (m_style : CSSStyleDeclaration) (shorthandProperty : Str) :
    List Str → Str → Str
  | [], value => value
  | individualProperty :: rest, value =>
      if getPropertyShorthand m_style individualProperty ≠ shorthandProperty then
        shorthandValueLoop m_style shorthandProperty rest value
      else if isPropertyImplicit m_style individualProperty then
        shorthandValueLoop m_style shorthandProperty rest value
      else
        let individualValue := getPropertyValue m_style individualProperty
        if individualValue = "initial".toList then
          shorthandValueLoop m_style shorthandProperty rest value
        else
          let value := if value.length ≠ 0 then value ++ " ".toList else value
          shorthandValueLoop m_style shorthandProperty rest (value ++ individualValue)

def shorthandValue (m_style : CSSStyleDeclaration) (shorthandProperty : Str) : Str :=
  let value := getPropertyValue m_style shorthandProperty
  if value.isEmpty then
    shorthandValueLoop m_style shorthandProperty (m_style.properties.map fun p => p.name) value
  else value

/-- The two calls `activeIt->second->setString("status", "inactive")` and
`activeIt->second->setString("shorthandName", "")` on the object at position `activeIt`. -/
def setInactive (propertiesObject : List PropertyObject) (activeIt : Nat) : List PropertyObject :=
  match propertiesObject.get? activeIt with
  | some previous =>
      propertiesObject.set activeIt
        { previous with status := "inactive".toList, shorthandName := some [] }
  | none => propertiesObject

/-- The object `property` that one iteration of the loop of
`populateObjectWithStyleProperties` creates for the entry `it`, with the keys that the
iteration sets on it. -/
def propertyObject (m_style : CSSStyleDeclaration) (it : InspectorStyleProperty) :
    PropertyObject :=
  let propertyEntry := it.sourceData
  let name := propertyEntry.name
  let property : PropertyObject :=
    { status := if it.disabled then "disabled".toList else "active".toList
      parsedOk := propertyEntry.parsedOk
      name := none, value := none, priority := none, implicit := none, startOffset := none
      endOffset := none, text := none, shorthandName := none }
  let property : PropertyObject :=
    if !it.disabled then
      let property := { property with
        name := some name, value := some propertyEntry.value
        priority := some (if propertyEntry.important then "important".toList else []) }
      if it.hasSource then
        { property with
          implicit := some false
          startOffset := some propertyEntry.range.start
          endOffset := some propertyEntry.range.end_ }
      else
        { property with
          implicit := some (isPropertyImplicit m_style name), status := "style".toList }
    else { property with text := some it.rawText }
  if propertyEntry.parsedOk then
    { property with shorthandName := some (getPropertyShorthand m_style name) }
  else { property with shorthandName := some [] }

/-- One iteration of the loop of `populateObjectWithStyleProperties`. The object `property`
is pushed when the iteration starts and written to until it ends; nothing else refers to it
before the iteration has ended, so it is added to the array here when it is complete. The
object that the map holds for the name is an earlier one of the array. -/
def populateObjectStep (m_style : CSSStyleDeclaration) (st : StylePropertiesState)
    (it : InspectorStyleProperty) : StylePropertiesState :=
  let propertyEntry := it.sourceData
  let name := propertyEntry.name
  let position := st.propertiesObject.length
  let earlier : List PropertyObject :=
    if !it.disabled && it.hasSource then
      match st.propertyNameToPreviousActiveProperty name with
      | some activeIt => setInactive st.propertiesObject activeIt
      | none => st.propertiesObject
    else st.propertiesObject
  let previousActive : Str → Option Nat :=
    if !it.disabled && it.hasSource then
      fun key => if key = name then some position else st.propertyNameToPreviousActiveProperty key
    else st.propertyNameToPreviousActiveProperty
  let shorthand := getPropertyShorthand m_style name
  let isNewShorthand : Bool :=
    propertyEntry.parsedOk && !shorthand.isEmpty && !st.foundShorthands.contains shorthand
  { propertiesObject := earlier ++ [propertyObject m_style it]
    shorthandValues :=
      if isNewShorthand then st.shorthandValues ++ [(shorthand, shorthandValue m_style shorthand)]
      else st.shorthandValues
    propertyNameToPreviousActiveProperty := previousActive
    foundShorthands := if isNewShorthand then shorthand :: st.foundShorthands else st.foundShorthands }

/-- The loop of `populateObjectWithStyleProperties` over a listing. -/
def populateObjectLoop (m_style : CSSStyleDeclaration) (properties : List InspectorStyleProperty) :
    StylePropertiesState :=
  properties.foldl (populateObjectStep m_style)
    { propertiesObject := [], shorthandValues := []
      propertyNameToPreviousActiveProperty := fun _ => none, foundShorthands := [] }

/-- The method `populateObjectWithStyleProperties`: the arrays `cssProperties` and
`shorthandValues` it stores in the result, and the parent sheet after the call. -/
def populateObjectWithStyleProperties (env : Env) (s : InspectorStyleSheet) (style : InspectorStyle) :
    (List PropertyObject × List (Str × Str)) × InspectorStyleSheet :=
  let properties := populateAllProperties env s style
  let st := populateObjectLoop (liveStyle properties.2 style) properties.1
  ((st.propertiesObject, st.shorthandValues), properties.2)

end InspectorStyle

/-! ## InspectorStyleSheetForInlineStyle -/

/-- The element of an inline style sheet, as the file uses it. -/
structure Element where
  isStyledElement : Bool
  /-- The value of the attribute `style`. -/
  styleAttribute : Str
  deriving DecidableEq, Repr

/-- The `CSSRuleSourceData` object of an inline style sheet. Its member `styleSourceData` is
a `RefPtr`, null in the object that `CSSRuleSourceData::create()` returns and until
`ensureParsedDataReady` assigns it, so the member is optional here; the selector range is not
used by the inline sheet. -/
structure InlineRuleSourceData where
  styleSourceData : Option CSSStyleSourceData
  deriving DecidableEq, Repr

/-- The members that the subclass `InspectorStyleSheetForInlineStyle` adds. -/
structure InspectorStyleSheetForInlineStyle where
  m_element : Element
  m_ruleSourceData : Option InlineRuleSourceData
  m_inspectorStyle : InspectorStyle
  deriving DecidableEq, Repr

namespace InspectorStyleSheetForInlineStyle

/-- The method `getStyleAttributeRanges(result)`: its return value and the object behind
`*result` afterwards. `parseDeclaration` is `CSSParser::parseDeclaration` on a fresh
declaration, which fills the style source data for the text of the attribute. -/
def getStyleAttributeRanges (parseDeclaration : Str → CSSStyleSourceData)
    (s : InspectorStyleSheetForInlineStyle) (result : CSSStyleSourceData) :
    Bool × CSSStyleSourceData :=
  if !s.m_element.isStyledElement then (false, result)
  else
    let styleText := s.m_element.styleAttribute
    if styleText.isEmpty then (true, { result with styleBodyRange := { start := 0, end_ := 0 } })
    else (true, parseDeclaration styleText)

/-- The method `InspectorStyleSheetForInlineStyle::ensureParsedDataReady`. -/
def ensureParsedDataReady (parseDeclaration : Str → CSSStyleSourceData)
    (s : InspectorStyleSheetForInlineStyle) : Bool × InspectorStyleSheetForInlineStyle :=
  if s.m_ruleSourceData.isSome then (true, s)
  else
    let s1 := { s with m_ruleSourceData := some { styleSourceData := none } }
    let sourceData : CSSStyleSourceData :=
      { styleBodyRange := { start := 0, end_ := 0 }, propertyData := [] }
    let r := getStyleAttributeRanges parseDeclaration s1 sourceData
    if !r.1 then (false, s1)
    else (true, { s1 with m_ruleSourceData := some { styleSourceData := some r.2 } })

/-- The method `InspectorStyleSheetForInlineStyle::setStyleText`; `setAttribute` is
`Element::setAttribute("style", text, ec)`, `none` when it sets the exception code. -/
def setStyleText (setAttribute : Element → Str → Option Element)
    (s : InspectorStyleSheetForInlineStyle) (text : Str) :
    Bool × InspectorStyleSheetForInlineStyle :=
  match setAttribute s.m_element text with
  | some element => (true, { s with m_element := element, m_ruleSourceData := none })
  | none => (false, { s with m_ruleSourceData := none })

end InspectorStyleSheetForInlineStyle

/-! ## Sequences of calls -/

/-- A call of one of the two public edit methods of `InspectorStyle`. -/
inductive PropertyCall where
  | toggleProperty (index : Nat) (disable : Bool)
  | setPropertyText (index : Nat) (propertyText : Str) (overwrite : Bool)
  deriving DecidableEq, Repr

/-- The call `c` on the style `style` of the sheet `s`. -/
def InspectorStyle.perform (env : Env) (s : InspectorStyleSheet) (style : InspectorStyle) :
    PropertyCall → Option (Bool × InspectorStyleSheet × InspectorStyle)
  | .toggleProperty index disable => InspectorStyle.toggleProperty env s style index disable
  | .setPropertyText index propertyText overwrite =>
      InspectorStyle.setPropertyText env s style index propertyText overwrite

/-- The states of a sheet and one of its styles that a sequence of calls of `toggleProperty`
and `setPropertyText`, successful or not, reaches from a style without disabled properties. -/
inductive Reachable (env : Env) : InspectorStyleSheet → InspectorStyle → Prop where
  | start (s : InspectorStyleSheet) (styleId : InspectorCSSId) (style : Nat) :
      Reachable env s (InspectorStyle.create styleId style)
  | step {s s1 : InspectorStyleSheet} {style style1 : InspectorStyle} (c : PropertyCall)
      (success : Bool) : Reachable env s style →
      InspectorStyle.perform env s style c = some (success, s1, style1) →
      Reachable env s1 style1

/-- A call of one of the public edit methods of `InspectorStyleSheet` that the retained
styles depend on. -/
inductive SheetCall where
  | toggleProperty (id : InspectorCSSId) (propertyIndex : Nat) (disable : Bool)
  | setPropertyText (id : InspectorCSSId) (propertyIndex : Nat) (text : Str) (overwrite : Bool)
  | setText (text : Str)
  deriving DecidableEq, Repr

/-- The call `c` on the sheet `s`. -/
def InspectorStyleSheet.perform (env : Env) (s : InspectorStyleSheet) :
    SheetCall → Option (Bool × InspectorStyleSheet)
  | .toggleProperty id propertyIndex disable => s.toggleProperty env id propertyIndex disable
  | .setPropertyText id propertyIndex text overwrite =>
      s.setPropertyText env id propertyIndex text overwrite
  | .setText text => some (s.setText env text)

/-- The result of a sequence of calls on the sheet `s`, `none` if one of them faults. -/
def InspectorStyleSheet.performAll (env : Env) (s : InspectorStyleSheet) :
    List SheetCall → Option InspectorStyleSheet
  | [] => some s
  | c :: rest =>
      match s.perform env c with
      | none => none
      | some (_, s1) => InspectorStyleSheet.performAll env s1 rest

/-! ## Readiness: the state in which the edits of one style run -/

/-- The parent sheet holds its text and source data, `rd` is the source data of the rule of
`style`, and `style` is the style of a style rule of the live sheet. -/
def Ready (s : InspectorStyleSheet) (style : Nat) (rd : CSSRuleSourceData) : Prop :=
  s.m_parsedStyleSheet.m_hasText = true ∧ s.ruleSourceDataFor style = some rd ∧
    s.ruleIndexByStyle style ≠ UINT_MAX

/-- The state a successful `setStyleText` leaves behind. -/
def committed (s : InspectorStyleSheet) (style : Nat) (properties : List LiveProperty)
    (patched : Str) : InspectorStyleSheet :=
  { s with
    m_pageStyleSheet := s.m_pageStyleSheet.withStyleProperties style properties
    m_parsedStyleSheet := s.m_parsedStyleSheet.setText patched }

/-- The text of the body of the rule that `rd` describes. -/
def bodyText (s : InspectorStyleSheet) (rd : CSSRuleSourceData) : Str :=
  substring s.m_parsedStyleSheet.m_text rd.styleSourceData.styleBodyRange.start
    (usub rd.styleSourceData.styleBodyRange.end_ rd.styleSourceData.styleBodyRange.start)

/-- The sheet text with the body of the rule that `rd` describes replaced by `body`. -/
def patchedText (s : InspectorStyleSheet) (rd : CSSRuleSourceData) (body : Str) : Str :=
  replace s.m_parsedStyleSheet.m_text rd.styleSourceData.styleBodyRange.start
    (usub rd.styleSourceData.styleBodyRange.end_ rd.styleSourceData.styleBodyRange.start) body

/-- The entry that `disableProperty` stores for `property` when the body text is `body`: the
data of the property with the range `[start, start]`, and the text it had in the body. -/
def disabledShadow (property : InspectorStyleProperty) (body : Str) : InspectorStyleProperty :=
  { sourceData := { property.sourceData with
      range := { start := property.sourceData.range.start
                 end_ := property.sourceData.range.start } }
    hasSource := property.hasSource
    disabled := true
    rawText := substring body property.sourceData.range.start
      (property.sourceData.range.end_ - property.sourceData.range.start) }

/-- The disabled properties after a shadow has been inserted at position `k` and the entries
behind it have been shifted back by `len`. -/
def insertShadow (disabled : List InspectorStyleProperty) (k : Nat)
    (shadow : InspectorStyleProperty) (len : Nat) : List InspectorStyleProperty :=
  disabled.take k ++ shadow :: (disabled.drop k).map (InspectorStyle.shiftRange (-(len : Int)))

/-- The entry that the source walk of `populateAllProperties` appends for the source
property `it`, `InspectorStyleProperty(*it, true, false)`. -/
def sourceEntry (it : CSSPropertySourceData) : InspectorStyleProperty :=
  { sourceData := it, hasSource := true, disabled := false, rawText := [] }

/-- The reference definition of `disabled_index_by_ordinal`, in the words of the
specification: the number of disabled entries at flat positions in front of `ord` when the
entry at `ord` is disabled, the same number when that entry is not disabled or `ord` is past
the end while `allowSuccessor` is set and a disabled entry lies behind `ord`, and `UINT_MAX`
in every other case. -/
def disabledIndexReference (ord : Nat) (allowSuccessor : Bool)
    (listing : List InspectorStyleProperty) : Nat :=
  let countBefore := ((listing.take ord).filter fun q => q.disabled).length
  let disabledAtOrd :=
    match listing.get? ord with
    | some q => q.disabled
    | none => false
  if disabledAtOrd then countBefore
  else if allowSuccessor && (listing.drop (ord + 1)).any (fun q => q.disabled) then countBefore
  else UINT_MAX

/-- The entry `e` is a source property that is not disabled and is named `name`: the kind of
entry that `populateObjectWithStyleProperties` records as the active property of its name. -/
def isActive (e : InspectorStyleProperty) (name : Str) : Prop :=
  e.disabled = false ∧ e.hasSource = true ∧ e.sourceData.name = name

/-- Behind position `i` the listing holds a source property that is not disabled and is
named `name`. -/
def shadowedLater (listing : List InspectorStyleProperty) (i : Nat) (name : Str) : Prop :=
  ∃ j e, i < j ∧ listing.get? j = some e ∧ isActive e name

/-- The status that the specification gives the record `o` of the entry `e` at position `i`
of the listing: `disabled` for a disabled entry, `style` for an entry without source, and for
a source property that is not disabled `inactive` with an empty `shorthandName` when a later
one has the same name, `active` when none has. -/
def StatusAsSpecified (listing : List InspectorStyleProperty) (i : Nat)
    (e : InspectorStyleProperty) (o : PropertyObject) : Prop :=
  (e.disabled = true → o.status = "disabled".toList) ∧
    (e.disabled = false → e.hasSource = false → o.status = "style".toList) ∧
    (e.disabled = false → e.hasSource = true → shadowedLater listing i e.sourceData.name →
      o.status = "inactive".toList ∧ o.shorthandName = some []) ∧
    (e.disabled = false → e.hasSource = true → ¬shadowedLater listing i e.sourceData.name →
      o.status = "active".toList)

/-- What the loop of `populateObjectWithStyleProperties` has established when it has processed
the entries `l`: one record per entry, the map points from a name to the last source
property of that name that is not disabled, and every record has the status specified for
the entries seen so far. -/
def LoopInvariant (l : List InspectorStyleProperty) (st : StylePropertiesState) : Prop :=
  st.propertiesObject.length = l.length ∧
    (∀ name a, st.propertyNameToPreviousActiveProperty name = some a →
      ∃ e, l.get? a = some e ∧ isActive e name ∧
        ∀ j e2, a < j → l.get? j = some e2 → ¬isActive e2 name) ∧
    (∀ name, st.propertyNameToPreviousActiveProperty name = none →
      ∀ j e2, l.get? j = some e2 → ¬isActive e2 name) ∧
    ∀ i e, l.get? i = some e →
      ∃ o, st.propertiesObject.get? i = some o ∧ StatusAsSpecified l i e o

/-! ## Worked examples -/

/-- A live property without shorthand. -/
def liveProperty (name value : String) : LiveProperty :=
  { name := name.toList, value := value.toList, important := false, implicit := false
    shorthand := [] }

/-- A longhand that the live style derives from a shorthand of the text. -/
def implicitLonghand (name value shorthand : String) : LiveProperty :=
  { name := name.toList, value := value.toList, important := false, implicit := true
    shorthand := shorthand.toList }

/-- A source property. -/
def sourceProperty (name value : String) (start end_ : Nat) : CSSPropertySourceData :=
  { name := name.toList, value := value.toList, important := false, parsedOk := true
    range := { start := start, end_ := end_ } }

/-- The rule source data of a sheet that consists of one rule with selector range `[0, sel)`. -/
def oneRule (sel bodyStart bodyEnd : Nat) (properties : List CSSPropertySourceData) :
    List ParsedRule :=
  [{ isStyleRule := true
     sourceData := some
       { selectorListRange := { start := 0, end_ := sel }
         styleSourceData :=
           { styleBodyRange := { start := bodyStart, end_ := bodyEnd }
             propertyData := properties } } }]

/-- What the CSS parser reports for the sheet texts of the examples; property ranges count
from the start of the body. -/
def exampleParseSheet (text : Str) : List ParsedRule :=
  if text = "a { color: red; margin: 0; }".toList then
    oneRule 1 3 27 [sourceProperty "color" "red" 1 12, sourceProperty "margin" "0" 13 23]
  else if text = "a {  margin: 0; }".toList then
    oneRule 1 3 16 [sourceProperty "margin" "0" 2 12]
  else if text = "a { color: red; }".toList then
    oneRule 1 3 16 [sourceProperty "color" "red" 1 12]
  else if text = "a { color: blue; }".toList then
    oneRule 1 3 17 [sourceProperty "color" "blue" 1 13]
  else if text = "a { margin: 0; }".toList then
    oneRule 1 3 15 [sourceProperty "margin" "0" 1 11]
  else if text = "a { color: red;  }".toList then
    oneRule 1 3 17 [sourceProperty "color" "red" 1 12]
  else if text = "a { }".toList then oneRule 1 3 4 []
  else if text = "a {  }".toList then oneRule 1 3 5 []
  else if text = "a { color: red;}".toList then
    oneRule 1 3 15 [sourceProperty "color" "red" 1 12]
  else []

/-- The four longhands of `margin: 0`. -/
def marginLonghands : List LiveProperty :=
  [implicitLonghand "margin-top" "0px" "margin", implicitLonghand "margin-right" "0px" "margin",
   implicitLonghand "margin-bottom" "0px" "margin", implicitLonghand "margin-left" "0px" "margin"]

/-- What the live style holds after `setCssText` with the body texts of the examples. -/
def exampleSetCssText (_style : Nat) (text : Str) : Option (List LiveProperty) :=
  if text = " color: red; margin: 0; ".toList then
    some (liveProperty "color" "red" :: marginLonghands)
  else if text = "  margin: 0; ".toList then some marginLonghands
  else if text = " margin: 0; ".toList then some marginLonghands
  else if text = " color: red; ".toList then some [liveProperty "color" "red"]
  else if text = " color: red;".toList then some [liveProperty "color" "red"]
  else if text = " color: blue; ".toList then some [liveProperty "color" "blue"]
  else some []

/-- The collaborators of the examples: the sheet is the text of a `style` element. -/
def exampleEnv : Env :=
  { parseSheet := exampleParseSheet
    setCssText := exampleSetCssText
    parseString := fun _ _ => []
    addRule := fun _ selector =>
      some { selectorText := selector, style := { handle := 1, properties := [] } }
    ownerNode := none
    hasOwnerDocument := false
    resourceContent := none }

/-- An inspector style sheet whose live sheet holds the one rule `a` with the given live
properties, whose stored text is `text`, and whose source data has been computed. -/
def exampleSheet (text : String) (properties : List LiveProperty) : InspectorStyleSheet :=
  { m_id := "1".toList
    m_pageStyleSheet :=
      { rules := [CSSRule.styleRule
          { selectorText := "a".toList, style := { handle := 0, properties := properties } }]
        useStrictParsing := true }
    m_parsedStyleSheet :=
      { m_parserOutput := none, m_text := text.toList, m_hasText := true
        m_sourceData := some ((exampleParseSheet text.toList).filterMap
          fun r => if r.isStyleRule then r.sourceData else none) }
    m_inspectorStyles := []
    m_isRevalidating := false }

/-- The inspector style of the rule `a` of the examples, with the given disabled properties. -/
def exampleStyle (disabled : List InspectorStyleProperty) : InspectorStyle :=
  { m_styleId := InspectorCSSId.parts "1".toList "0".toList, m_style := 0
    m_disabledProperties := disabled }

/-- The source data of the rule `a` in the sheet text `text`. -/
def exampleSourceData (sel bodyStart bodyEnd : Nat) (properties : List CSSPropertySourceData) :
    CSSRuleSourceData :=
  { selectorListRange := { start := 0, end_ := sel }
    styleSourceData :=
      { styleBodyRange := { start := bodyStart, end_ := bodyEnd }, propertyData := properties } }

/-- A live sheet with the two rules `a` and `b`, whose stored text has not been read yet. -/
def twoRuleSheet : InspectorStyleSheet :=
  { m_id := "1".toList
    m_pageStyleSheet :=
      { rules :=
          [CSSRule.styleRule { selectorText := "a".toList, style := { handle := 0, properties := [] } },
           CSSRule.styleRule { selectorText := "b".toList, style := { handle := 1, properties := [] } }]
        useStrictParsing := true }
    m_parsedStyleSheet := ParsedStyleSheet.new
    m_inspectorStyles := []
    m_isRevalidating := false }

/-- Collaborators whose `parseString` turns the text `p { }` into the one rule `p`. -/
def reparseEnv : Env :=
  { exampleEnv with
    parseString := fun text _ =>
      if text = "p { }".toList then
        [CSSRule.styleRule { selectorText := "p".toList, style := { handle := 2, properties := [] } }]
      else [] }

/-- The sheet `a { color: red; margin: 0; }` with its live style. -/
def colorMarginSheet : InspectorStyleSheet :=
  exampleSheet "a { color: red; margin: 0; }" (liveProperty "color" "red" :: marginLonghands)

/-- The entry of the source property `color` in the listing of `colorMarginSheet`. -/
def colorEntry : InspectorStyleProperty :=
  { sourceData := sourceProperty "color" "red" 1 12, hasSource := true, disabled := false
    rawText := [] }

/-- The shadow of the property `color` of `colorMarginSheet`. -/
def colorShadow : InspectorStyleProperty :=
  { sourceData := sourceProperty "color" "red" 1 1, hasSource := true, disabled := true
    rawText := "color: red;".toList }

/-- The sheet `colorMarginSheet` after `color` has been disabled: the text has lost the
property and the source data is gone. -/
def disabledColorSheet : InspectorStyleSheet :=
  { m_id := "1".toList
    m_pageStyleSheet :=
      { rules := [CSSRule.styleRule
          { selectorText := "a".toList, style := { handle := 0, properties := marginLonghands } }]
        useStrictParsing := true }
    m_parsedStyleSheet :=
      { m_parserOutput := none, m_text := "a {  margin: 0; }".toList, m_hasText := true
        m_sourceData := none }
    m_inspectorStyles := []
    m_isRevalidating := false }

/-- The shadow of the property `margin` of `colorMarginSheet`. -/
def marginShadow : InspectorStyleProperty :=
  { sourceData := sourceProperty "margin" "0" 13 13, hasSource := true, disabled := true
    rawText := "margin: 0;".toList }

/-- The sheet `colorMarginSheet` after `margin` has been disabled and the text re-parsed. -/
def disabledMarginSheet : InspectorStyleSheet :=
  exampleSheet "a { color: red;  }" [liveProperty "color" "red"]

/-- The sheet `a { margin: 0; }`, whose live style holds the four longhands of `margin`. -/
def marginSheet : InspectorStyleSheet := exampleSheet "a { margin: 0; }" marginLonghands

/-- Result, sheet text and number of disabled properties of a call of `toggleProperty` or
`setPropertyText`. -/
def observe (r : Option (Bool × InspectorStyleSheet × InspectorStyle)) :
    Option (Bool × Str × Nat) :=
  r.map fun x => (x.1, x.2.1.m_parsedStyleSheet.m_text, x.2.2.m_disabledProperties.length)

/-- A parser that agrees with `exampleParseSheet` except that it lets the property of
`a {  margin: 0; }` begin with the blanks in front of it, at offset 0 of the body. -/
def leadingBlankParseSheet (text : Str) : List ParsedRule :=
  if text = "a {  margin: 0; }".toList then oneRule 1 3 16 [sourceProperty "margin" "0" 0 12]
  else exampleParseSheet text

/-- The collaborators of the examples with the parser `leadingBlankParseSheet`. -/
def leadingBlankEnv : Env := { exampleEnv with parseSheet := leadingBlankParseSheet }

/-- The style source data that `ensureParsedDataReady` makes available for the style with
identity `style`. -/
def sourceDataAfterReparse (env : Env) (s : InspectorStyleSheet) (style : Nat) :
    Option CSSRuleSourceData :=
  (s.ensureParsedDataReady env).2.ruleSourceDataFor style

/-- A sheet whose live rule `a` holds `color: red` and whose text has not been read; with
`exampleEnv` there is neither a `style` element nor a resource to read it from. -/
def unreadSheet : InspectorStyleSheet :=
  { m_id := "1".toList
    m_pageStyleSheet :=
      { rules := [CSSRule.styleRule
          { selectorText := "a".toList
            style := { handle := 0, properties := [liveProperty "color" "red"] } }]
        useStrictParsing := true }
    m_parsedStyleSheet := ParsedStyleSheet.new
    m_inspectorStyles := []
    m_isRevalidating := false }

/-- The collaborators of the examples with a live style that rejects every text. -/
def rejectingEnv : Env := { exampleEnv with setCssText := fun _ _ => none }

/-- The sheet `a {  margin: 0; }` with its source data, the state in which `color` is disabled
and the text has been re-parsed. -/
def reparsedColorSheet : InspectorStyleSheet := exampleSheet "a {  margin: 0; }" marginLonghands

/-- The shadow of `margin` of `disabledMarginSheet` after its range has been moved by 12. -/
def movedMarginShadow : InspectorStyleProperty :=
  { sourceData := sourceProperty "margin" "0" 25 25, hasSource := true, disabled := true
    rawText := "margin: 0;".toList }

/-- The shadow of `color` after its range has been moved by 7. -/
def movedColorShadow : InspectorStyleProperty :=
  { sourceData := sourceProperty "color" "red" 8 8, hasSource := true, disabled := true
    rawText := "color: red;".toList }

/-- A sheet whose stored text is empty while the live sheet holds the rule `a`, as after a
script has inserted the rule into an empty `style` element. -/
def emptyTextSheet : InspectorStyleSheet :=
  { m_id := "1".toList
    m_pageStyleSheet :=
      { rules := [CSSRule.styleRule
          { selectorText := "a".toList, style := { handle := 0, properties := [] } }]
        useStrictParsing := true }
    m_parsedStyleSheet :=
      { m_parserOutput := none, m_text := [], m_hasText := true, m_sourceData := none }
    m_inspectorStyles := []
    m_isRevalidating := false }

/-- The sheet `a { color: red; }` with source data whose property range `[4, 15)` counts from
the start of the sheet text, as in the second scenario of the specification. -/
def absoluteRangeSheet : InspectorStyleSheet :=
  { m_id := "1".toList
    m_pageStyleSheet :=
      { rules := [CSSRule.styleRule
          { selectorText := "a".toList
            style := { handle := 0, properties := [liveProperty "color" "red"] } }]
        useStrictParsing := true }
    m_parsedStyleSheet :=
      { m_parserOutput := none, m_text := "a { color: red; }".toList, m_hasText := true
        m_sourceData := some [exampleSourceData 1 3 16 [sourceProperty "color" "red" 4 15]] }
    m_inspectorStyles := []
    m_isRevalidating := false }

/-- The id of the rule `a` of the examples. -/
def exampleId : InspectorCSSId := InspectorCSSId.parts "1".toList "0".toList

/-- The start offsets of the disabled properties of a style. -/
def disabledStarts (style : InspectorStyle) : List Nat :=
  style.m_disabledProperties.map fun q => q.sourceData.range.start

/-- A declaration parser for the examples: the body range of the attribute text, and no
property. -/
def exampleParseDeclaration (text : Str) : CSSStyleSourceData :=
  { styleBodyRange := { start := 0, end_ := text.length }, propertyData := [] }

/-- The inline style sheet of an element that is not a styled element, before the first call
of `ensureParsedDataReady`. -/
def unstyledElementSheet : InspectorStyleSheetForInlineStyle :=
  { m_element := { isStyledElement := false, styleAttribute := [] }
    m_ruleSourceData := none
    m_inspectorStyle := InspectorStyle.create (InspectorCSSId.parts "2".toList "0".toList) 0 }

/-- A disabled property `top: 0;` with the range `[0, 0]`. -/
def topShadow : InspectorStyleProperty :=
  { sourceData := sourceProperty "top" "0" 0 0, hasSource := true, disabled := true
    rawText := "top: 0;".toList }

/-- The shadow of a property `margin-top: 1px;` that stood in front of `margin: 0;`. -/
def marginTopShadow : InspectorStyleProperty :=
  { sourceData := sourceProperty "margin-top" "1px" 1 1, hasSource := true, disabled := true
    rawText := "margin-top: 1px;".toList }

/-- Name, `hasSource` and `disabled` of the entries of a listing. -/
def entryKinds (listing : List InspectorStyleProperty) : List (Str × Bool × Bool) :=
  listing.map fun e => (e.sourceData.name, e.hasSource, e.disabled)

/-- The sheet `a { color: red; color: blue; }` with its source data and its live style, in
which `color` is `blue`. -/
def twoColorSheet : InspectorStyleSheet :=
  { m_id := "1".toList
    m_pageStyleSheet :=
      { rules := [CSSRule.styleRule
          { selectorText := "a".toList
            style := { handle := 0, properties := [liveProperty "color" "blue"] } }]
        useStrictParsing := true }
    m_parsedStyleSheet :=
      { m_parserOutput := none, m_text := "a { color: red; color: blue; }".toList, m_hasText := true
        m_sourceData := some [exampleSourceData 1 3 29
          [sourceProperty "color" "red" 1 12, sourceProperty "color" "blue" 13 25]] }
    m_inspectorStyles := []
    m_isRevalidating := false }

/-- The status of every record of a view. -/
def statuses (view : (List PropertyObject × List (Str × Str)) × InspectorStyleSheet) : List Str :=
  view.1.1.map fun o => o.status

theorem usub_of_le {a b : Nat} (h : b ≤ a) (ha : a < 4294967296) : usub a b = a - b := by
  unfold usub
  omega

theorem Ready.hasSourceData {s : InspectorStyleSheet} {style : Nat} {rd : CSSRuleSourceData}
    (h : Ready s style rd) : s.m_parsedStyleSheet.hasSourceData = true := by
  obtain ⟨_, h2, _⟩ := h
  unfold InspectorStyleSheet.ruleSourceDataFor ParsedStyleSheet.ruleSourceDataAt at h2
  unfold ParsedStyleSheet.hasSourceData
  cases hsd : s.m_parsedStyleSheet.m_sourceData with
  | none => rw [hsd] at h2; simp at h2
  | some v => rfl

theorem ensureText_of_hasText (env : Env) {s : InspectorStyleSheet}
    (h : s.m_parsedStyleSheet.m_hasText = true) : s.ensureText env = (true, s) := by
  simp [InspectorStyleSheet.ensureText, ParsedStyleSheet.hasText, h]

theorem ensureParsedDataReady_of_ready (env : Env) {s : InspectorStyleSheet} {style : Nat}
    {rd : CSSRuleSourceData} (h : Ready s style rd) : s.ensureParsedDataReady env = (true, s) := by
  have h1 := ensureText_of_hasText env h.1
  have h2 := h.hasSourceData
  simp [InspectorStyleSheet.ensureParsedDataReady, InspectorStyleSheet.ensureSourceData, h1, h2]

theorem text_of_hasText (env : Env) {s : InspectorStyleSheet}
    (h : s.m_parsedStyleSheet.m_hasText = true) :
    s.text env = (some s.m_parsedStyleSheet.m_text, s) := by
  simp [InspectorStyleSheet.text, ensureText_of_hasText env h, ParsedStyleSheet.text]

theorem setStyleText_of_ready (env : Env) {s : InspectorStyleSheet} {style : Nat}
    {rd : CSSRuleSourceData} (h : Ready s style rd) (text : Str) :
    s.setStyleText env style text =
      match env.setCssText style text with
      | none => some (false, s)
      | some properties => some (true, committed s style properties (patchedText s rd text)) := by
  have h1 := ensureParsedDataReady_of_ready env h
  have h3 : (s.ruleOrStyleId style).isEmpty = false := by
    simp [InspectorStyleSheet.ruleOrStyleId, h.2.2, InspectorCSSId.isEmpty]
  simp only [InspectorStyleSheet.setStyleText, InspectorStyleSheet.styleSheetTextWithChangedStyle,
    h1, h.2.1, Bool.not_true, Bool.false_eq_true, if_false, h3]
  cases env.setCssText style text <;> rfl

theorem styleText_of_ready (env : Env) {s : InspectorStyleSheet} {style : InspectorStyle}
    {rd : CSSRuleSourceData} (h : Ready s style.m_style rd) :
    InspectorStyle.styleText env s style = (some (bodyText s rd), s) := by
  simp only [InspectorStyle.styleText, h.2.1, text_of_hasText env h.1]
  rfl

theorem replacePropertyInStyleText_of_ready (env : Env) {s : InspectorStyleSheet}
    {style : InspectorStyle} {rd : CSSRuleSourceData} (h : Ready s style.m_style rd)
    (property : InspectorStyleProperty) (newText : Str) :
    InspectorStyle.replacePropertyInStyleText env s style property newText =
      s.setStyleText env style.m_style
        (replace (bodyText s rd) property.sourceData.range.start
          (usub property.sourceData.range.end_ property.sourceData.range.start) newText) := by
  simp only [InspectorStyle.replacePropertyInStyleText, styleText_of_ready env h]

theorem populateAllProperties_snd_of_ready (env : Env) {s : InspectorStyleSheet}
    {style : InspectorStyle} {rd : CSSRuleSourceData} (h : Ready s style.m_style rd) :
    (InspectorStyle.populateAllProperties env s style).2 = s := by
  simp only [InspectorStyle.populateAllProperties, ensureParsedDataReady_of_ready env h]

/-- Splicing a body into the text: with a body range inside the text, the text before the
body and the text after it are kept. -/
theorem patchedText_eq {s : InspectorStyleSheet} {rd : CSSRuleSourceData}
    (hb : rd.styleSourceData.styleBodyRange.start ≤ rd.styleSourceData.styleBodyRange.end_)
    (he : rd.styleSourceData.styleBodyRange.end_ < 4294967296) (body : Str) :
    patchedText s rd body =
      s.m_parsedStyleSheet.m_text.take rd.styleSourceData.styleBodyRange.start ++ body ++
        s.m_parsedStyleSheet.m_text.drop rd.styleSourceData.styleBodyRange.end_ := by
  unfold patchedText replace
  rw [usub_of_le hb he, Nat.add_sub_cancel' hb]

theorem bodyText_length {s : InspectorStyleSheet} {rd : CSSRuleSourceData}
    (hb : rd.styleSourceData.styleBodyRange.start ≤ rd.styleSourceData.styleBodyRange.end_)
    (he : rd.styleSourceData.styleBodyRange.end_ ≤ s.m_parsedStyleSheet.m_text.length)
    (hl : s.m_parsedStyleSheet.m_text.length < 4294967296) :
    (bodyText s rd).length =
      rd.styleSourceData.styleBodyRange.end_ - rd.styleSourceData.styleBodyRange.start := by
  unfold bodyText substring
  rw [usub_of_le hb (by omega), List.length_take, List.length_drop]
  omega

/-! ## InspectorStyleSheet::setStyleText -/

/-- C5: for a style of the sheet whose rule source data has a body range `[b, e)` inside the
stored text, `setStyleText` returns true when the live style accepts the new body, and the
stored text is then the old text with `[b, e)` replaced by the new body and the source data
is dropped; when the live style rejects the new body it returns false and the sheet is left
as it was. -/
theorem setStyleText_commits_iff_live_accepts (env : Env) (s : InspectorStyleSheet) (style : Nat)
    (rd : CSSRuleSourceData) (newBody : Str) (h : Ready s style rd)
    (hb : rd.styleSourceData.styleBodyRange.start ≤ rd.styleSourceData.styleBodyRange.end_)
    (he : rd.styleSourceData.styleBodyRange.end_ ≤ s.m_parsedStyleSheet.m_text.length)
    (hl : s.m_parsedStyleSheet.m_text.length < 4294967296) :
    (∀ properties, env.setCssText style newBody = some properties →
      ∃ s1, s.setStyleText env style newBody = some (true, s1) ∧
        s1.m_parsedStyleSheet.m_text =
          s.m_parsedStyleSheet.m_text.take rd.styleSourceData.styleBodyRange.start ++ newBody ++
            s.m_parsedStyleSheet.m_text.drop rd.styleSourceData.styleBodyRange.end_ ∧
        s1.m_parsedStyleSheet.m_sourceData = none) ∧
    (env.setCssText style newBody = none → s.setStyleText env style newBody = some (false, s)) := by
  constructor
  · intro properties hacc
    refine ⟨committed s style properties (patchedText s rd newBody), ?_, ?_, rfl⟩
    · rw [setStyleText_of_ready env h, hacc]
    · exact patchedText_eq hb (by omega) newBody
  · intro hrej
    rw [setStyleText_of_ready env h, hrej]

/-- C5, witness: committing the body ` color: blue; ` to `a { color: red; }`. -/
theorem setStyleText_commits_iff_live_accepts_witness :
    Ready (exampleSheet "a { color: red; }" [liveProperty "color" "red"]) 0
        (exampleSourceData 1 3 16 [sourceProperty "color" "red" 1 12]) ∧
      (∃ s1, (exampleSheet "a { color: red; }" [liveProperty "color" "red"]).setStyleText
          exampleEnv 0 " color: blue; ".toList = some (true, s1) ∧
        s1.m_parsedStyleSheet.m_text = "a { color: blue; }".toList ∧
        s1.m_parsedStyleSheet.m_sourceData = none) := by
  have hready : Ready (exampleSheet "a { color: red; }" [liveProperty "color" "red"]) 0
      (exampleSourceData 1 3 16 [sourceProperty "color" "red" 1 12]) :=
    ⟨rfl, by decide, by decide⟩
  refine ⟨hready, ?_⟩
  obtain ⟨s1, h1, h2, h3⟩ := (setStyleText_commits_iff_live_accepts exampleEnv _ 0 _
    " color: blue; ".toList hready (by decide) (by decide) (by decide)).1
      [liveProperty "color" "blue"] (by decide)
  exact ⟨s1, h1, by rw [h2]; decide, h3⟩

/-! ## InspectorStyle::setPropertyText -/

theorem take_splice {α : Type} (a b c : List α) (n : Nat) (hn : n = a.length) :
    (a ++ b ++ c).take n = a := by
  subst hn
  rw [List.append_assoc]
  exact List.take_left _ _

theorem drop_splice {α : Type} (a b c : List α) (n : Nat) (hn : n = a.length + b.length) :
    (a ++ b ++ c).drop n = c := by
  rw [← List.length_append] at hn
  subst hn
  exact List.drop_left _ _

theorem replace_of_le {s : Str} {a b : Nat} (hab : a ≤ b) (hb : b < 4294967296) (t : Str) :
    replace s a (usub b a) t = s.take a ++ t ++ s.drop b := by
  unfold replace
  rw [usub_of_le hab hb, Nat.add_sub_cancel' hab]

/-- The result of an overwrite of an enabled entry that the live style accepts. -/
theorem setPropertyText_overwrite_of_ready (env : Env) {s : InspectorStyleSheet}
    {style : InspectorStyle} {rd : CSSRuleSourceData} (h : Ready s style.m_style rd) (i : Nat)
    (property : InspectorStyleProperty) (t : Str)
    (hentry : (InspectorStyle.populateAllProperties env s style).1.get? i = some property)
    (hdis : property.disabled = false)
    (hr : property.sourceData.range.start ≤ property.sourceData.range.end_)
    (hpe : property.sourceData.range.end_ < 4294967296)
    (properties : List LiveProperty)
    (hprops : env.setCssText style.m_style
      ((bodyText s rd).take property.sourceData.range.start ++ t ++
        (bodyText s rd).drop property.sourceData.range.end_) = some properties) :
    InspectorStyle.setPropertyText env s style i t true =
      some (true, committed s style.m_style properties (patchedText s rd
          ((bodyText s rd).take property.sourceData.range.start ++ t ++
            (bodyText s rd).drop property.sourceData.range.end_)),
        InspectorStyle.shiftDisabledProperties style
          (InspectorStyle.disabledIndexByOrdinal i true
            (InspectorStyle.populateAllProperties env s style).1)
          (usub t.length (usub property.sourceData.range.end_ property.sourceData.range.start))) := by
  have hrep := replace_of_le (s := bodyText s rd) hr hpe t
  simp only [InspectorStyle.setPropertyText, ensureParsedDataReady_of_ready env h,
    populateAllProperties_snd_of_ready env h, hentry, hdis,
    replacePropertyInStyleText_of_ready env h, setStyleText_of_ready env h, hrep, hprops]
  rfl

/-- C3: overwriting the enabled source property at flat index `i`, whose range `[ps, pe)` lies
inside the body, with a text the live style accepts returns true; the body `[b, e)` of the
rule becomes `body[0, ps) ++ t ++ body[pe, end)` and the text before offset `b` and the text
from the old offset `e` on are kept. -/
theorem setPropertyText_overwrite_enabled (env : Env) (s : InspectorStyleSheet)
    (style : InspectorStyle) (rd : CSSRuleSourceData) (i : Nat) (property : InspectorStyleProperty)
    (t : Str) (h : Ready s style.m_style rd)
    (hentry : (InspectorStyle.populateAllProperties env s style).1.get? i = some property)
    (hdis : property.disabled = false) (_hsrc : property.hasSource = true)
    (hr : property.sourceData.range.start ≤ property.sourceData.range.end_)
    (hrb : property.sourceData.range.end_ ≤ (bodyText s rd).length)
    (hb : rd.styleSourceData.styleBodyRange.start ≤ rd.styleSourceData.styleBodyRange.end_)
    (he : rd.styleSourceData.styleBodyRange.end_ ≤ s.m_parsedStyleSheet.m_text.length)
    (hl : s.m_parsedStyleSheet.m_text.length < 4294967296)
    (hacc : (env.setCssText style.m_style
      ((bodyText s rd).take property.sourceData.range.start ++ t ++
        (bodyText s rd).drop property.sourceData.range.end_)).isSome = true) :
    ∃ s1 style1, InspectorStyle.setPropertyText env s style i t true = some (true, s1, style1) ∧
      s1.m_parsedStyleSheet.m_text =
        s.m_parsedStyleSheet.m_text.take rd.styleSourceData.styleBodyRange.start ++
          ((bodyText s rd).take property.sourceData.range.start ++ t ++
            (bodyText s rd).drop property.sourceData.range.end_) ++
          s.m_parsedStyleSheet.m_text.drop rd.styleSourceData.styleBodyRange.end_ ∧
      s1.m_parsedStyleSheet.m_text.take rd.styleSourceData.styleBodyRange.start =
        s.m_parsedStyleSheet.m_text.take rd.styleSourceData.styleBodyRange.start ∧
      s1.m_parsedStyleSheet.m_text.drop (rd.styleSourceData.styleBodyRange.start +
          ((bodyText s rd).take property.sourceData.range.start ++ t ++
            (bodyText s rd).drop property.sourceData.range.end_).length) =
        s.m_parsedStyleSheet.m_text.drop rd.styleSourceData.styleBodyRange.end_ := by
  obtain ⟨properties, hprops⟩ := Option.isSome_iff_exists.mp hacc
  have hbl := bodyText_length hb he hl
  have hpe : property.sourceData.range.end_ < 4294967296 := by omega
  have hcall := setPropertyText_overwrite_of_ready env h i property t hentry hdis hr hpe
    properties hprops
  have htext := patchedText_eq (s := s) hb (by omega)
    ((bodyText s rd).take property.sourceData.range.start ++ t ++
      (bodyText s rd).drop property.sourceData.range.end_)
  have hbt : rd.styleSourceData.styleBodyRange.start ≤ s.m_parsedStyleSheet.m_text.length := by
    omega
  have hlen : (s.m_parsedStyleSheet.m_text.take rd.styleSourceData.styleBodyRange.start).length =
      rd.styleSourceData.styleBodyRange.start := by
    rw [List.length_take]; omega
  refine ⟨_, _, hcall, htext, ?_, ?_⟩
  · show (patchedText s rd _).take _ = _
    rw [htext]
    exact take_splice _ _ _ _ hlen.symm
  · show (patchedText s rd _).drop _ = _
    rw [htext]
    exact drop_splice _ _ _ _ (by rw [hlen])

/-- C3, witness: overwriting `color: red;` in `a { color: red; }` by `color: blue;`. -/
theorem setPropertyText_overwrite_enabled_witness :
    Ready (exampleSheet "a { color: red; }" [liveProperty "color" "red"]) (exampleStyle []).m_style
        (exampleSourceData 1 3 16 [sourceProperty "color" "red" 1 12]) ∧
      ∃ s1 style1, InspectorStyle.setPropertyText exampleEnv
          (exampleSheet "a { color: red; }" [liveProperty "color" "red"]) (exampleStyle []) 0
          "color: blue;".toList true = some (true, s1, style1) ∧
        s1.m_parsedStyleSheet.m_text = "a { color: blue; }".toList := by
  have hready : Ready (exampleSheet "a { color: red; }" [liveProperty "color" "red"])
      (exampleStyle []).m_style (exampleSourceData 1 3 16 [sourceProperty "color" "red" 1 12]) :=
    ⟨rfl, by decide, by decide⟩
  refine ⟨hready, ?_⟩
  obtain ⟨s1, style1, h1, h2, _, _⟩ := setPropertyText_overwrite_enabled exampleEnv _
    (exampleStyle []) _ 0
    { sourceData := sourceProperty "color" "red" 1 12, hasSource := true, disabled := false
      rawText := [] }
    "color: blue;".toList hready (by decide) rfl rfl (by decide) (by decide) (by decide)
    (by decide) (by decide) (by decide)
  exact ⟨s1, style1, h1, by rw [h2]; decide⟩

theorem insert_at_end {s : Str} {n : Nat} (h : s.length ≤ n) (t : Str) : insert s t n = s ++ t := by
  unfold insert
  rw [List.take_of_length_le h, List.drop_of_length_le h, List.append_nil]

/-- C4: an insertion (`overwrite = false`) at an index that is past the listing or that names
an entry without source appends the text to the body, whatever the body start `b` is: when
the live style accepts `body ++ t` the call returns true and the stored text is the old text
with `t` put at offset `e`, right in front of what followed the body `[b, e)`. -/
theorem setPropertyText_insert_appends (env : Env) (s : InspectorStyleSheet)
    (style : InspectorStyle) (rd : CSSRuleSourceData) (i : Nat) (t : Str)
    (h : Ready s style.m_style rd)
    (hidx : ∀ p, (InspectorStyle.populateAllProperties env s style).1.get? i = some p →
      p.hasSource = false)
    (hb : rd.styleSourceData.styleBodyRange.start ≤ rd.styleSourceData.styleBodyRange.end_)
    (he : rd.styleSourceData.styleBodyRange.end_ ≤ s.m_parsedStyleSheet.m_text.length)
    (hl : s.m_parsedStyleSheet.m_text.length < 4294967296)
    (hacc : (env.setCssText style.m_style (bodyText s rd ++ t)).isSome = true) :
    ∃ s1 style1, InspectorStyle.setPropertyText env s style i t false = some (true, s1, style1) ∧
      s1.m_parsedStyleSheet.m_text =
        s.m_parsedStyleSheet.m_text.take rd.styleSourceData.styleBodyRange.start ++
          (bodyText s rd ++ t) ++
          s.m_parsedStyleSheet.m_text.drop rd.styleSourceData.styleBodyRange.end_ ∧
      s1.m_parsedStyleSheet.m_text =
        s.m_parsedStyleSheet.m_text.take rd.styleSourceData.styleBodyRange.end_ ++ t ++
          s.m_parsedStyleSheet.m_text.drop rd.styleSourceData.styleBodyRange.end_ := by
  obtain ⟨properties, hprops⟩ := Option.isSome_iff_exists.mp hacc
  have hbl := bodyText_length hb he hl
  have hstart : (match (InspectorStyle.populateAllProperties env s style).1.get? i with
      | some property =>
          if property.hasSource then property.sourceData.range.start
          else rd.styleSourceData.styleBodyRange.end_
      | none => rd.styleSourceData.styleBodyRange.end_) = rd.styleSourceData.styleBodyRange.end_ := by
    cases hg : (InspectorStyle.populateAllProperties env s style).1.get? i with
    | none => rfl
    | some p => simp [hidx p hg]
  have hins := insert_at_end (s := bodyText s rd) (n := rd.styleSourceData.styleBodyRange.end_)
    (by omega) t
  have hcall : InspectorStyle.setPropertyText env s style i t false =
      some (true, committed s style.m_style properties (patchedText s rd (bodyText s rd ++ t)),
        InspectorStyle.shiftDisabledProperties style
          (InspectorStyle.disabledIndexByOrdinal i true
            (InspectorStyle.populateAllProperties env s style).1) t.length) := by
    simp only [InspectorStyle.setPropertyText, ensureParsedDataReady_of_ready env h,
      populateAllProperties_snd_of_ready env h, h.2.1, styleText_of_ready env h, hstart, hins,
      setStyleText_of_ready env h, hprops]
    rfl
  have htext := patchedText_eq (s := s) hb (by omega) (bodyText s rd ++ t)
  refine ⟨_, _, hcall, htext, ?_⟩
  show patchedText s rd _ = _
  rw [htext, ← List.append_assoc]
  congr 2
  unfold bodyText substring
  rw [usub_of_le hb (by omega)]
  conv_rhs => rw [← List.take_append_drop rd.styleSourceData.styleBodyRange.start
    (s.m_parsedStyleSheet.m_text.take rd.styleSourceData.styleBodyRange.end_)]
  rw [List.take_take, Nat.min_eq_left hb, List.drop_take]

/-- C4, witness: inserting `color: red;` at index 0 of `a { }`. -/
theorem setPropertyText_insert_appends_witness :
    Ready (exampleSheet "a { }" []) (exampleStyle []).m_style (exampleSourceData 1 3 4 []) ∧
      ∃ s1 style1, InspectorStyle.setPropertyText exampleEnv (exampleSheet "a { }" [])
          (exampleStyle []) 0 "color: red;".toList false = some (true, s1, style1) ∧
        s1.m_parsedStyleSheet.m_text = "a { color: red;}".toList := by
  have hready : Ready (exampleSheet "a { }" []) (exampleStyle []).m_style
      (exampleSourceData 1 3 4 []) := ⟨rfl, by decide, by decide⟩
  refine ⟨hready, ?_⟩
  obtain ⟨s1, style1, h1, h2, _⟩ := setPropertyText_insert_appends exampleEnv _
    (exampleStyle []) _ 0 "color: red;".toList hready (by decide) (by decide) (by decide)
    (by decide) (by decide)
  exact ⟨s1, style1, h1, by rw [h2]; decide⟩

/-! ## InspectorStyleSheet::setText -/

/-- C7: on a live sheet with the two rules `a` and `b`, `setText("p { }")` leaves the rule `b`
in the live sheet, in front of the rule parsed from the new text: the loop removes the child
at position `i` of a list that has already lost `i` children. -/
theorem setText_keeps_second_rule :
    (twoRuleSheet.setText reparseEnv "p { }".toList).2.m_pageStyleSheet.rules =
      [CSSRule.styleRule { selectorText := "b".toList, style := { handle := 1, properties := [] } },
       CSSRule.styleRule { selectorText := "p".toList, style := { handle := 2, properties := [] } }] := by
  decide

theorem foldl_remove_keeps_head (x : CSSRule) (strict : Bool) (is : List Nat) (l : List CSSRule) :
    ∃ rest, (is.map Nat.succ).foldl (fun sheet i => sheet.remove i) (CSSStyleSheet.mk (x :: l) strict) =
      CSSStyleSheet.mk (x :: rest) strict := by
  induction is generalizing l with
  | nil => exact ⟨l, rfl⟩
  | cons i is ih => exact ih (l.eraseIdx i)

/-- Whenever the live sheet holds at least two rules, the second one is still a child of the
live sheet after `setText`. -/
theorem setText_keeps_rule_one (env : Env) (s : InspectorStyleSheet) (text : Str)
    (r0 r1 : CSSRule) (rest : List CSSRule) (h : s.m_pageStyleSheet.rules = r0 :: r1 :: rest) :
    r1 ∈ (s.setText env text).2.m_pageStyleSheet.rules := by
  have hfold : ∃ kept, (List.range (rest.length + 1 + 1)).foldl (fun sheet i => sheet.remove i)
      s.m_pageStyleSheet = CSSStyleSheet.mk (r1 :: kept) s.m_pageStyleSheet.useStrictParsing := by
    rw [List.range_succ_eq_map, List.foldl_cons]
    have h0 : s.m_pageStyleSheet.remove 0 =
        CSSStyleSheet.mk (r1 :: rest) s.m_pageStyleSheet.useStrictParsing := by
      simp [CSSStyleSheet.remove, h]
    rw [h0]
    exact foldl_remove_keeps_head r1 _ _ rest
  obtain ⟨kept, hkept⟩ := hfold
  simp only [InspectorStyleSheet.setText, h, List.length_cons, hkept]
  simp

/-! ## InspectorStyleSheet::setRuleSelector -/

theorem ruleForIdLoop_get (index : Nat) (rules : List CSSRule) (i0 c i : Nat) (rule : CSSStyleRule)
    (h : InspectorStyleSheet.ruleForIdLoop index rules i0 c = some (i, rule)) :
    i0 ≤ i ∧ rules.get? (i - i0) = some (CSSRule.styleRule rule) := by
  induction rules generalizing i0 c with
  | nil => simp [InspectorStyleSheet.ruleForIdLoop] at h
  | cons r rest ih =>
    cases r with
    | otherRule tag =>
      simp only [InspectorStyleSheet.ruleForIdLoop, asCSSStyleRule] at h
      obtain ⟨h1, h2⟩ := ih _ _ h
      refine ⟨by omega, ?_⟩
      have : i - i0 = (i - (i0 + 1)) + 1 := by omega
      rw [this]; exact h2
    | styleRule found =>
      simp only [InspectorStyleSheet.ruleForIdLoop, asCSSStyleRule] at h
      split at h
      · simp only [Option.some.injEq, Prod.mk.injEq] at h
        obtain ⟨h1, h2⟩ := h
        subst h1 h2
        simp
      · obtain ⟨h1, h2⟩ := ih _ _ h
        refine ⟨by omega, ?_⟩
        have : i - i0 = (i - (i0 + 1)) + 1 := by omega
        rw [this]; exact h2

theorem ruleIndexByStyleLoop_set (pageStyle : Nat) (rules : List CSSRule) (i n : Nat)
    (rule : CSSStyleRule) (selector : Str) (h : rules.get? i = some (CSSRule.styleRule rule)) :
    InspectorStyleSheet.ruleIndexByStyleLoop pageStyle
        (rules.set i (CSSRule.styleRule { rule with selectorText := selector })) n =
      InspectorStyleSheet.ruleIndexByStyleLoop pageStyle rules n := by
  induction rules generalizing i n with
  | nil => simp at h
  | cons r rest ih =>
    cases i with
    | zero =>
      simp only [List.get?_cons_zero, Option.some.injEq] at h
      subst h
      simp [InspectorStyleSheet.ruleIndexByStyleLoop, asCSSStyleRule]
    | succ j =>
      simp only [List.get?_cons_succ] at h
      simp only [List.set_cons_succ, InspectorStyleSheet.ruleIndexByStyleLoop]
      cases asCSSStyleRule r with
      | none => exact ih _ _ h
      | some found =>
        simp only
        split
        · rfl
        · exact ih _ _ h

/-- C8: for an id that resolves to the style rule at position `i` of the live sheet, whose
source data has a selector range `[a, b)` inside the stored text, `setRuleSelector` returns
true, the live rule at `i` has the new selector, the stored text is the old text with
`[a, b)` replaced by the selector, and the source data is dropped. -/
theorem setRuleSelector_patches_selector (env : Env) (s : InspectorStyleSheet)
    (id : InspectorCSSId) (i : Nat) (rule : CSSStyleRule) (rd : CSSRuleSourceData) (selector : Str)
    (hid : s.ruleForId id = some (i, rule))
    (hready : Ready s rule.style.handle rd)
    (hb : rd.selectorListRange.start ≤ rd.selectorListRange.end_)
    (he : rd.selectorListRange.end_ ≤ s.m_parsedStyleSheet.m_text.length)
    (hl : s.m_parsedStyleSheet.m_text.length < 4294967296) :
    ∃ s1, s.setRuleSelector env id selector = (true, s1) ∧
      s1.m_pageStyleSheet.rules.get? i =
        some (CSSRule.styleRule { rule with selectorText := selector }) ∧
      s1.m_parsedStyleSheet.m_text =
        s.m_parsedStyleSheet.m_text.take rd.selectorListRange.start ++ selector ++
          s.m_parsedStyleSheet.m_text.drop rd.selectorListRange.end_ ∧
      s1.m_parsedStyleSheet.m_sourceData = none := by
  have hget : s.m_pageStyleSheet.rules.get? i = some (CSSRule.styleRule rule) := by
    unfold InspectorStyleSheet.ruleForId at hid
    cases id with
    | empty => simp at hid
    | parts sheetId ordinal =>
      simp only at hid
      cases hu : toUInt ordinal with
      | none => rw [hu] at hid; simp at hid
      | some index =>
        rw [hu] at hid
        exact (ruleForIdLoop_get _ _ _ _ _ _ hid).2
  have hlt : i < s.m_pageStyleSheet.rules.length := by
    rcases Nat.lt_or_ge i s.m_pageStyleSheet.rules.length with h | h
    · exact h
    · rw [List.get?_eq_none.mpr h] at hget; simp at hget
  have hrd : ({ s with
      m_pageStyleSheet := InspectorStyleSheet.setSelectorText s.m_pageStyleSheet i rule selector } :
      InspectorStyleSheet).ruleSourceDataFor rule.style.handle = some rd := by
    have := hready.2.1
    unfold InspectorStyleSheet.ruleSourceDataFor InspectorStyleSheet.ruleIndexByStyle at this ⊢
    simp only [InspectorStyleSheet.setSelectorText]
    rw [ruleIndexByStyleLoop_set _ _ _ _ _ _ hget]
    exact this
  have hcall : s.setRuleSelector env id selector =
      (true, { s with
        m_pageStyleSheet := InspectorStyleSheet.setSelectorText s.m_pageStyleSheet i rule selector
        m_parsedStyleSheet := s.m_parsedStyleSheet.setText
          (replace s.m_parsedStyleSheet.m_text rd.selectorListRange.start
            (usub rd.selectorListRange.end_ rd.selectorListRange.start) selector) }) := by
    simp only [InspectorStyleSheet.setRuleSelector, hid, ensureParsedDataReady_of_ready env hready,
      Bool.not_true, Bool.false_eq_true, if_false, hrd]
    rfl
  refine ⟨_, hcall, ?_, ?_, rfl⟩
  · simp [InspectorStyleSheet.setSelectorText, hlt]
  · exact replace_of_le hb (by omega) selector

/-- C8, witness: the selector of rule 0 of `a { color: red; }` becomes `.x`. -/
theorem setRuleSelector_patches_selector_witness :
    (exampleSheet "a { color: red; }" [liveProperty "color" "red"]).ruleForId
        (InspectorCSSId.parts "1".toList "0".toList) =
      some (0, { selectorText := "a".toList
                 style := { handle := 0, properties := [liveProperty "color" "red"] } }) ∧
    ∃ s1, (exampleSheet "a { color: red; }" [liveProperty "color" "red"]).setRuleSelector
        exampleEnv (InspectorCSSId.parts "1".toList "0".toList) ".x".toList = (true, s1) ∧
      s1.m_parsedStyleSheet.m_text = ".x { color: red; }".toList ∧
      s1.m_parsedStyleSheet.m_sourceData = none := by
  refine ⟨by decide, ?_⟩
  obtain ⟨s1, h1, _, h3, h4⟩ := setRuleSelector_patches_selector exampleEnv
    (exampleSheet "a { color: red; }" [liveProperty "color" "red"])
    (InspectorCSSId.parts "1".toList "0".toList) 0
    { selectorText := "a".toList, style := { handle := 0, properties := [liveProperty "color" "red"] } }
    (exampleSourceData 1 3 16 [sourceProperty "color" "red" 1 12]) ".x".toList
    (by decide) ⟨rfl, by decide, by decide⟩ (by decide) (by decide) (by decide)
  exact ⟨s1, h1, by rw [h3]; decide, h4⟩

/-! ## InspectorStyleSheet::addRule -/

theorem ensureText_pageStyleSheet (env : Env) (s : InspectorStyleSheet) :
    (s.ensureText env).2.m_pageStyleSheet = s.m_pageStyleSheet := by
  unfold InspectorStyleSheet.ensureText
  split
  · rfl
  · split <;> rfl

theorem text_idem (env : Env) (s : InspectorStyleSheet) (t : Str)
    (h : (s.text env).1 = some t) : ((s.text env).2.text env).1 = some t := by
  unfold InspectorStyleSheet.text at h ⊢
  cases hh : s.m_parsedStyleSheet.hasText with
  | true =>
    have he : s.ensureText env = (true, s) := by simp [InspectorStyleSheet.ensureText, hh]
    simpa [he] using h
  | false =>
    cases ho : InspectorStyleSheet.originalStyleSheetText env with
    | none =>
      have he : s.ensureText env = (false, s) := by simp [InspectorStyleSheet.ensureText, hh, ho]
      simp [he] at h
    | some text =>
      have he : s.ensureText env =
          (true, { s with m_parsedStyleSheet := s.m_parsedStyleSheet.setText text }) := by
        simp [InspectorStyleSheet.ensureText, hh, ho]
      have he2 : ({ s with m_parsedStyleSheet := s.m_parsedStyleSheet.setText text } :
          InspectorStyleSheet).ensureText env =
          (true, { s with m_parsedStyleSheet := s.m_parsedStyleSheet.setText text }) :=
        ensureText_of_hasText env rfl
      simp only [he, if_true] at h ⊢
      simp only [he2, if_true]
      exact h

/-- C9: `addRule` reads the sheet text through `text()`. When that text `t` is available and
the live sheet accepts the rule, the result is the appended rule, which is the last child of
the live sheet, and the stored text is `t`, a newline if `t` is not empty, the selector and
` {}`, with the source data dropped. When the text is not available the result is no rule
and the sheet is untouched; when the live sheet rejects the rule the result is no rule and
`text()` still reports `t` (the sheet is untouched if it had its text already). -/
theorem addRule_updates_text (env : Env) (s : InspectorStyleSheet) (selector : Str) :
    (∀ t added, (s.text env).1 = some t → env.addRule s.m_pageStyleSheet.rules selector = some added →
      ∃ s1, s.addRule env selector = (some added, s1) ∧
        s1.m_pageStyleSheet.rules.getLast? = some (CSSRule.styleRule added) ∧
        s1.m_parsedStyleSheet.m_text =
          t ++ (if t = [] then [] else "\n".toList) ++ selector ++ " {}".toList ∧
        s1.m_parsedStyleSheet.m_sourceData = none) ∧
    ((s.text env).1 = none → s.addRule env selector = (none, s)) ∧
    (∀ t, (s.text env).1 = some t → env.addRule s.m_pageStyleSheet.rules selector = none →
      (s.addRule env selector).1 = none ∧ ((s.addRule env selector).2.text env).1 = some t ∧
      (s.m_parsedStyleSheet.m_hasText = true → (s.addRule env selector).2 = s)) := by
  have hpage : (s.text env).2.m_pageStyleSheet = s.m_pageStyleSheet := by
    have := ensureText_pageStyleSheet env s
    unfold InspectorStyleSheet.text
    dsimp only
    split <;> exact this
  refine ⟨?_, ?_, ?_⟩
  · intro t added ht hadd
    rw [← hpage] at hadd
    have hcall : s.addRule env selector =
        (some added, { (s.text env).2 with
          m_pageStyleSheet := { (s.text env).2.m_pageStyleSheet with
            rules := (s.text env).2.m_pageStyleSheet.rules ++ [CSSRule.styleRule added] }
          m_parsedStyleSheet := (s.text env).2.m_parsedStyleSheet.setText
            ((if t.length ≠ 0 then t ++ "\n".toList else t) ++ selector ++ " {}".toList) }) := by
      simp only [InspectorStyleSheet.addRule, ht, hadd]
      simp [asCSSStyleRule]
    refine ⟨_, hcall, by simp, ?_, rfl⟩
    show (if t.length ≠ 0 then t ++ "\n".toList else t) ++ selector ++ " {}".toList = _
    by_cases hte : t = []
    · subst hte; simp
    · have : t.length ≠ 0 := by simpa using hte
      simp [hte]
  · intro ht
    have hs : (s.text env).2 = s := by
      unfold InspectorStyleSheet.text InspectorStyleSheet.ensureText at ht ⊢
      split at ht
      · simp at ht
      · split
        · rfl
        · cases ho : InspectorStyleSheet.originalStyleSheetText env with
          | none => simp
          | some text => simp [ho] at ht
    simp only [InspectorStyleSheet.addRule, ht, hs]
  · intro t ht hadd
    rw [← hpage] at hadd
    have hcall : s.addRule env selector = (none, (s.text env).2) := by
      simp only [InspectorStyleSheet.addRule, ht, hadd]
    rw [hcall]
    refine ⟨rfl, text_idem env s t ht, ?_⟩
    intro hh
    show (s.text env).2 = s
    rw [text_of_hasText env hh]

/-- C9, witness: adding the rule `b` to the sheet `a { }`. -/
theorem addRule_updates_text_witness :
    ((exampleSheet "a { }" []).text exampleEnv).1 = some "a { }".toList ∧
      ∃ s1, (exampleSheet "a { }" []).addRule exampleEnv "b".toList =
          (some { selectorText := "b".toList, style := { handle := 1, properties := [] } }, s1) ∧
        s1.m_parsedStyleSheet.m_text = "a { }\nb {}".toList := by
  refine ⟨by decide, ?_⟩
  obtain ⟨s1, h1, _, h3, _⟩ := (addRule_updates_text exampleEnv (exampleSheet "a { }" [])
    "b".toList).1 "a { }".toList
    { selectorText := "b".toList, style := { handle := 1, properties := [] } } (by decide) rfl
  exact ⟨s1, h1, by rw [h3]; decide⟩

/-! ## InspectorStyle::disableProperty -/

theorem addLong_zero_natCast {n : Nat} (h : n < 4294967296) : addLong 0 (n : Int) = n := by
  unfold addLong
  omega

theorem shift_after_insert {α : Type} (l : List α) (k : Nat) (x : α) (f : α → α)
    (hk : k ≤ l.length) :
    (l.take k ++ x :: l.drop k).take (k + 1) ++ ((l.take k ++ x :: l.drop k).drop (k + 1)).map f =
      l.take k ++ x :: (l.drop k).map f := by
  have hlen : (l.take k).length = k := by rw [List.length_take]; omega
  have h1 : l.take k ++ x :: l.drop k = (l.take k ++ [x]) ++ l.drop k := by simp
  have h2 : (l.take k ++ [x]).length = k + 1 := by simp [hlen]
  rw [h1, ← h2, List.take_left, List.drop_left]
  simp

/-- The shadow that `disableProperty` creates for `property` when the body text is `body`. -/
theorem disableProperty_of_ready (env : Env) {s : InspectorStyleSheet} {style : InspectorStyle}
    {rd : CSSRuleSourceData} (h : Ready s style.m_style rd) (i : Nat)
    (all : List InspectorStyleProperty) (property : InspectorStyleProperty)
    (hentry : all.get? i = some property)
    (hr : property.sourceData.range.start ≤ property.sourceData.range.end_)
    (hpe : property.sourceData.range.end_ < 4294967296)
    (properties : List LiveProperty)
    (hacc : env.setCssText style.m_style
      ((bodyText s rd).take property.sourceData.range.start ++
        (bodyText s rd).drop property.sourceData.range.end_) = some properties) :
    InspectorStyle.disableProperty env s style i all =
      if InspectorStyle.disabledIndexByOrdinal i true all = UINT_MAX then
        some (true, committed s style.m_style properties (patchedText s rd
            ((bodyText s rd).take property.sourceData.range.start ++
              (bodyText s rd).drop property.sourceData.range.end_)),
          { style with
            m_disabledProperties :=
              style.m_disabledProperties ++ [disabledShadow property (bodyText s rd)] })
      else if InspectorStyle.disabledIndexByOrdinal i true all > style.m_disabledProperties.length
      then none
      else
        some (true, committed s style.m_style properties (patchedText s rd
            ((bodyText s rd).take property.sourceData.range.start ++
              (bodyText s rd).drop property.sourceData.range.end_)),
          { style with
            m_disabledProperties :=
              insertShadow style.m_disabledProperties
                (InspectorStyle.disabledIndexByOrdinal i true all)
                (disabledShadow property (bodyText s rd))
                (property.sourceData.range.end_ - property.sourceData.range.start) }) := by
  have hrep := replace_of_le (s := bodyText s rd) hr hpe []
  rw [List.append_nil] at hrep
  have hu := usub_of_le hr hpe
  rw [hu] at hrep
  simp only [InspectorStyle.disableProperty, hentry, styleText_of_ready env h,
    replacePropertyInStyleText_of_ready env h, setStyleText_of_ready env h, hu, hrep, hacc,
    addLong_zero_natCast (show property.sourceData.range.end_ - property.sourceData.range.start
      < 4294967296 by omega)]
  split
  · rfl
  · split
    · rfl
    · rename_i hk
      simp only [InspectorStyle.shiftDisabledProperties,
        shift_after_insert _ _ _ _ (Nat.le_of_not_gt hk)]
      rfl

theorem disableProperty_rejected (env : Env) {s : InspectorStyleSheet} {style : InspectorStyle}
    {rd : CSSRuleSourceData} (h : Ready s style.m_style rd) (i : Nat)
    (all : List InspectorStyleProperty) (property : InspectorStyleProperty)
    (hentry : all.get? i = some property)
    (hr : property.sourceData.range.start ≤ property.sourceData.range.end_)
    (hpe : property.sourceData.range.end_ < 4294967296)
    (hrej : env.setCssText style.m_style
      ((bodyText s rd).take property.sourceData.range.start ++
        (bodyText s rd).drop property.sourceData.range.end_) = none) :
    InspectorStyle.disableProperty env s style i all = some (false, s, style) := by
  have hrep := replace_of_le (s := bodyText s rd) hr hpe []
  rw [List.append_nil] at hrep
  simp only [InspectorStyle.disableProperty, hentry, styleText_of_ready env h,
    replacePropertyInStyleText_of_ready env h, setStyleText_of_ready env h, hrep, hrej]

theorem insertShadow_length (disabled : List InspectorStyleProperty) (k : Nat)
    (shadow : InspectorStyleProperty) (len : Nat) :
    (insertShadow disabled k shadow len).length = disabled.length + 1 := by
  unfold insertShadow
  simp only [List.length_append, List.length_cons, List.length_map, List.length_take,
    List.length_drop]
  omega

/-- C2: a successful `disableProperty` of the enabled source property with range `[ps, pe)`
replaces the body `[b, e)` of the rule by `body[0, ps) ++ body[pe, end)` and leaves the rest
of the text as it was; the disabled list gets one more entry, the data of the property with
the range `[ps, ps]`, marked disabled, with `rawText = body[ps, pe)`. (The entries behind the
new one are the old ones, moved back by `pe - ps`.) -/
theorem disableProperty_removes_exactly_the_property (env : Env) (s s1 : InspectorStyleSheet)
    (style style1 : InspectorStyle) (rd : CSSRuleSourceData) (i : Nat)
    (all : List InspectorStyleProperty) (property : InspectorStyleProperty)
    (h : Ready s style.m_style rd)
    (hentry : all.get? i = some property)
    (_hdis : property.disabled = false) (_hsrc : property.hasSource = true)
    (hr : property.sourceData.range.start ≤ property.sourceData.range.end_)
    (hpe : property.sourceData.range.end_ < 4294967296)
    (hb : rd.styleSourceData.styleBodyRange.start ≤ rd.styleSourceData.styleBodyRange.end_)
    (he : rd.styleSourceData.styleBodyRange.end_ ≤ s.m_parsedStyleSheet.m_text.length)
    (hl : s.m_parsedStyleSheet.m_text.length < 4294967296)
    (hsucc : InspectorStyle.disableProperty env s style i all = some (true, s1, style1)) :
    s1.m_parsedStyleSheet.m_text =
        s.m_parsedStyleSheet.m_text.take rd.styleSourceData.styleBodyRange.start ++
          ((bodyText s rd).take property.sourceData.range.start ++
            (bodyText s rd).drop property.sourceData.range.end_) ++
          s.m_parsedStyleSheet.m_text.drop rd.styleSourceData.styleBodyRange.end_ ∧
      (∃ k, k ≤ style.m_disabledProperties.length ∧
        style1.m_disabledProperties =
          style.m_disabledProperties.take k ++
            { sourceData := { property.sourceData with
                range := { start := property.sourceData.range.start
                           end_ := property.sourceData.range.start } }
              hasSource := property.hasSource
              disabled := true
              rawText := ((bodyText s rd).drop property.sourceData.range.start).take
                (property.sourceData.range.end_ - property.sourceData.range.start) } ::
            (style.m_disabledProperties.drop k).map
              (InspectorStyle.shiftRange (-((property.sourceData.range.end_ -
                property.sourceData.range.start : Nat) : Int)))) ∧
      style1.m_disabledProperties.length = style.m_disabledProperties.length + 1 := by
  cases hacc : env.setCssText style.m_style
      ((bodyText s rd).take property.sourceData.range.start ++
        (bodyText s rd).drop property.sourceData.range.end_) with
  | none =>
    rw [disableProperty_rejected env h i all property hentry hr hpe hacc] at hsucc
    simp at hsucc
  | some properties =>
    rw [disableProperty_of_ready env h i all property hentry hr hpe properties hacc] at hsucc
    have htext := patchedText_eq (s := s) hb (by omega)
      ((bodyText s rd).take property.sourceData.range.start ++
        (bodyText s rd).drop property.sourceData.range.end_)
    split at hsucc
    · simp only [Option.some.injEq, Prod.mk.injEq, true_and] at hsucc
      obtain ⟨hs1, hst1⟩ := hsucc
      subst hs1 hst1
      refine ⟨htext, ⟨style.m_disabledProperties.length, le_refl _, ?_⟩, by simp⟩
      simp [disabledShadow, substring]
    · split at hsucc
      · simp at hsucc
      · rename_i hk
        simp only [Option.some.injEq, Prod.mk.injEq, true_and] at hsucc
        obtain ⟨hs1, hst1⟩ := hsucc
        subst hs1 hst1
        exact ⟨htext, ⟨_, Nat.le_of_not_gt hk, rfl⟩, insertShadow_length _ _ _ _⟩

/-- C2, witness: disabling `color` in `a { color: red; margin: 0; }`. -/
theorem disableProperty_removes_exactly_the_property_witness :
    InspectorStyle.toggleProperty exampleEnv colorMarginSheet (exampleStyle []) 0 true =
        some (true, disabledColorSheet, exampleStyle [colorShadow]) ∧
      disabledColorSheet.m_parsedStyleSheet.m_text = "a {  margin: 0; }".toList ∧
      (exampleStyle [colorShadow]).m_disabledProperties.length = 1 := by
  have hsucc : InspectorStyle.disableProperty exampleEnv colorMarginSheet (exampleStyle []) 0
      (InspectorStyle.populateAllProperties exampleEnv colorMarginSheet (exampleStyle [])).1 =
      some (true, disabledColorSheet, exampleStyle [colorShadow]) := by decide
  obtain ⟨h1, _, h3⟩ := disableProperty_removes_exactly_the_property exampleEnv colorMarginSheet
    disabledColorSheet (exampleStyle []) (exampleStyle [colorShadow])
    (exampleSourceData 1 3 27 [sourceProperty "color" "red" 1 12, sourceProperty "margin" "0" 13 23])
    0 _ colorEntry ⟨rfl, by decide, by decide⟩ (by decide) rfl rfl (by decide) (by decide)
    (by decide) (by decide) (by decide) hsucc
  exact ⟨by decide, by rw [h1]; decide, h3⟩

/-! ## The flat listing and the disabled list -/

theorem flushDisabled_append (start : Nat) (ds : List InspectorStyleProperty) :
    (InspectorStyle.flushDisabled start ds).1 ++ (InspectorStyle.flushDisabled start ds).2 = ds := by
  induction ds with
  | nil => rfl
  | cons d rest ih =>
    unfold InspectorStyle.flushDisabled
    split
    · simp only [List.cons_append, ih]
    · rfl

theorem filter_disabled_eq_self {ds : List InspectorStyleProperty}
    (h : ∀ q ∈ ds, q.disabled = true) : ds.filter (fun q => q.disabled) = ds :=
  List.filter_eq_self.mpr h

theorem walkSource_filter (ps : List CSSPropertySourceData) (ds : List InspectorStyleProperty)
    (h : ∀ q ∈ ds, q.disabled = true) :
    (InspectorStyle.walkSource ps ds).1.filter (fun q => q.disabled) ++
      (InspectorStyle.walkSource ps ds).2 = ds := by
  induction ps generalizing ds with
  | nil => rfl
  | cons it rest ih =>
    have hf := flushDisabled_append it.range.start ds
    have h1 : ∀ q ∈ (InspectorStyle.flushDisabled it.range.start ds).1, q.disabled = true := by
      intro q hq
      exact h q (by rw [← hf]; exact List.mem_append_left _ hq)
    have h2 : ∀ q ∈ (InspectorStyle.flushDisabled it.range.start ds).2, q.disabled = true := by
      intro q hq
      exact h q (by rw [← hf]; exact List.mem_append_right _ hq)
    simp only [InspectorStyle.walkSource, List.filter_append, List.filter_cons,
      Bool.false_eq_true, if_false, filter_disabled_eq_self h1, List.append_assoc, ih _ h2]
    exact hf

theorem appendStyleProperties_filter (style : CSSStyleDeclaration) (names seen : List Str) :
    (InspectorStyle.appendStyleProperties style names seen).filter (fun q => q.disabled) = [] := by
  induction names generalizing seen with
  | nil => rfl
  | cons name rest ih =>
    unfold InspectorStyle.appendStyleProperties
    split
    · exact ih _
    · simp only [List.filter_cons, Bool.false_eq_true, if_false]
      exact ih _

/-- The disabled entries of the flat listing are the disabled properties of the style, in the
order of that list. -/
theorem populateAllProperties_filter (env : Env) (s : InspectorStyleSheet) (style : InspectorStyle)
    (h : ∀ q ∈ style.m_disabledProperties, q.disabled = true) :
    (InspectorStyle.populateAllProperties env s style).1.filter (fun q => q.disabled) =
      style.m_disabledProperties := by
  unfold InspectorStyle.populateAllProperties
  simp only [List.filter_append]
  have hlive : ∀ l : List InspectorStyleProperty,
      l = (match (s.ensureParsedDataReady env).2.m_pageStyleSheet.styleObject style.m_style with
        | some m_style => InspectorStyle.appendStyleProperties m_style
            (m_style.properties.map fun p => p.name)
            (match Option.map (fun d => d.styleSourceData.propertyData)
                (if (s.ensureParsedDataReady env).1 = true then
                  (s.ensureParsedDataReady env).2.ruleSourceDataFor style.m_style else none) with
              | some properties => properties.map fun p => p.name
              | none => [])
        | none => []) → l.filter (fun q => q.disabled) = [] := by
    intro l hl
    subst hl
    split
    · exact appendStyleProperties_filter _ _ _
    · rfl
  rw [hlive _ rfl, List.append_nil]
  split
  · rw [← List.filter_append]
    rename_i properties _
    have := walkSource_filter properties style.m_disabledProperties h
    rw [List.filter_append]
    have h2 : ∀ q ∈ (InspectorStyle.walkSource properties style.m_disabledProperties).2,
        q.disabled = true := by
      intro q hq
      exact h q (by rw [← this]; exact List.mem_append_right _ hq)
    rw [filter_disabled_eq_self h2]
    exact this
  · simp only [List.filter_nil, List.nil_append]
    exact filter_disabled_eq_self h

/-! ## InspectorStyle::disabledIndexByOrdinal -/

theorem disabledIndexByOrdinalLoop_skip (ord : Nat) (can : Bool)
    (pre rest : List InspectorStyleProperty) (i0 d0 : Nat) (h : i0 + pre.length ≤ ord) :
    InspectorStyle.disabledIndexByOrdinalLoop ord can (pre ++ rest) i0 d0 =
      InspectorStyle.disabledIndexByOrdinalLoop ord can rest (i0 + pre.length)
        (d0 + (pre.filter (fun q => q.disabled)).length) := by
  induction pre generalizing i0 d0 with
  | nil => rfl
  | cons p pre ih =>
    simp only [List.length_cons] at h
    have hne : ¬(i0 = ord ∨ (can = true ∧ i0 > ord)) := by omega
    simp only [List.cons_append, InspectorStyle.disabledIndexByOrdinalLoop, hne, if_false]
    cases hp : p.disabled with
    | true =>
      simp only [if_true, List.filter_cons, hp, List.length_cons]
      refine (ih (i0 + 1) (d0 + 1) (by omega)).trans ?_
      congr 1 <;> omega
    | false =>
      simp only [Bool.false_eq_true, if_false, List.filter_cons, hp, List.length_cons]
      refine (ih (i0 + 1) d0 (by omega)).trans ?_
      congr 1; omega

theorem disabledIndexByOrdinalLoop_after (ord : Nat) (l : List InspectorStyleProperty)
    (i0 d0 : Nat) (h : ord < i0) :
    InspectorStyle.disabledIndexByOrdinalLoop ord true l i0 d0 =
      if l.filter (fun q => q.disabled) = [] then UINT_MAX else d0 := by
  induction l generalizing i0 with
  | nil => rfl
  | cons p l ih =>
    have hyes : i0 = ord ∨ (true = true ∧ i0 > ord) := Or.inr ⟨rfl, h⟩
    cases hp : p.disabled with
    | true =>
      rw [InspectorStyle.disabledIndexByOrdinalLoop, if_pos hp, if_pos hyes]
      simp [List.filter_cons, hp]
    | false =>
      simp only [InspectorStyle.disabledIndexByOrdinalLoop, hp, Bool.false_eq_true, if_false,
        List.filter_cons]
      exact ih _ (by omega)

theorem get?_split {α : Type} (l : List α) (i : Nat) (x : α) (h : l.get? i = some x) :
    l = l.take i ++ x :: l.drop (i + 1) ∧ (l.take i).length = i := by
  have hlt : i < l.length := by
    rcases Nat.lt_or_ge i l.length with h1 | h1
    · exact h1
    · rw [List.get?_eq_none.mpr h1] at h; simp at h
  have hx : l[i] = x := by
    rw [List.get?_eq_get hlt] at h
    simpa using h
  refine ⟨?_, by rw [List.length_take]; omega⟩
  rw [← hx]
  simp

/-- The disabled index of a flat position that holds a disabled entry: the number of disabled
entries in front of it. -/
theorem disabledIndexByOrdinal_of_disabled (can : Bool) (all : List InspectorStyleProperty)
    (i : Nat) (p : InspectorStyleProperty) (h : all.get? i = some p) (hp : p.disabled = true) :
    InspectorStyle.disabledIndexByOrdinal i can all =
      ((all.take i).filter (fun q => q.disabled)).length := by
  obtain ⟨hsplit, hlen⟩ := get?_split all i p h
  unfold InspectorStyle.disabledIndexByOrdinal
  conv_lhs => rw [hsplit]
  rw [disabledIndexByOrdinalLoop_skip _ _ _ _ _ _ (by omega)]
  simp [InspectorStyle.disabledIndexByOrdinalLoop, hp, hlen]

/-- The disabled index, successors allowed, of a flat position that holds an enabled entry:
the number of disabled entries in front of it if a disabled entry follows, `UINT_MAX` if
none does. -/
theorem disabledIndexByOrdinal_of_enabled (all : List InspectorStyleProperty)
    (i : Nat) (p : InspectorStyleProperty) (h : all.get? i = some p) (hp : p.disabled = false) :
    InspectorStyle.disabledIndexByOrdinal i true all =
      if (all.drop (i + 1)).filter (fun q => q.disabled) = [] then UINT_MAX
      else ((all.take i).filter (fun q => q.disabled)).length := by
  obtain ⟨hsplit, hlen⟩ := get?_split all i p h
  unfold InspectorStyle.disabledIndexByOrdinal
  conv_lhs => rw [hsplit]
  rw [disabledIndexByOrdinalLoop_skip _ _ _ _ _ _ (by omega)]
  simp only [InspectorStyle.disabledIndexByOrdinalLoop, hp, Bool.false_eq_true, if_false, hlen,
    Nat.zero_add]
  exact disabledIndexByOrdinalLoop_after _ _ _ _ (by omega)

/-! ## The shift after an overwrite -/

theorem addLong_usub {x n len : Nat} (hn : n < 4294967296) (hlen : len < 4294967296)
    (hlo : len ≤ x + n) (hhi : x + n < 4294967296 + len) :
    ((addLong x (usub n len) : Nat) : Int) = (x : Int) + ((n : Int) - (len : Int)) := by
  unfold addLong usub
  omega

/-- C10: a successful overwrite of the enabled source property at flat index `i`, of length
`len = pe - ps`, by a text of length `n` leaves the disabled properties listed in front of
`i` as they are and applies `x += delta` to the start and the end of every one listed behind
`i`, where `delta` is the `unsigned` difference `n - len`; for such a property whose range
lies in the body and whose start is at least `len - n`, start and end change by exactly
`n - len`, also when that number is negative. -/
theorem setPropertyText_overwrite_shifts_later_shadows (env : Env) (s : InspectorStyleSheet)
    (style : InspectorStyle) (rd : CSSRuleSourceData) (i : Nat) (property : InspectorStyleProperty)
    (t : Str) (h : Ready s style.m_style rd)
    (hentry : (InspectorStyle.populateAllProperties env s style).1.get? i = some property)
    (hdis : property.disabled = false) (_hsrc : property.hasSource = true)
    (hr : property.sourceData.range.start ≤ property.sourceData.range.end_)
    (hrb : property.sourceData.range.end_ ≤ (bodyText s rd).length)
    (hb : rd.styleSourceData.styleBodyRange.start ≤ rd.styleSourceData.styleBodyRange.end_)
    (he : rd.styleSourceData.styleBodyRange.end_ ≤ s.m_parsedStyleSheet.m_text.length)
    (hl : s.m_parsedStyleSheet.m_text.length < 4294967296)
    (hnew : ((bodyText s rd).take property.sourceData.range.start ++ t ++
        (bodyText s rd).drop property.sourceData.range.end_).length < 4294967296)
    (hinv : ∀ q ∈ style.m_disabledProperties, q.disabled = true)
    (hsize : style.m_disabledProperties.length < 4294967296)
    (hacc : (env.setCssText style.m_style
      ((bodyText s rd).take property.sourceData.range.start ++ t ++
        (bodyText s rd).drop property.sourceData.range.end_)).isSome = true) :
    ∃ s1 style1, InspectorStyle.setPropertyText env s style i t true = some (true, s1, style1) ∧
      style.m_disabledProperties =
        ((InspectorStyle.populateAllProperties env s style).1.take i).filter (fun q => q.disabled) ++
        ((InspectorStyle.populateAllProperties env s style).1.drop (i + 1)).filter
          (fun q => q.disabled) ∧
      style1.m_disabledProperties =
        ((InspectorStyle.populateAllProperties env s style).1.take i).filter (fun q => q.disabled) ++
        (((InspectorStyle.populateAllProperties env s style).1.drop (i + 1)).filter
          (fun q => q.disabled)).map (InspectorStyle.shiftRange
            (usub t.length (usub property.sourceData.range.end_ property.sourceData.range.start))) ∧
      ∀ q ∈ ((InspectorStyle.populateAllProperties env s style).1.drop (i + 1)).filter
          (fun q => q.disabled),
        q.sourceData.range.start ≤ q.sourceData.range.end_ →
        q.sourceData.range.end_ ≤ (bodyText s rd).length →
        property.sourceData.range.end_ - property.sourceData.range.start ≤
          q.sourceData.range.start + t.length →
        (((InspectorStyle.shiftRange (usub t.length (usub property.sourceData.range.end_
            property.sourceData.range.start)) q).sourceData.range.start : Nat) : Int) =
          (q.sourceData.range.start : Int) + ((t.length : Int) -
            ((property.sourceData.range.end_ - property.sourceData.range.start : Nat) : Int)) ∧
        (((InspectorStyle.shiftRange (usub t.length (usub property.sourceData.range.end_
            property.sourceData.range.start)) q).sourceData.range.end_ : Nat) : Int) =
          (q.sourceData.range.end_ : Int) + ((t.length : Int) -
            ((property.sourceData.range.end_ - property.sourceData.range.start : Nat) : Int)) := by
  obtain ⟨properties, hprops⟩ := Option.isSome_iff_exists.mp hacc
  have hbl := bodyText_length hb he hl
  have hpe : property.sourceData.range.end_ < 4294967296 := by omega
  have hcall := setPropertyText_overwrite_of_ready env h i property t hentry hdis hr hpe
    properties hprops
  obtain ⟨hsplit, _⟩ := get?_split _ i property hentry
  have hfilter := populateAllProperties_filter env s style hinv
  have hparts : style.m_disabledProperties =
      ((InspectorStyle.populateAllProperties env s style).1.take i).filter (fun q => q.disabled) ++
      ((InspectorStyle.populateAllProperties env s style).1.drop (i + 1)).filter
        (fun q => q.disabled) := by
    conv_lhs => rw [← hfilter, hsplit]
    simp [List.filter_append, List.filter_cons, hdis]
  have hidx := disabledIndexByOrdinal_of_enabled _ i property hentry hdis
  refine ⟨_, _, hcall, hparts, ?_, ?_⟩
  · show (InspectorStyle.shiftDisabledProperties style _ _).m_disabledProperties = _
    unfold InspectorStyle.shiftDisabledProperties
    simp only
    rw [hidx]
    split
    · rename_i hnil
      rw [hnil] at hparts ⊢
      rw [List.take_of_length_le (by unfold UINT_MAX; omega),
        List.drop_of_length_le (by unfold UINT_MAX; omega)]
      simpa using hparts
    · conv_lhs => rw [hparts]
      rw [List.take_left, List.drop_left]
  · intro q _ hq1 hq2 hq3
    have hn : t.length < 4294967296 := by
      simp only [List.length_append] at hnew
      omega
    have hlen : (bodyText s rd).length + t.length <
        4294967296 + (property.sourceData.range.end_ - property.sourceData.range.start) := by
      simp only [List.length_append, List.length_take, List.length_drop] at hnew
      omega
    rw [usub_of_le hr hpe]
    exact ⟨addLong_usub hn (by omega) hq3 (by omega), addLong_usub hn (by omega) (by omega) (by omega)⟩

/-- C10, witness: with the shadow of `margin` at offset 13, overwriting `color: red;` (11 characters) by `top: 0;` (7 characters) moves the shadow to offset 9. -/
theorem setPropertyText_overwrite_shifts_later_shadows_witness :
    Ready disabledMarginSheet (exampleStyle [marginShadow]).m_style
        (exampleSourceData 1 3 17 [sourceProperty "color" "red" 1 12]) ∧
      ∃ s1 style1, InspectorStyle.setPropertyText exampleEnv disabledMarginSheet
          (exampleStyle [marginShadow]) 0 "top: 0;".toList true = some (true, s1, style1) ∧
        style1.m_disabledProperties =
          [{ sourceData := sourceProperty "margin" "0" 9 9, hasSource := true, disabled := true
             rawText := "margin: 0;".toList }] := by
  have hready : Ready disabledMarginSheet (exampleStyle [marginShadow]).m_style
      (exampleSourceData 1 3 17 [sourceProperty "color" "red" 1 12]) :=
    ⟨rfl, by decide, by decide⟩
  refine ⟨hready, ?_⟩
  obtain ⟨s1, style1, h1, _, h3, _⟩ := setPropertyText_overwrite_shifts_later_shadows exampleEnv
    disabledMarginSheet (exampleStyle [marginShadow]) _ 0 colorEntry "top: 0;".toList hready
    (by decide) rfl rfl (by decide) (by decide) (by decide) (by decide) (by decide) (by decide)
    (by decide) (by decide) (by decide)
  exact ⟨s1, style1, h1, by rw [h3]; decide⟩

/-! ## InspectorStyle::toggleProperty -/

/-- C6, counterexample. (a) The sheet `unreadSheet` cannot obtain its text: flat index 0 is
in its listing, and `toggleProperty(0, true)` returns false and leaves the state as it was, so
the second call returns false as well. (b) In the sheet `a { margin: 0; }` flat index 1 is
`margin-top`, an entry that exists only on the live style. `toggleProperty(1, true)` returns
true, keeps the text and stores a shadow with range `[0, 0]` and empty text; in the listing
read afterwards that shadow comes first and index 1 is the source property `margin`, so the
second `toggleProperty(1, true)` returns true too, removes `margin` from the text and stores
a second shadow. -/
theorem toggleProperty_twice_differs :
    ((InspectorStyle.populateAllProperties exampleEnv unreadSheet (exampleStyle [])).1.get? 0).isSome
        = true ∧
      InspectorStyle.toggleProperty exampleEnv unreadSheet (exampleStyle []) 0 true =
        some (false, unreadSheet, exampleStyle []) ∧
      ((InspectorStyle.populateAllProperties exampleEnv marginSheet (exampleStyle [])).1.get? 1).map
          (fun p => (p.sourceData.name, p.hasSource, p.disabled)) =
        some ("margin-top".toList, false, false) ∧
      observe (InspectorStyle.toggleProperty exampleEnv marginSheet (exampleStyle []) 1 true) =
        some (true, "a { margin: 0; }".toList, 1) ∧
      observe ((InspectorStyle.toggleProperty exampleEnv marginSheet (exampleStyle []) 1 true).bind
          fun r => InspectorStyle.toggleProperty exampleEnv r.2.1 r.2.2 1 true) =
        some (true, "a {  }".toList, 2) := by
  decide

theorem ensureParsedDataReady_success (env : Env) (s : InspectorStyleSheet)
    (h : (s.ensureParsedDataReady env).1 = true) :
    (s.ensureParsedDataReady env).2.m_parsedStyleSheet.m_hasText = true ∧
      (s.ensureParsedDataReady env).2.m_parsedStyleSheet.hasSourceData = true := by
  unfold InspectorStyleSheet.ensureParsedDataReady at h ⊢
  dsimp only at h ⊢
  have ht : (s.ensureText env).1 = true → (s.ensureText env).2.m_parsedStyleSheet.m_hasText = true := by
    unfold InspectorStyleSheet.ensureText
    split
    · rename_i hh; intro _; exact hh
    · split
      · intro _; rfl
      · intro hf; simp at hf
  cases hte : (s.ensureText env).1 with
  | false => rw [hte] at h; simp at h
  | true =>
    rw [hte] at h
    simp only [if_true] at h ⊢
    have ht2 := ht hte
    unfold InspectorStyleSheet.ensureSourceData at h ⊢
    split
    · rename_i hs; exact ⟨ht2, hs⟩
    · split
      · rename_i hnt; simp [ParsedStyleSheet.hasText, ht2] at hnt
      · exact ⟨ht2, rfl⟩

theorem ensureParsedDataReady_of_has (env : Env) (s : InspectorStyleSheet)
    (h1 : s.m_parsedStyleSheet.m_hasText = true) (h2 : s.m_parsedStyleSheet.hasSourceData = true) :
    s.ensureParsedDataReady env = (true, s) := by
  simp [InspectorStyleSheet.ensureParsedDataReady, InspectorStyleSheet.ensureSourceData,
    ensureText_of_hasText env h1, h2]

theorem ensureParsedDataReady_idem (env : Env) (s : InspectorStyleSheet)
    (h : (s.ensureParsedDataReady env).1 = true) :
    (s.ensureParsedDataReady env).2.ensureParsedDataReady env =
      (true, (s.ensureParsedDataReady env).2) := by
  obtain ⟨h1, h2⟩ := ensureParsedDataReady_success env s h
  exact ensureParsedDataReady_of_has env _ h1 h2

theorem ensureParsedDataReady_text (env : Env) (s : InspectorStyleSheet)
    (h : s.m_parsedStyleSheet.m_hasText = true) :
    (s.ensureParsedDataReady env).2.m_parsedStyleSheet.m_text = s.m_parsedStyleSheet.m_text := by
  simp only [InspectorStyleSheet.ensureParsedDataReady, ensureText_of_hasText env h, if_true,
    InspectorStyleSheet.ensureSourceData]
  split
  · rfl
  · split <;> rfl

/-- The guard of `toggleProperty`: when the entry at `index` is already in the state asked
for, the call returns true and changes neither the text nor the disabled properties. -/
theorem toggleProperty_guard (env : Env) (s : InspectorStyleSheet) (style : InspectorStyle)
    (i : Nat) (x : Bool) (p : InspectorStyleProperty)
    (hr : (s.ensureParsedDataReady env).1 = true)
    (hsd : ((s.ensureParsedDataReady env).2.ruleSourceDataFor style.m_style).isSome = true)
    (hentry : (InspectorStyle.populateAllProperties env (s.ensureParsedDataReady env).2 style).1.get? i
      = some p)
    (hp : p.disabled = x) :
    InspectorStyle.toggleProperty env s style i x =
      some (true, (s.ensureParsedDataReady env).2, style) := by
  obtain ⟨rd, hrd⟩ := Option.isSome_iff_exists.mp hsd
  have hsnd : (InspectorStyle.populateAllProperties env (s.ensureParsedDataReady env).2 style).2 =
      (s.ensureParsedDataReady env).2 := by
    simp only [InspectorStyle.populateAllProperties, ensureParsedDataReady_idem env s hr]
  simp only [InspectorStyle.toggleProperty, hr, Bool.not_true, Bool.false_eq_true, if_false, hrd,
    hentry, hp, if_true, hsnd]

theorem setStyleText_true_hasText (env : Env) (s s1 : InspectorStyleSheet) (style : Nat) (text : Str)
    (h : s.setStyleText env style text = some (true, s1)) :
    s1.m_parsedStyleSheet.m_hasText = true := by
  unfold InspectorStyleSheet.setStyleText at h
  dsimp only at h
  split at h
  · simp at h
  · split at h
    · simp at h
    · simp at h
    · split at h
      · simp at h
      · split at h
        · simp at h
        · simp only [Option.some.injEq, Prod.mk.injEq, true_and] at h
          subst h
          rfl

theorem replacePropertyInStyleText_true_hasText (env : Env) (s s1 : InspectorStyleSheet)
    (style : InspectorStyle) (property : InspectorStyleProperty) (newText : Str)
    (h : InspectorStyle.replacePropertyInStyleText env s style property newText = some (true, s1)) :
    s1.m_parsedStyleSheet.m_hasText = true := by
  unfold InspectorStyle.replacePropertyInStyleText at h
  dsimp only at h
  split at h
  · simp at h
  · exact setStyleText_true_hasText env _ _ _ _ h

/-- A successful `toggleProperty` leaves a sheet that holds its text. -/
theorem toggleProperty_true_hasText (env : Env) (s s1 : InspectorStyleSheet)
    (style style1 : InspectorStyle) (i : Nat) (x : Bool)
    (h : InspectorStyle.toggleProperty env s style i x = some (true, s1, style1)) :
    s1.m_parsedStyleSheet.m_hasText = true := by
  unfold InspectorStyle.toggleProperty at h
  dsimp only at h
  split at h
  · simp at h
  · rename_i hr
    replace hr : (s.ensureParsedDataReady env).1 = true := by
      cases hc : (s.ensureParsedDataReady env).1 with
      | true => rfl
      | false => rw [hc] at hr; simp at hr
    split at h
    · simp at h
    · split at h
      · simp at h
      · split at h
        · simp only [Option.some.injEq, Prod.mk.injEq, true_and] at h
          rw [← h.1]
          simp only [InspectorStyle.populateAllProperties, ensureParsedDataReady_idem env s hr]
          exact (ensureParsedDataReady_success env s hr).1
        · split at h
          · unfold InspectorStyle.enableProperty at h
            dsimp only at h
            split at h
            · simp at h
            · split at h
              · simp at h
              · split at h
                · simp at h
                · rename_i hrep
                  simp only [Option.some.injEq, Prod.mk.injEq, true_and] at h
                  rw [← h.1]
                  exact replacePropertyInStyleText_true_hasText env _ _ _ _ _ hrep
                · simp at h
          · unfold InspectorStyle.disableProperty at h
            dsimp only at h
            split at h
            · simp at h
            · split at h
              · simp at h
              · split at h
                · simp at h
                · simp at h
                · rename_i hrep
                  have := replacePropertyInStyleText_true_hasText env _ _ _ _ _ hrep
                  split at h
                  · simp only [Option.some.injEq, Prod.mk.injEq, true_and] at h
                    rw [← h.1]; exact this
                  · split at h
                    · simp at h
                    · simp only [Option.some.injEq, Prod.mk.injEq, true_and] at h
                      rw [← h.1]; exact this

/-- C6, amended: if `toggleProperty(i, x)` returned true and, in the listing read after it
(parsed data ready, source data for the style), the entry at `i` has `disabled = x`, then the
second `toggleProperty(i, x)` returns true and leaves the sheet text and the disabled
properties exactly as the first call left them. -/
theorem toggleProperty_idempotent_when_state_matches (env : Env) (s s1 : InspectorStyleSheet)
    (style style1 : InspectorStyle) (i : Nat) (x : Bool) (p : InspectorStyleProperty)
    (h1 : InspectorStyle.toggleProperty env s style i x = some (true, s1, style1))
    (hr : (s1.ensureParsedDataReady env).1 = true)
    (hsd : ((s1.ensureParsedDataReady env).2.ruleSourceDataFor style1.m_style).isSome = true)
    (hentry : (InspectorStyle.populateAllProperties env (s1.ensureParsedDataReady env).2
      style1).1.get? i = some p)
    (hp : p.disabled = x) :
    ∃ s2, InspectorStyle.toggleProperty env s1 style1 i x = some (true, s2, style1) ∧
      s2.m_parsedStyleSheet.m_text = s1.m_parsedStyleSheet.m_text := by
  refine ⟨_, toggleProperty_guard env s1 style1 i x p hr hsd hentry hp, ?_⟩
  exact ensureParsedDataReady_text env s1 (toggleProperty_true_hasText env s s1 style style1 i x h1)

/-- C6, witness: disabling `color` in `a { color: red; margin: 0; }` twice. -/
theorem toggleProperty_idempotent_when_state_matches_witness :
    InspectorStyle.toggleProperty exampleEnv colorMarginSheet (exampleStyle []) 0 true =
        some (true, disabledColorSheet, exampleStyle [colorShadow]) ∧
      ∃ s2, InspectorStyle.toggleProperty exampleEnv disabledColorSheet (exampleStyle [colorShadow])
          0 true = some (true, s2, exampleStyle [colorShadow]) ∧
        s2.m_parsedStyleSheet.m_text = "a {  margin: 0; }".toList :=
  ⟨by decide, toggleProperty_idempotent_when_state_matches exampleEnv colorMarginSheet
    disabledColorSheet (exampleStyle []) (exampleStyle [colorShadow]) 0 true colorShadow
    (by decide) (by decide) (by decide) (by decide) rfl⟩

/-! ## Disable followed by enable -/

/-- C1, counterexample: `color`, flat index 0 of `a { color: red; margin: 0; }`, is an enabled
source property with range `[1, 12)` inside the body `[3, 27)`, and the live style accepts
every text. After `toggleProperty(0, true)` the parser reports the body of
`a {  margin: 0; }` with the same start 3, and `margin` from offset 0 of that body. The shadow
of `color`, at offset 1, is then listed behind `margin`; `toggleProperty(0, false)` finds the
enabled `margin` at index 0 and returns true without a change: the text is not restored and
the shadow stays. -/
theorem toggleProperty_round_trip_fails :
    (InspectorStyle.populateAllProperties leadingBlankEnv colorMarginSheet (exampleStyle [])).1.get? 0
        = some colorEntry ∧
      colorMarginSheet.ruleSourceDataFor 0 = some (exampleSourceData 1 3 27
        [sourceProperty "color" "red" 1 12, sourceProperty "margin" "0" 13 23]) ∧
      (∀ text, (leadingBlankEnv.setCssText 0 text).isSome = true) ∧
      InspectorStyle.toggleProperty leadingBlankEnv colorMarginSheet (exampleStyle []) 0 true =
        some (true, disabledColorSheet, exampleStyle [colorShadow]) ∧
      sourceDataAfterReparse leadingBlankEnv disabledColorSheet 0 =
        some (exampleSourceData 1 3 16 [sourceProperty "margin" "0" 0 12]) ∧
      observe (InspectorStyle.toggleProperty leadingBlankEnv disabledColorSheet
          (exampleStyle [colorShadow]) 0 false) =
        some (true, "a {  margin: 0; }".toList, 1) := by
  refine ⟨by decide, by decide, ?_, by decide, by decide, by decide⟩
  intro text
  show (exampleSetCssText 0 text).isSome = true
  unfold exampleSetCssText
  split_ifs <;> rfl

theorem splice_round_trip {α : Type} (P M1 R MS : List α) (n : Nat) :
    (P ++ (M1 ++ MS)).take P.length ++
      ((((P ++ (M1 ++ MS)).drop P.length).take (M1.length + n)).take M1.length ++ R ++
        (((P ++ (M1 ++ MS)).drop P.length).take (M1.length + n)).drop M1.length) ++
      (P ++ (M1 ++ MS)).drop (P.length + (M1.length + n)) = P ++ (M1 ++ R ++ MS) := by
  rw [List.take_left, List.drop_left, List.take_take, Nat.min_eq_left (Nat.le_add_right _ _),
    List.take_left, ← List.drop_drop, List.drop_left, List.drop_take, Nat.add_sub_cancel_left,
    List.drop_left, ← List.drop_drop, List.drop_left]
  simp [List.take_append_drop]

theorem addLong_cancel (x len : Nat) (hx : x < 4294967296) :
    ((((((x : Int) + -(len : Int)) % 4294967296).toNat : Int) + (len : Int)) % 4294967296).toNat = x := by
  omega

theorem take_then_take {α : Type} (B : List α) (ps pe : Nat) (hp : ps ≤ pe) :
    B.take ps ++ (B.drop ps).take (pe - ps) = B.take pe := by
  have : pe = ps + (pe - ps) := by omega
  conv_rhs => rw [this, List.take_add]

theorem text_round_trip (T : Str) (b e ps pe e1 : Nat) (hb : b ≤ e) (he : e ≤ T.length)
    (hp : ps ≤ pe) (hpe : pe ≤ e - b) (h1 : b + ps ≤ e1) :
    (T.take b ++ (((T.drop b).take (e - b)).take ps ++ ((T.drop b).take (e - b)).drop pe) ++
        T.drop e).take b ++
      ((((T.take b ++ (((T.drop b).take (e - b)).take ps ++ ((T.drop b).take (e - b)).drop pe) ++
          T.drop e).drop b).take (e1 - b)).take ps ++
        (((T.drop b).take (e - b)).drop ps).take (pe - ps) ++
        (((T.take b ++ (((T.drop b).take (e - b)).take ps ++ ((T.drop b).take (e - b)).drop pe) ++
          T.drop e).drop b).take (e1 - b)).drop ps) ++
      (T.take b ++ (((T.drop b).take (e - b)).take ps ++ ((T.drop b).take (e - b)).drop pe) ++
        T.drop e).drop e1 = T := by
  have hPl : (T.take b).length = b := by rw [List.length_take]; omega
  have hBl : ((T.drop b).take (e - b)).length = e - b := by
    rw [List.length_take, List.length_drop]; omega
  have hMl : (((T.drop b).take (e - b)).take ps).length = ps := by
    rw [List.length_take, hBl]; omega
  have hX : T.take b ++ (((T.drop b).take (e - b)).take ps ++ ((T.drop b).take (e - b)).drop pe) ++
      T.drop e = T.take b ++ (((T.drop b).take (e - b)).take ps ++
        (((T.drop b).take (e - b)).drop pe ++ T.drop e)) := by
    simp only [List.append_assoc]
  have key := splice_round_trip (T.take b) (((T.drop b).take (e - b)).take ps)
    ((((T.drop b).take (e - b)).drop ps).take (pe - ps))
    (((T.drop b).take (e - b)).drop pe ++ T.drop e) (e1 - b - ps)
  rw [hPl, hMl] at key
  have h2 : ps + (e1 - b - ps) = e1 - b := by omega
  have h3 : b + (e1 - b) = e1 := by omega
  rw [h2, h3] at key
  rw [hX, key, take_then_take _ _ _ hp, ← List.append_assoc (List.take pe _),
    List.take_append_drop]
  have h4 : T.drop e = (T.drop b).drop (e - b) := by
    rw [List.drop_drop]; congr 1; omega
  rw [h4, List.take_append_drop, List.take_append_drop]

theorem get?_middle {α : Type} (l rest : List α) (x : α) :
    (l ++ x :: rest).get? l.length = some x := by
  induction l with
  | nil => rfl
  | cons a l ih => simpa using ih

theorem eraseIdx_middle {α : Type} (l rest : List α) (x : α) :
    (l ++ x :: rest).eraseIdx l.length = l ++ rest := by
  induction l with
  | nil => rfl
  | cons a l ih => simp [List.eraseIdx_cons_succ, ih]

theorem shiftRange_cancel (len : Nat) (q : InspectorStyleProperty)
    (h1 : q.sourceData.range.start < 4294967296) (h2 : q.sourceData.range.end_ < 4294967296) :
    InspectorStyle.shiftRange (len : Int) (InspectorStyle.shiftRange (-(len : Int)) q) = q := by
  unfold InspectorStyle.shiftRange
  simp only [addLong, addLong_cancel _ _ h1, addLong_cancel _ _ h2]

theorem ensureParsedDataReady_fst_of_hasText (env : Env) (s : InspectorStyleSheet)
    (h : s.m_parsedStyleSheet.m_hasText = true) : (s.ensureParsedDataReady env).1 = true := by
  simp only [InspectorStyleSheet.ensureParsedDataReady, ensureText_of_hasText env h, if_true,
    InspectorStyleSheet.ensureSourceData]
  split
  · rfl
  · split
    · rename_i hnt; simp [ParsedStyleSheet.hasText, h] at hnt
    · rfl

/-- The result of `toggleProperty(i, true)` on an enabled entry when the live style accepts
the body without the property. -/
theorem toggleProperty_disable_of_ready (env : Env) {s : InspectorStyleSheet}
    {style : InspectorStyle} {rd : CSSRuleSourceData} (h : Ready s style.m_style rd) (i : Nat)
    (property : InspectorStyleProperty)
    (hentry : (InspectorStyle.populateAllProperties env s style).1.get? i = some property)
    (hdis : property.disabled = false)
    (hr : property.sourceData.range.start ≤ property.sourceData.range.end_)
    (hpe : property.sourceData.range.end_ < 4294967296)
    (hinv : ∀ q ∈ style.m_disabledProperties, q.disabled = true)
    (hsize : style.m_disabledProperties.length + 1 < 4294967296)
    (properties : List LiveProperty)
    (hacc : env.setCssText style.m_style
      ((bodyText s rd).take property.sourceData.range.start ++
        (bodyText s rd).drop property.sourceData.range.end_) = some properties) :
    style.m_disabledProperties =
        ((InspectorStyle.populateAllProperties env s style).1.take i).filter (fun q => q.disabled) ++
        ((InspectorStyle.populateAllProperties env s style).1.drop (i + 1)).filter
          (fun q => q.disabled) ∧
    InspectorStyle.toggleProperty env s style i true =
      some (true, committed s style.m_style properties (patchedText s rd
          ((bodyText s rd).take property.sourceData.range.start ++
            (bodyText s rd).drop property.sourceData.range.end_)),
        { style with
          m_disabledProperties :=
            ((InspectorStyle.populateAllProperties env s style).1.take i).filter
                (fun q => q.disabled) ++
              disabledShadow property (bodyText s rd) ::
                (((InspectorStyle.populateAllProperties env s style).1.drop (i + 1)).filter
                  (fun q => q.disabled)).map (InspectorStyle.shiftRange
                    (-((property.sourceData.range.end_ - property.sourceData.range.start : Nat)
                      : Int))) }) := by
  obtain ⟨hsplit, _⟩ := get?_split _ i property hentry
  have hfilter := populateAllProperties_filter env s style hinv
  have hparts : style.m_disabledProperties =
      ((InspectorStyle.populateAllProperties env s style).1.take i).filter (fun q => q.disabled) ++
      ((InspectorStyle.populateAllProperties env s style).1.drop (i + 1)).filter
        (fun q => q.disabled) := by
    conv_lhs => rw [← hfilter, hsplit]
    simp [List.filter_append, List.filter_cons, hdis]
  refine ⟨hparts, ?_⟩
  have hidx := disabledIndexByOrdinal_of_enabled _ i property hentry hdis
  have htoggle : InspectorStyle.toggleProperty env s style i true =
      InspectorStyle.disableProperty env s style i
        (InspectorStyle.populateAllProperties env s style).1 := by
    simp only [InspectorStyle.toggleProperty, ensureParsedDataReady_of_ready env h, h.2.1,
      populateAllProperties_snd_of_ready env h, hentry, hdis, Bool.not_true, Bool.false_eq_true,
      if_false]
  rw [htoggle, disableProperty_of_ready env h i _ property hentry hr hpe properties hacc, hidx]
  have hlen := congrArg List.length hparts
  rw [List.length_append] at hlen
  split
  · rename_i hnil
    rw [if_pos rfl]
    rw [hnil, List.append_nil] at hparts
    rw [hnil, ← hparts]
    rfl
  · have hne : (((InspectorStyle.populateAllProperties env s style).1.take i).filter
        (fun q => q.disabled)).length ≠ UINT_MAX := by
      unfold UINT_MAX; omega
    rw [if_neg hne, if_neg (by omega)]
    unfold insertShadow
    conv_lhs => rw [hparts]
    rw [List.take_left, List.drop_left]

/-- The result of `toggleProperty(i, false)` on a disabled entry whose shadow is the entry `k`
of the disabled properties, when the live style accepts the body with the text put back. -/
theorem toggleProperty_enable_of_ready (env : Env) (s1 : InspectorStyleSheet)
    (style1 : InspectorStyle) (i : Nat) (rd1 : CSSRuleSourceData) (q shadow : InspectorStyleProperty)
    (hr : (s1.ensureParsedDataReady env).1 = true)
    (hready : Ready (s1.ensureParsedDataReady env).2 style1.m_style rd1)
    (hentry : (InspectorStyle.populateAllProperties env (s1.ensureParsedDataReady env).2
      style1).1.get? i = some q)
    (hq : q.disabled = true)
    (hkmax : (((InspectorStyle.populateAllProperties env (s1.ensureParsedDataReady env).2
      style1).1.take i).filter (fun q => q.disabled)).length ≠ UINT_MAX)
    (hget : style1.m_disabledProperties.get?
      (((InspectorStyle.populateAllProperties env (s1.ensureParsedDataReady env).2
        style1).1.take i).filter (fun q => q.disabled)).length = some shadow)
    (hzero : shadow.sourceData.range.end_ = shadow.sourceData.range.start)
    (properties : List LiveProperty)
    (hacc : env.setCssText style1.m_style
      ((bodyText (s1.ensureParsedDataReady env).2 rd1).take shadow.sourceData.range.start ++
        shadow.rawText ++
        (bodyText (s1.ensureParsedDataReady env).2 rd1).drop shadow.sourceData.range.start) =
      some properties) :
    InspectorStyle.toggleProperty env s1 style1 i false =
      some (true, committed (s1.ensureParsedDataReady env).2 style1.m_style properties
          (patchedText (s1.ensureParsedDataReady env).2 rd1
            ((bodyText (s1.ensureParsedDataReady env).2 rd1).take shadow.sourceData.range.start ++
              shadow.rawText ++
              (bodyText (s1.ensureParsedDataReady env).2 rd1).drop shadow.sourceData.range.start)),
        InspectorStyle.shiftDisabledProperties
          { style1 with
            m_disabledProperties := style1.m_disabledProperties.eraseIdx
              (((InspectorStyle.populateAllProperties env (s1.ensureParsedDataReady env).2
                style1).1.take i).filter (fun q => q.disabled)).length }
          (((InspectorStyle.populateAllProperties env (s1.ensureParsedDataReady env).2
            style1).1.take i).filter (fun q => q.disabled)).length
          shadow.rawText.length) := by
  have hidx := disabledIndexByOrdinal_of_disabled false _ i q hentry hq
  have hready2 : Ready (s1.ensureParsedDataReady env).2
      ({ style1 with
        m_disabledProperties := style1.m_disabledProperties.eraseIdx
          (((InspectorStyle.populateAllProperties env (s1.ensureParsedDataReady env).2
            style1).1.take i).filter (fun q => q.disabled)).length } : InspectorStyle).m_style rd1 :=
    hready
  have hz : usub shadow.sourceData.range.end_ shadow.sourceData.range.start = 0 := by
    rw [hzero]; unfold usub; omega
  have htoggle : InspectorStyle.toggleProperty env s1 style1 i false =
      InspectorStyle.enableProperty env (s1.ensureParsedDataReady env).2 style1 i
        (InspectorStyle.populateAllProperties env (s1.ensureParsedDataReady env).2 style1).1 := by
    simp only [InspectorStyle.toggleProperty, hr, hready.2.1,
      populateAllProperties_snd_of_ready env hready, hentry, hq, Bool.not_true, Bool.not_false,
      Bool.false_eq_true, Bool.true_eq_false, if_false, if_true]
  rw [htoggle]
  simp only [InspectorStyle.enableProperty, hidx, hkmax, if_false, hget,
    replacePropertyInStyleText_of_ready env hready2, setStyleText_of_ready env hready2, hz,
    replace, Nat.add_zero, hacc]

/-- Putting the removed text back at its offset restores the sheet text, whatever body end at
or behind that offset the re-parse reports. -/
theorem patchedText_restore (s s1 : InspectorStyleSheet) (rd rd1 : CSSRuleSourceData) (ps pe : Nat)
    (hX : s1.m_parsedStyleSheet.m_text =
      patchedText s rd ((bodyText s rd).take ps ++ (bodyText s rd).drop pe))
    (hbs : rd1.styleSourceData.styleBodyRange.start = rd.styleSourceData.styleBodyRange.start)
    (hbe : rd.styleSourceData.styleBodyRange.start + ps ≤ rd1.styleSourceData.styleBodyRange.end_)
    (he32 : rd1.styleSourceData.styleBodyRange.end_ < 4294967296)
    (hb : rd.styleSourceData.styleBodyRange.start ≤ rd.styleSourceData.styleBodyRange.end_)
    (he : rd.styleSourceData.styleBodyRange.end_ ≤ s.m_parsedStyleSheet.m_text.length)
    (hl : s.m_parsedStyleSheet.m_text.length < 4294967296)
    (hr : ps ≤ pe) (hrb : pe ≤ (bodyText s rd).length) :
    patchedText s1 rd1 ((bodyText s1 rd1).take ps ++ ((bodyText s rd).drop ps).take (pe - ps) ++
      (bodyText s1 rd1).drop ps) = s.m_parsedStyleSheet.m_text := by
  have hbl := bodyText_length hb he hl
  rw [patchedText_eq hb (by omega)] at hX
  have hB : bodyText s rd = (s.m_parsedStyleSheet.m_text.drop
      rd.styleSourceData.styleBodyRange.start).take
      (rd.styleSourceData.styleBodyRange.end_ - rd.styleSourceData.styleBodyRange.start) := by
    unfold bodyText substring
    rw [usub_of_le hb (by omega)]
  have hB1 : bodyText s1 rd1 = (s1.m_parsedStyleSheet.m_text.drop
      rd.styleSourceData.styleBodyRange.start).take
      (rd1.styleSourceData.styleBodyRange.end_ - rd.styleSourceData.styleBodyRange.start) := by
    unfold bodyText substring
    rw [hbs, usub_of_le (by omega) he32]
  have h3 : rd.styleSourceData.styleBodyRange.start +
      (rd1.styleSourceData.styleBodyRange.end_ - rd.styleSourceData.styleBodyRange.start) =
      rd1.styleSourceData.styleBodyRange.end_ := by omega
  unfold patchedText replace
  rw [hbs, usub_of_le (by omega) he32, h3, hB1, hX, hB]
  exact text_round_trip _ _ _ _ _ _ hb he hr (by omega) hbe

/-- C1, amended: let flat index `i` be an enabled source property with range `[ps, pe)`
inside the body `[b, e)`, in a state whose disabled properties are marked disabled and hold
32-bit offsets. If the live style accepts both commits and the re-parse after the first call
reports the same body start `b`, a body end of at least `b + ps`, and a listing in which
index `i` is a disabled entry with as many disabled entries in front of it as `i` had before,
then `toggleProperty(i, true)` and `toggleProperty(i, false)` both return true, the sheet
text is the original text and the disabled properties are the original list. -/
theorem toggleProperty_round_trip (env : Env) (s : InspectorStyleSheet) (style : InspectorStyle)
    (rd : CSSRuleSourceData) (i : Nat) (property : InspectorStyleProperty)
    (h : Ready s style.m_style rd)
    (hentry : (InspectorStyle.populateAllProperties env s style).1.get? i = some property)
    (hdis : property.disabled = false) (_hsrc : property.hasSource = true)
    (hr : property.sourceData.range.start ≤ property.sourceData.range.end_)
    (hrb : property.sourceData.range.end_ ≤ (bodyText s rd).length)
    (hb : rd.styleSourceData.styleBodyRange.start ≤ rd.styleSourceData.styleBodyRange.end_)
    (he : rd.styleSourceData.styleBodyRange.end_ ≤ s.m_parsedStyleSheet.m_text.length)
    (hl : s.m_parsedStyleSheet.m_text.length < 4294967296)
    (hinv : ∀ q ∈ style.m_disabledProperties, q.disabled = true)
    (hsize : style.m_disabledProperties.length + 1 < 4294967296)
    (hu32 : ∀ q ∈ style.m_disabledProperties,
      q.sourceData.range.start < 4294967296 ∧ q.sourceData.range.end_ < 4294967296)
    (hacc1 : (env.setCssText style.m_style
      ((bodyText s rd).take property.sourceData.range.start ++
        (bodyText s rd).drop property.sourceData.range.end_)).isSome = true)
    (hre : ∀ s1 style1, InspectorStyle.toggleProperty env s style i true = some (true, s1, style1) →
      ∃ rd1 q, Ready (s1.ensureParsedDataReady env).2 style1.m_style rd1 ∧
        rd1.styleSourceData.styleBodyRange.start = rd.styleSourceData.styleBodyRange.start ∧
        rd.styleSourceData.styleBodyRange.start + property.sourceData.range.start ≤
          rd1.styleSourceData.styleBodyRange.end_ ∧
        rd1.styleSourceData.styleBodyRange.end_ < 4294967296 ∧
        (InspectorStyle.populateAllProperties env (s1.ensureParsedDataReady env).2 style1).1.get? i
          = some q ∧
        q.disabled = true ∧
        (((InspectorStyle.populateAllProperties env (s1.ensureParsedDataReady env).2
          style1).1.take i).filter (fun q => q.disabled)).length =
          (((InspectorStyle.populateAllProperties env s style).1.take i).filter
            (fun q => q.disabled)).length ∧
        (env.setCssText style1.m_style
          ((bodyText (s1.ensureParsedDataReady env).2 rd1).take property.sourceData.range.start ++
            ((bodyText s rd).drop property.sourceData.range.start).take
              (property.sourceData.range.end_ - property.sourceData.range.start) ++
            (bodyText (s1.ensureParsedDataReady env).2 rd1).drop
              property.sourceData.range.start)).isSome = true) :
    ∃ s1 style1 s2 style2,
      InspectorStyle.toggleProperty env s style i true = some (true, s1, style1) ∧
      InspectorStyle.toggleProperty env s1 style1 i false = some (true, s2, style2) ∧
      s2.m_parsedStyleSheet.m_text = s.m_parsedStyleSheet.m_text ∧
      style2.m_disabledProperties = style.m_disabledProperties := by
  obtain ⟨properties1, hprops1⟩ := Option.isSome_iff_exists.mp hacc1
  have hbl := bodyText_length hb he hl
  have hpe : property.sourceData.range.end_ < 4294967296 := by omega
  obtain ⟨hparts, h1⟩ := toggleProperty_disable_of_ready env h i property hentry hdis hr hpe hinv
    hsize properties1 hprops1
  obtain ⟨rd1, q, hready1, hbs, hbe, he32, hentry1, hq, hcount, hacc2⟩ := hre _ _ h1
  obtain ⟨properties2, hprops2⟩ := Option.isSome_iff_exists.mp hacc2
  have hlen := congrArg List.length hparts
  rw [List.length_append] at hlen
  have hr1 := ensureParsedDataReady_fst_of_hasText env
    (committed s style.m_style properties1 (patchedText s rd
      ((bodyText s rd).take property.sourceData.range.start ++
        (bodyText s rd).drop property.sourceData.range.end_))) rfl
  have htext1 := ensureParsedDataReady_text env
    (committed s style.m_style properties1 (patchedText s rd
      ((bodyText s rd).take property.sourceData.range.start ++
        (bodyText s rd).drop property.sourceData.range.end_))) rfl
  have h2 := toggleProperty_enable_of_ready env _ _ i rd1 q
    (disabledShadow property (bodyText s rd)) hr1 hready1 hentry1 hq
    (by rw [hcount]; unfold UINT_MAX; omega)
    (by rw [hcount]; exact get?_middle _ _ _) rfl properties2 hprops2
  refine ⟨_, _, _, _, h1, h2, ?_, ?_⟩
  · exact patchedText_restore s _ rd rd1 _ _ htext1 hbs hbe he32 hb he hl hr hrb
  · show (InspectorStyle.shiftDisabledProperties _ _ _).m_disabledProperties = _
    unfold InspectorStyle.shiftDisabledProperties
    simp only
    rw [hcount, eraseIdx_middle, List.take_left, List.drop_left, List.map_map]
    have hraw : (disabledShadow property (bodyText s rd)).rawText.length =
        property.sourceData.range.end_ - property.sourceData.range.start := by
      unfold disabledShadow substring
      simp only [List.length_take, List.length_drop]
      omega
    rw [hraw]
    conv_rhs => rw [hparts]
    congr 1
    conv_rhs => rw [← List.map_id (List.filter _ _)]
    apply List.map_congr_left
    intro q1 hq1
    have hmem : q1 ∈ style.m_disabledProperties := by
      rw [hparts]; exact List.mem_append_right _ hq1
    exact shiftRange_cancel _ q1 (hu32 q1 hmem).1 (hu32 q1 hmem).2

/-- C1, witness: disabling and enabling `color` in `a { color: red; margin: 0; }` with the parser of the examples. -/
theorem toggleProperty_round_trip_witness :
    ∃ s1 style1 s2 style2,
      InspectorStyle.toggleProperty exampleEnv colorMarginSheet (exampleStyle []) 0 true =
        some (true, s1, style1) ∧
      InspectorStyle.toggleProperty exampleEnv s1 style1 0 false = some (true, s2, style2) ∧
      s2.m_parsedStyleSheet.m_text = "a { color: red; margin: 0; }".toList ∧
      style2.m_disabledProperties = [] := by
  have hfirst : InspectorStyle.toggleProperty exampleEnv colorMarginSheet (exampleStyle []) 0 true =
      some (true, disabledColorSheet, exampleStyle [colorShadow]) := by decide
  exact toggleProperty_round_trip exampleEnv colorMarginSheet (exampleStyle [])
    (exampleSourceData 1 3 27 [sourceProperty "color" "red" 1 12, sourceProperty "margin" "0" 13 23])
    0 colorEntry ⟨rfl, by decide, by decide⟩ (by decide) rfl rfl (by decide) (by decide)
    (by decide) (by decide) (by decide) (by simp [exampleStyle]) (by decide)
    (by simp [exampleStyle]) (by decide)
    (by
      intro s1 style1 hs
      rw [hfirst] at hs
      simp only [Option.some.injEq, Prod.mk.injEq, true_and] at hs
      obtain ⟨hs1, hs2⟩ := hs
      subst hs1 hs2
      exact ⟨exampleSourceData 1 3 16 [sourceProperty "margin" "0" 2 12], colorShadow,
        ⟨rfl, by decide, by decide⟩, by decide, by decide, by decide, by decide, rfl, by decide,
        by decide⟩)

/-! ## Overwriting a disabled property -/

/-- C11: in the sheet `a { color: red;  }` flat index 1 is the shadow of `margin`, with range
`[13, 13]` and text `margin: 0;`. `setPropertyText(1, "margin: 1px;", true)` returns true and
leaves the sheet as it is, but the retained shadow still has the text `margin: 0;` (the new
text went to the copy in the listing) and its range is now `[25, 25]` (the delta is the
length of the new text, 12, not 0). -/
theorem setPropertyText_overwrite_disabled_keeps_rawText :
    InspectorStyle.setPropertyText exampleEnv disabledMarginSheet (exampleStyle [marginShadow]) 1
        "margin: 1px;".toList true =
      some (true, disabledMarginSheet, exampleStyle [movedMarginShadow]) := by
  decide

/-! ## Edits that the live style rejects -/

/-- C13: the sheet is `a {  margin: 0; }`, flat index 0 is the shadow of `color` with range
`[1, 1]`, and the live style rejects every text. `setPropertyText(0, "top: 0;", false)`
returns true, not false; the text is unchanged, and the range of the shadow has moved to
`[8, 8]`. -/
theorem setPropertyText_insert_rejected_returns_true :
    InspectorStyle.setPropertyText rejectingEnv reparsedColorSheet (exampleStyle [colorShadow]) 0
        "top: 0;".toList false =
      some (true, reparsedColorSheet, exampleStyle [movedColorShadow]) := by
  decide

/-- C14: the sheet is `a {  margin: 0; }`, flat index 0 is the shadow of `color`, and the
live style rejects every text. `toggleProperty(0, false)` returns false and so does
`setPropertyText(0, "", true)`; in both cases the text is unchanged and the shadow is gone
from the disabled properties. -/
theorem enableProperty_rejected_drops_shadow :
    InspectorStyle.toggleProperty rejectingEnv reparsedColorSheet (exampleStyle [colorShadow]) 0
        false = some (false, reparsedColorSheet, exampleStyle []) ∧
      InspectorStyle.setPropertyText rejectingEnv reparsedColorSheet (exampleStyle [colorShadow]) 0
        [] true = some (false, reparsedColorSheet, exampleStyle []) := by
  decide

/-- C15: the stored text of `emptyTextSheet` is empty and its live sheet holds the rule `a`,
for which the parser has no source data. `setRuleSelector(0, ".x")` returns false, and the
selector of the live rule is `.x` afterwards. -/
theorem setRuleSelector_failed_changes_selector :
    (emptyTextSheet.setRuleSelector exampleEnv exampleId ".x".toList).1 = false ∧
      (emptyTextSheet.setRuleSelector exampleEnv exampleId ".x".toList).2.m_pageStyleSheet.rules =
        [CSSRule.styleRule
          { selectorText := ".x".toList, style := { handle := 0, properties := [] } }] ∧
      emptyTextSheet.m_pageStyleSheet.rules =
        [CSSRule.styleRule
          { selectorText := "a".toList, style := { handle := 0, properties := [] } }] := by
  decide

/-! ## The order of the disabled properties -/

/-- C17: in the sheet `a { color: red; margin: 0; }`, `toggleProperty(0, true)` disables
`color` and stores its shadow at offset 1. Flat index 2 of the listing read afterwards is
`margin-top`, which exists only on the live style; `toggleProperty(2, true)` returns true
and appends a shadow at offset 0, so the start offsets of the disabled properties are 1, 0. -/
theorem toggleProperty_unsorted_shadows :
    InspectorStyle.toggleProperty exampleEnv colorMarginSheet (exampleStyle []) 0 true =
        some (true, disabledColorSheet, exampleStyle [colorShadow]) ∧
      ((InspectorStyle.populateAllProperties exampleEnv disabledColorSheet
          (exampleStyle [colorShadow])).1.get? 2).map
          (fun p => (p.sourceData.name, p.hasSource, p.disabled)) =
        some ("margin-top".toList, false, false) ∧
      (InspectorStyle.toggleProperty exampleEnv disabledColorSheet (exampleStyle [colorShadow]) 2
          true).map (fun r => (r.1, disabledStarts r.2.2)) = some (true, [1, 0]) := by
  decide

/-! ## The retained styles -/

/-- C18: on the sheet `a { color: red; margin: 0; }`, which retains no style,
`toggleProperty(0, true)` retains the style of the rule with the shadow of `color`; then
`setPropertyText(0, "", true)` enables the property again and returns true, and the style
is still retained, with an empty list of disabled properties. -/
theorem setPropertyText_retains_style_without_disabled :
    colorMarginSheet.m_inspectorStyles = [] ∧
      (colorMarginSheet.performAll exampleEnv
          [SheetCall.toggleProperty exampleId 0 true]).map (fun s => s.m_inspectorStyles) =
        some [(0, exampleStyle [colorShadow])] ∧
      (colorMarginSheet.performAll exampleEnv
          [SheetCall.toggleProperty exampleId 0 true,
           SheetCall.setPropertyText exampleId 0 [] true]).map
          (fun s => (s.m_parsedStyleSheet.m_text, s.m_inspectorStyles)) =
        some ("a { color: red; margin: 0; }".toList, [(0, exampleStyle [])]) := by
  decide

/-! ## InspectorStyleSheet::revalidateStyle -/

/-- C19: `m_parserOutput` is null in the constructor and no method assigns it, so a
`revalidateStyle` that is not re-entered dereferences the null `parsedSheet`. -/
theorem revalidateStyle_faults (env : Env) (cssText : Nat → Str) (s : InspectorStyleSheet)
    (pageStyle : Nat) (hflag : s.m_isRevalidating = false)
    (hnull : s.m_parsedStyleSheet.m_parserOutput = none) :
    s.revalidateStyle env cssText pageStyle = none := by
  simp [InspectorStyleSheet.revalidateStyle, hflag, ParsedStyleSheet.cssStyleSheet, hnull]

/-- C19, at the sheet `a { color: red; }` after the live style has been set to
`color: green;`. -/
theorem revalidateStyle_faults_witness :
    (exampleSheet "a { color: red; }" [liveProperty "color" "green"]).revalidateStyle exampleEnv
      (fun _ => "color: green;".toList) 0 = none :=
  revalidateStyle_faults exampleEnv _ _ 0 rfl rfl

/-! ## What a property range counts from -/

/-- C12, counterexample: with the property range `[4, 15)` of the specification, which counts
from the start of the sheet text `a { color: red; }`, `setPropertyText(0, "color: blue;", true)`
returns true and the sheet text is `a { colcolor: blue;}`: the range is applied to the body
text ` color: red; `, not to the sheet text. -/
theorem setPropertyText_range_is_not_sheet_offset :
    (InspectorStyle.populateAllProperties exampleEnv absoluteRangeSheet (exampleStyle [])).1.get? 0 =
        some { sourceData := sourceProperty "color" "red" 4 15, hasSource := true
               disabled := false, rawText := [] } ∧
      observe (InspectorStyle.setPropertyText exampleEnv absoluteRangeSheet (exampleStyle []) 0
          "color: blue;".toList true) = some (true, "a { colcolor: blue;}".toList, 0) := by
  decide

theorem splice_in_text (T t : Str) (b e ps pe : Nat) (hb : b ≤ e) (hp : ps ≤ pe)
    (hpe : pe ≤ e - b) :
    T.take b ++ (((T.drop b).take (e - b)).take ps ++ t ++ ((T.drop b).take (e - b)).drop pe) ++
      T.drop e = T.take (b + ps) ++ t ++ T.drop (b + pe) := by
  have h1 : ((T.drop b).take (e - b)).take ps = (T.drop b).take ps := by
    rw [List.take_take, Nat.min_eq_left (by omega)]
  have h2 : T.take b ++ (T.drop b).take ps = T.take (b + ps) := by
    rw [List.take_add]
  have h3 : ((T.drop b).take (e - b)).drop pe ++ T.drop e = T.drop (b + pe) := by
    rw [List.drop_take, List.drop_drop]
    have : T.drop e = (T.drop (b + pe)).drop (e - b - pe) := by
      rw [List.drop_drop]; congr 1; omega
    rw [this, List.take_append_drop]
  rw [h1, List.append_assoc, List.append_assoc, List.append_assoc, h3, ← List.append_assoc, h2,
    List.append_assoc]

/-- C12, amended: property ranges are offsets into the body text of the rule. For a body range
`[b, e)` of the sheet text and an enabled entry with range `[ps, pe)` inside the body, an
overwrite that the live style accepts returns true, replaces exactly
`sheet_text[b + ps, b + pe)` by the new text, and shifts the disabled properties behind the
entry by the `unsigned` difference of the length of the new text and `pe - ps`. -/
theorem setPropertyText_range_is_body_offset (env : Env) (s : InspectorStyleSheet)
    (style : InspectorStyle) (rd : CSSRuleSourceData) (i : Nat) (property : InspectorStyleProperty)
    (t : Str) (h : Ready s style.m_style rd)
    (hentry : (InspectorStyle.populateAllProperties env s style).1.get? i = some property)
    (hdis : property.disabled = false)
    (hr : property.sourceData.range.start ≤ property.sourceData.range.end_)
    (hrb : property.sourceData.range.end_ ≤ (bodyText s rd).length)
    (hb : rd.styleSourceData.styleBodyRange.start ≤ rd.styleSourceData.styleBodyRange.end_)
    (he : rd.styleSourceData.styleBodyRange.end_ ≤ s.m_parsedStyleSheet.m_text.length)
    (hl : s.m_parsedStyleSheet.m_text.length < 4294967296)
    (hacc : (env.setCssText style.m_style
      ((bodyText s rd).take property.sourceData.range.start ++ t ++
        (bodyText s rd).drop property.sourceData.range.end_)).isSome = true) :
    ∃ s1, InspectorStyle.setPropertyText env s style i t true =
        some (true, s1, InspectorStyle.shiftDisabledProperties style
          (InspectorStyle.disabledIndexByOrdinal i true
            (InspectorStyle.populateAllProperties env s style).1)
          (usub t.length (property.sourceData.range.end_ - property.sourceData.range.start))) ∧
      s1.m_parsedStyleSheet.m_text =
        s.m_parsedStyleSheet.m_text.take
            (rd.styleSourceData.styleBodyRange.start + property.sourceData.range.start) ++ t ++
          s.m_parsedStyleSheet.m_text.drop
            (rd.styleSourceData.styleBodyRange.start + property.sourceData.range.end_) := by
  obtain ⟨properties, hprops⟩ := Option.isSome_iff_exists.mp hacc
  have hbl := bodyText_length hb he hl
  have hpe : property.sourceData.range.end_ < 4294967296 := by omega
  have hcall := setPropertyText_overwrite_of_ready env h i property t hentry hdis hr hpe
    properties hprops
  rw [usub_of_le hr hpe] at hcall
  refine ⟨_, hcall, ?_⟩
  show patchedText s rd _ = _
  rw [patchedText_eq hb (by omega)]
  have hB : bodyText s rd = (s.m_parsedStyleSheet.m_text.drop
      rd.styleSourceData.styleBodyRange.start).take
      (rd.styleSourceData.styleBodyRange.end_ - rd.styleSourceData.styleBodyRange.start) := by
    unfold bodyText substring
    rw [usub_of_le hb (by omega)]
  rw [hB]
  exact splice_in_text _ _ _ _ _ _ hb hr (by omega)

/-- C12, witness: in `a { color: red; }` the body starts at 3 and `color: red;` has the range
`[1, 12)`; the overwrite by `color: blue;` gives `a { color: blue; }` and the delta is 1. -/
theorem setPropertyText_range_is_body_offset_witness :
    Ready (exampleSheet "a { color: red; }" [liveProperty "color" "red"]) (exampleStyle []).m_style
        (exampleSourceData 1 3 16 [sourceProperty "color" "red" 1 12]) ∧
      (∃ s1, InspectorStyle.setPropertyText exampleEnv
          (exampleSheet "a { color: red; }" [liveProperty "color" "red"]) (exampleStyle []) 0
          "color: blue;".toList true =
          some (true, s1, InspectorStyle.shiftDisabledProperties (exampleStyle [])
            (InspectorStyle.disabledIndexByOrdinal 0 true
              (InspectorStyle.populateAllProperties exampleEnv
                (exampleSheet "a { color: red; }" [liveProperty "color" "red"])
                (exampleStyle [])).1) (usub 12 (12 - 1))) ∧
        s1.m_parsedStyleSheet.m_text = "a { color: blue; }".toList) ∧
      usub 12 (12 - 1) = 1 := by
  have hready : Ready (exampleSheet "a { color: red; }" [liveProperty "color" "red"])
      (exampleStyle []).m_style (exampleSourceData 1 3 16 [sourceProperty "color" "red" 1 12]) :=
    ⟨rfl, by decide, by decide⟩
  refine ⟨hready, ?_, by decide⟩
  obtain ⟨s1, h1, h2⟩ := setPropertyText_range_is_body_offset exampleEnv _ (exampleStyle []) _ 0
    colorEntry "color: blue;".toList hready (by decide) rfl (by decide) (by decide) (by decide)
    (by decide) (by decide) (by decide)
  exact ⟨s1, h1, by rw [h2]; decide⟩

/-! ## What every call keeps true of the disabled properties -/

theorem shiftDisabledProperties_forall (P : InspectorStyleProperty → Prop)
    (hshift : ∀ delta q, P q → P (InspectorStyle.shiftRange delta q)) (style : InspectorStyle)
    (k : Nat) (delta : Int) (h : ∀ q ∈ style.m_disabledProperties, P q) :
    ∀ q ∈ (InspectorStyle.shiftDisabledProperties style k delta).m_disabledProperties, P q := by
  intro q hq
  unfold InspectorStyle.shiftDisabledProperties at hq
  simp only [List.mem_append, List.mem_map] at hq
  rcases hq with hq | ⟨a, ha, rfl⟩
  · exact h q (List.mem_of_mem_take hq)
  · exact hshift _ _ (h a (List.mem_of_mem_drop ha))

theorem eraseIdx_forall (P : InspectorStyleProperty → Prop) (style : InspectorStyle) (k : Nat)
    (h : ∀ q ∈ style.m_disabledProperties, P q) :
    ∀ q ∈ ({ style with m_disabledProperties := style.m_disabledProperties.eraseIdx k } :
      InspectorStyle).m_disabledProperties, P q := by
  intro q hq
  exact h q (List.mem_of_mem_eraseIdx hq)

theorem enableProperty_forall (P : InspectorStyleProperty → Prop)
    (hshift : ∀ delta q, P q → P (InspectorStyle.shiftRange delta q))
    (env : Env) (s s1 : InspectorStyleSheet) (style style1 : InspectorStyle) (i : Nat)
    (all : List InspectorStyleProperty) (success : Bool)
    (hcall : InspectorStyle.enableProperty env s style i all = some (success, s1, style1))
    (h : ∀ q ∈ style.m_disabledProperties, P q) : ∀ q ∈ style1.m_disabledProperties, P q := by
  unfold InspectorStyle.enableProperty at hcall
  dsimp only at hcall
  split at hcall
  · simp only [Option.some.injEq, Prod.mk.injEq] at hcall
    obtain ⟨_, _, rfl⟩ := hcall
    exact h
  · split at hcall
    · simp at hcall
    · split at hcall
      · simp at hcall
      · simp only [Option.some.injEq, Prod.mk.injEq] at hcall
        obtain ⟨_, _, rfl⟩ := hcall
        exact shiftDisabledProperties_forall P hshift _ _ _ (eraseIdx_forall P style _ h)
      · simp only [Option.some.injEq, Prod.mk.injEq] at hcall
        obtain ⟨_, _, rfl⟩ := hcall
        exact eraseIdx_forall P style _ h

theorem disableProperty_forall (P : InspectorStyleProperty → Prop)
    (hshift : ∀ delta q, P q → P (InspectorStyle.shiftRange delta q))
    (hnew : ∀ q : InspectorStyleProperty,
      q.sourceData.range.start = q.sourceData.range.end_ → q.disabled = true → P q)
    (env : Env) (s s1 : InspectorStyleSheet) (style style1 : InspectorStyle) (i : Nat)
    (all : List InspectorStyleProperty) (success : Bool)
    (hcall : InspectorStyle.disableProperty env s style i all = some (success, s1, style1))
    (h : ∀ q ∈ style.m_disabledProperties, P q) : ∀ q ∈ style1.m_disabledProperties, P q := by
  unfold InspectorStyle.disableProperty at hcall
  dsimp only at hcall
  split at hcall
  · simp at hcall
  · split at hcall
    · simp only [Option.some.injEq, Prod.mk.injEq] at hcall
      obtain ⟨_, _, rfl⟩ := hcall
      exact h
    · split at hcall
      · simp at hcall
      · simp only [Option.some.injEq, Prod.mk.injEq] at hcall
        obtain ⟨_, _, rfl⟩ := hcall
        exact h
      · split at hcall
        · simp only [Option.some.injEq, Prod.mk.injEq] at hcall
          obtain ⟨_, _, rfl⟩ := hcall
          intro q hq
          simp only [List.mem_append, List.mem_singleton] at hq
          rcases hq with hq | rfl
          · exact h q hq
          · exact hnew _ rfl rfl
        · split at hcall
          · simp at hcall
          · simp only [Option.some.injEq, Prod.mk.injEq] at hcall
            obtain ⟨_, _, rfl⟩ := hcall
            apply shiftDisabledProperties_forall P hshift
            intro q hq
            simp only [List.mem_append, List.mem_cons] at hq
            rcases hq with hq | rfl | hq
            · exact h q (List.mem_of_mem_take hq)
            · exact hnew _ rfl rfl
            · exact h q (List.mem_of_mem_drop hq)

theorem toggleProperty_forall (P : InspectorStyleProperty → Prop)
    (hshift : ∀ delta q, P q → P (InspectorStyle.shiftRange delta q))
    (hnew : ∀ q : InspectorStyleProperty,
      q.sourceData.range.start = q.sourceData.range.end_ → q.disabled = true → P q)
    (env : Env) (s s1 : InspectorStyleSheet) (style style1 : InspectorStyle) (i : Nat)
    (x success : Bool)
    (hcall : InspectorStyle.toggleProperty env s style i x = some (success, s1, style1))
    (h : ∀ q ∈ style.m_disabledProperties, P q) : ∀ q ∈ style1.m_disabledProperties, P q := by
  unfold InspectorStyle.toggleProperty at hcall
  dsimp only at hcall
  split at hcall
  · simp only [Option.some.injEq, Prod.mk.injEq] at hcall
    obtain ⟨_, _, rfl⟩ := hcall
    exact h
  · split at hcall
    · simp only [Option.some.injEq, Prod.mk.injEq] at hcall
      obtain ⟨_, _, rfl⟩ := hcall
      exact h
    · split at hcall
      · simp only [Option.some.injEq, Prod.mk.injEq] at hcall
        obtain ⟨_, _, rfl⟩ := hcall
        exact h
      · split at hcall
        · simp only [Option.some.injEq, Prod.mk.injEq] at hcall
          obtain ⟨_, _, rfl⟩ := hcall
          exact h
        · split at hcall
          · exact enableProperty_forall P hshift env _ _ _ _ _ _ _ hcall h
          · exact disableProperty_forall P hshift hnew env _ _ _ _ _ _ _ hcall h

theorem setPropertyText_forall (P : InspectorStyleProperty → Prop)
    (hshift : ∀ delta q, P q → P (InspectorStyle.shiftRange delta q))
    (env : Env) (s s1 : InspectorStyleSheet) (style style1 : InspectorStyle) (i : Nat)
    (t : Str) (overwrite success : Bool)
    (hcall : InspectorStyle.setPropertyText env s style i t overwrite = some (success, s1, style1))
    (h : ∀ q ∈ style.m_disabledProperties, P q) : ∀ q ∈ style1.m_disabledProperties, P q := by
  unfold InspectorStyle.setPropertyText at hcall
  dsimp only at hcall
  split at hcall
  · simp only [Option.some.injEq, Prod.mk.injEq] at hcall
    obtain ⟨_, _, rfl⟩ := hcall
    exact h
  · split at hcall
    · split at hcall
      · simp at hcall
      · split at hcall
        · split at hcall
          · simp at hcall
          · simp only [Option.some.injEq, Prod.mk.injEq] at hcall
            obtain ⟨_, _, rfl⟩ := hcall
            exact h
          · simp only [Option.some.injEq, Prod.mk.injEq] at hcall
            obtain ⟨_, _, rfl⟩ := hcall
            exact shiftDisabledProperties_forall P hshift _ _ _ h
        · split at hcall
          · exact enableProperty_forall P hshift env _ _ _ _ _ _ _ hcall h
          · simp only [Option.some.injEq, Prod.mk.injEq] at hcall
            obtain ⟨_, _, rfl⟩ := hcall
            exact shiftDisabledProperties_forall P hshift _ _ _ h
    · split at hcall
      · simp only [Option.some.injEq, Prod.mk.injEq] at hcall
        obtain ⟨_, _, rfl⟩ := hcall
        exact h
      · split at hcall
        · simp only [Option.some.injEq, Prod.mk.injEq] at hcall
          obtain ⟨_, _, rfl⟩ := hcall
          exact h
        · split at hcall
          · simp at hcall
          · simp only [Option.some.injEq, Prod.mk.injEq] at hcall
            obtain ⟨_, _, rfl⟩ := hcall
            exact shiftDisabledProperties_forall P hshift _ _ _ h

theorem shiftRange_zero_width (delta : Int) (q : InspectorStyleProperty)
    (h : q.sourceData.range.start = q.sourceData.range.end_) :
    (InspectorStyle.shiftRange delta q).sourceData.range.start =
      (InspectorStyle.shiftRange delta q).sourceData.range.end_ := by
  unfold InspectorStyle.shiftRange
  simp only [h]

/-- C16: in every state that a sequence of `toggleProperty` and `setPropertyText` calls,
successful or not, reaches from a style without disabled properties, every disabled property
has `range.start = range.end`. -/
theorem zero_width_invariant (env : Env) (s : InspectorStyleSheet) (style : InspectorStyle)
    (h : Reachable env s style) :
    ∀ q ∈ style.m_disabledProperties, q.sourceData.range.start = q.sourceData.range.end_ := by
  induction h with
  | start s styleId style =>
    intro q hq
    simp [InspectorStyle.create] at hq
  | step c success _ hcall ih =>
    cases c with
    | toggleProperty index disable =>
      exact toggleProperty_forall _ shiftRange_zero_width (fun _ hq _ => hq) env _ _ _ _ _ _ _
        hcall ih
    | setPropertyText index propertyText overwrite =>
      exact setPropertyText_forall _ shiftRange_zero_width env _ _ _ _ _ _ _ _ hcall ih

/-- C16, witness: the state after `color` has been disabled in `a { color: red; margin: 0; }`
is reachable, and the shadow of `color` has the range `[1, 1]`. -/
theorem zero_width_invariant_witness :
    Reachable exampleEnv disabledColorSheet (exampleStyle [colorShadow]) ∧
      colorShadow.sourceData.range.start = colorShadow.sourceData.range.end_ := by
  have hr : Reachable exampleEnv disabledColorSheet (exampleStyle [colorShadow]) :=
    Reachable.step (PropertyCall.toggleProperty 0 true) true
      (Reachable.start colorMarginSheet exampleId 0) (by decide)
  exact ⟨hr, zero_width_invariant exampleEnv _ _ hr colorShadow (by simp [exampleStyle])⟩

/-! ## Ordinals -/

theorem digitChar_spec (m : Nat) (h : m < 10) :
    (Nat.digitChar m).toNat - 48 = m ∧ (Nat.digitChar m).isDigit = true := by
  interval_cases m <;> decide

theorem toDigitsCore_foldl (fuel n : Nat) (ds : List Char) (h : n < fuel) :
    (Nat.toDigitsCore 10 fuel n ds).foldl (fun acc c => 10 * acc + (c.toNat - 48)) 0 =
      ds.foldl (fun acc c => 10 * acc + (c.toNat - 48)) n := by
  induction fuel generalizing n ds with
  | zero => omega
  | succ fuel ih =>
    unfold Nat.toDigitsCore
    dsimp only
    have hd := (digitChar_spec (n % 10) (Nat.mod_lt _ (by decide))).1
    split
    · rename_i h0
      have hn : n % 10 = n := Nat.mod_eq_of_lt (by omega)
      rw [hn] at hd ⊢
      simp only [List.foldl_cons, Nat.mul_zero, Nat.zero_add, hd]
    · rename_i h0
      rw [ih _ _ (by omega)]
      simp only [List.foldl_cons, hd]
      congr 1
      omega

theorem toDigitsCore_digits (fuel n : Nat) (ds : List Char) (h : n < fuel)
    (hds : ds.all Char.isDigit = true) :
    Nat.toDigitsCore 10 fuel n ds ≠ [] ∧ (Nat.toDigitsCore 10 fuel n ds).all Char.isDigit = true := by
  induction fuel generalizing n ds with
  | zero => omega
  | succ fuel ih =>
    unfold Nat.toDigitsCore
    dsimp only
    have hd := (digitChar_spec (n % 10) (Nat.mod_lt _ (by decide))).2
    split
    · exact ⟨by simp, by simp [hd, hds]⟩
    · exact ih _ _ (by omega) (by simp [hd, hds])

/-- The decimal digits of an `unsigned` parse back to it. -/
theorem toUInt_number (k : Nat) (h : k ≤ UINT_MAX) : toUInt (number k) = some k := by
  unfold toUInt number Nat.toDigits
  have h1 := toDigitsCore_digits (k + 1) k [] (by omega) rfl
  have h2 := toDigitsCore_foldl (k + 1) k [] (by omega)
  simp only [List.foldl_nil] at h2
  simp only [h1.1, h1.2, ne_eq, not_false_eq_true, and_self, if_true, h2, h]

theorem ruleIndexByStyleLoop_append (style : Nat) (pre post : List CSSRule) (r : CSSStyleRule)
    (n : Nat) (hr : r.style.handle = style)
    (hfirst : ∀ r1 ∈ pre.filterMap asCSSStyleRule, r1.style.handle ≠ style) :
    InspectorStyleSheet.ruleIndexByStyleLoop style (pre ++ CSSRule.styleRule r :: post) n =
      n + (pre.filterMap asCSSStyleRule).length := by
  induction pre generalizing n with
  | nil => simp [InspectorStyleSheet.ruleIndexByStyleLoop, asCSSStyleRule, hr]
  | cons x pre ih =>
    cases x with
    | otherRule tag =>
      simp only [List.cons_append, InspectorStyleSheet.ruleIndexByStyleLoop, asCSSStyleRule]
      refine (ih n (by simpa [asCSSStyleRule] using hfirst)).trans ?_
      simp [asCSSStyleRule]
    | styleRule r1 =>
      have hne : r1.style.handle ≠ style := hfirst r1 (by simp [asCSSStyleRule])
      simp only [List.cons_append, InspectorStyleSheet.ruleIndexByStyleLoop, asCSSStyleRule, hne,
        if_false]
      refine (ih (n + 1) (fun r2 h2 => hfirst r2
        (by simp [asCSSStyleRule] at h2 ⊢; exact Or.inr h2))).trans ?_
      simp [asCSSStyleRule]
      omega

theorem ruleForIdLoop_append (pre post : List CSSRule) (r : CSSStyleRule) (i0 c : Nat) :
    InspectorStyleSheet.ruleForIdLoop (c + (pre.filterMap asCSSStyleRule).length)
        (pre ++ CSSRule.styleRule r :: post) i0 c = some (i0 + pre.length, r) := by
  induction pre generalizing i0 c with
  | nil => simp [InspectorStyleSheet.ruleForIdLoop, asCSSStyleRule]
  | cons x pre ih =>
    cases x with
    | otherRule tag =>
      simp only [List.cons_append, InspectorStyleSheet.ruleForIdLoop, asCSSStyleRule,
        List.filterMap_cons, List.length_cons]
      refine (ih (i0 + 1) c).trans ?_
      congr 2; omega
    | styleRule r1 =>
      simp only [List.cons_append, InspectorStyleSheet.ruleForIdLoop, asCSSStyleRule,
        List.filterMap_cons, List.length_cons]
      rw [if_neg (by omega)]
      have := ih (i0 + 1) (c + 1)
      rw [show c + 1 + (pre.filterMap asCSSStyleRule).length =
        c + ((pre.filterMap asCSSStyleRule).length + 1) by omega] at this
      refine this.trans ?_
      congr 2; omega

theorem ruleForIdLoop_none (k : Nat) (rules : List CSSRule) (i0 c : Nat)
    (h : c + (rules.filterMap asCSSStyleRule).length ≤ k) :
    InspectorStyleSheet.ruleForIdLoop k rules i0 c = none := by
  induction rules generalizing i0 c with
  | nil => rfl
  | cons x rules ih =>
    cases x with
    | otherRule tag =>
      simp only [InspectorStyleSheet.ruleForIdLoop, asCSSStyleRule]
      exact ih _ _ (by simpa [asCSSStyleRule] using h)
    | styleRule r1 =>
      simp only [List.filterMap_cons, asCSSStyleRule, List.length_cons] at h
      simp only [InspectorStyleSheet.ruleForIdLoop, asCSSStyleRule]
      rw [if_neg (by omega)]
      exact ih _ _ (by omega)

/-- C20: let `r` be a style rule of the live sheet whose style object is not the style of an
earlier rule, and let `n` be the number of style rules in front of it (an `unsigned`). Then
`ruleIndexByStyle(r.style)` is `n` and `ruleForId` with the ordinal `n` written in decimal
returns `r`; `ruleForId` returns no rule when the ordinal is not a decimal number or is at
least the number of style rules of the sheet. -/
theorem ordinal_round_trip (s : InspectorStyleSheet) (styleSheetId : Str) (pre post : List CSSRule)
    (r : CSSStyleRule) (hrules : s.m_pageStyleSheet.rules = pre ++ CSSRule.styleRule r :: post)
    (hfirst : ∀ r1 ∈ pre.filterMap asCSSStyleRule, r1.style.handle ≠ r.style.handle)
    (hsize : (pre.filterMap asCSSStyleRule).length ≤ UINT_MAX) :
    s.ruleIndexByStyle r.style.handle = (pre.filterMap asCSSStyleRule).length ∧
      s.ruleForId (InspectorCSSId.parts styleSheetId
        (number (pre.filterMap asCSSStyleRule).length)) = some (pre.length, r) ∧
      (∀ ordinal, toUInt ordinal = none →
        s.ruleForId (InspectorCSSId.parts styleSheetId ordinal) = none) ∧
      (∀ ordinal k, toUInt ordinal = some k →
        (s.m_pageStyleSheet.rules.filterMap asCSSStyleRule).length ≤ k →
        s.ruleForId (InspectorCSSId.parts styleSheetId ordinal) = none) := by
  refine ⟨?_, ?_, ?_, ?_⟩
  · unfold InspectorStyleSheet.ruleIndexByStyle
    rw [hrules, ruleIndexByStyleLoop_append _ _ _ _ _ rfl hfirst, Nat.zero_add]
  · unfold InspectorStyleSheet.ruleForId
    simp only [toUInt_number _ hsize, hrules]
    have := ruleForIdLoop_append pre post r 0 0
    rw [Nat.zero_add, Nat.zero_add] at this
    exact this
  · intro ordinal h
    simp only [InspectorStyleSheet.ruleForId, h]
  · intro ordinal k h hk
    simp only [InspectorStyleSheet.ruleForId, h]
    exact ruleForIdLoop_none _ _ _ _ (by omega)

/-- C20, witness: the rule `b` of the sheet with the rules `a` and `b` has the ordinal 1. -/
theorem ordinal_round_trip_witness :
    twoRuleSheet.ruleIndexByStyle 1 = 1 ∧
      twoRuleSheet.ruleForId (InspectorCSSId.parts "1".toList "1".toList) =
        some (1, { selectorText := "b".toList, style := { handle := 1, properties := [] } }) := by
  obtain ⟨h1, h2, _, _⟩ := ordinal_round_trip twoRuleSheet "1".toList
    [CSSRule.styleRule { selectorText := "a".toList, style := { handle := 0, properties := [] } }]
    [] { selectorText := "b".toList, style := { handle := 1, properties := [] } } rfl
    (by decide) (by decide)
  exact ⟨h1, h2⟩

/-! ## disabledIndexByOrdinal and its reference definition -/

theorem disabledIndexByOrdinalLoop_short (ord : Nat) (can : Bool)
    (l : List InspectorStyleProperty) (i0 d0 : Nat) (h : i0 + l.length ≤ ord) :
    InspectorStyle.disabledIndexByOrdinalLoop ord can l i0 d0 = UINT_MAX := by
  have := disabledIndexByOrdinalLoop_skip ord can l [] i0 d0 h
  rw [List.append_nil] at this
  rw [this]
  rfl

theorem disabledIndexByOrdinalLoop_exact (ord : Nat) (l : List InspectorStyleProperty)
    (i0 d0 : Nat) (h : ord < i0) :
    InspectorStyle.disabledIndexByOrdinalLoop ord false l i0 d0 = UINT_MAX := by
  induction l generalizing i0 d0 with
  | nil => rfl
  | cons p l ih =>
    have hne : ¬(i0 = ord ∨ (false = true ∧ i0 > ord)) := by
      rintro (h1 | ⟨h1, _⟩)
      · omega
      · exact Bool.false_ne_true h1
    cases hp : p.disabled with
    | true =>
      rw [InspectorStyle.disabledIndexByOrdinalLoop, if_pos hp, if_neg hne]
      exact ih _ _ (by omega)
    | false =>
      simp only [InspectorStyle.disabledIndexByOrdinalLoop, hp, Bool.false_eq_true, if_false]
      exact ih _ _ (by omega)

theorem filter_eq_nil_iff_any {l : List InspectorStyleProperty} :
    l.filter (fun q => q.disabled) = [] ↔ l.any (fun q => q.disabled) = false := by
  induction l with
  | nil => simp
  | cons p l ih =>
    cases hp : p.disabled <;> simp [List.filter_cons, hp, ih]

/-- C23: for every flat listing, ordinal and flag, `disabledIndexByOrdinal` returns what the
reference definition says: the number of disabled entries in front of `ord` when the entry at
`ord` is disabled, or when it is not disabled (or `ord` is past the end) while successors are
allowed and a disabled entry lies behind `ord`; `UINT_MAX` in every other case. -/
theorem disabledIndexByOrdinal_eq_reference (ord : Nat) (allowSuccessor : Bool)
    (listing : List InspectorStyleProperty) :
    InspectorStyle.disabledIndexByOrdinal ord allowSuccessor listing =
      disabledIndexReference ord allowSuccessor listing := by
  unfold disabledIndexReference
  cases hg : listing.get? ord with
  | none =>
    have hlen : listing.length ≤ ord := List.get?_eq_none.mp hg
    have hdrop : listing.drop (ord + 1) = [] := List.drop_of_length_le (by omega)
    simp only [hdrop, List.any_nil, Bool.and_false, Bool.false_eq_true, if_false]
    exact disabledIndexByOrdinalLoop_short ord allowSuccessor listing 0 0 (by omega)
  | some p =>
    cases hp : p.disabled with
    | true =>
      simp only [hp, if_true]
      exact disabledIndexByOrdinal_of_disabled allowSuccessor listing ord p hg hp
    | false =>
      simp only [hp, Bool.false_eq_true, if_false]
      cases allowSuccessor with
      | true =>
        rw [disabledIndexByOrdinal_of_enabled listing ord p hg hp]
        cases hany : (listing.drop (ord + 1)).any (fun q => q.disabled) with
        | true =>
          have : ¬((listing.drop (ord + 1)).filter (fun q => q.disabled) = []) := by
            rw [filter_eq_nil_iff_any, hany]
            exact Bool.noConfusion
          simp [this]
        | false =>
          have : (listing.drop (ord + 1)).filter (fun q => q.disabled) = [] :=
            filter_eq_nil_iff_any.mpr hany
          simp [this]
      | false =>
        simp only [Bool.false_and, Bool.false_eq_true, if_false]
        obtain ⟨hsplit, hlen⟩ := get?_split listing ord p hg
        unfold InspectorStyle.disabledIndexByOrdinal
        conv_lhs => rw [hsplit]
        rw [disabledIndexByOrdinalLoop_skip _ _ _ _ _ _ (by omega)]
        simp only [InspectorStyle.disabledIndexByOrdinalLoop, hp, Bool.false_eq_true, if_false]
        exact disabledIndexByOrdinalLoop_exact _ _ _ _ (by omega)


/-! ## setStyleText on a style without source data -/

/-- C27: when the parsed data of the sheet is ready and there is no source data for `style`,
because `style` is not the style of a style rule of the live sheet or because the stored
source data has no entry for its ordinal, `setStyleText` does not return false: it
dereferences the null `sourceData` in `styleSheetTextWithChangedStyle`. -/
theorem setStyleText_faults_without_source_data (env : Env) (s : InspectorStyleSheet)
    (style : Nat) (text : Str) (hr : (s.ensureParsedDataReady env).1 = true)
    (hsd : (s.ensureParsedDataReady env).2.ruleSourceDataFor style = none) :
    s.setStyleText env style text = none := by
  simp only [InspectorStyleSheet.setStyleText, InspectorStyleSheet.styleSheetTextWithChangedStyle,
    hr, ensureParsedDataReady_idem env s hr, hsd, Bool.not_true, Bool.false_eq_true, if_false]

/-- C27, witness: in `a { color: red; margin: 0; }` the style with identity 7 belongs to no
rule of the live sheet; the parsed data is ready, there is no source data for that style, and
`setStyleText` faults. It faults as well for the style of the rule `a` of a live sheet whose
stored text is empty, where the ordinal 0 of the style has no entry in the source data. -/
theorem setStyleText_faults_without_source_data_witness :
    (colorMarginSheet.ensureParsedDataReady exampleEnv).1 = true ∧
      colorMarginSheet.ruleIndexByStyle 7 = UINT_MAX ∧
      (colorMarginSheet.ensureParsedDataReady exampleEnv).2.ruleSourceDataFor 7 = none ∧
      colorMarginSheet.setStyleText exampleEnv 7 "color: red;".toList = none ∧
      emptyTextSheet.ruleIndexByStyle 0 = 0 ∧
      emptyTextSheet.setStyleText exampleEnv 0 "color: red;".toList = none :=
  ⟨by decide, by decide, by decide,
    setStyleText_faults_without_source_data exampleEnv colorMarginSheet 7 "color: red;".toList
      (by decide) (by decide),
    by decide,
    setStyleText_faults_without_source_data exampleEnv emptyTextSheet 0 "color: red;".toList
      (by decide) (by decide)⟩

/-! ## InspectorStyleSheetForInlineStyle::ensureParsedDataReady -/

/-- C28: for an inline style sheet that has no rule source data yet and whose element is
not a styled element, the first `ensureParsedDataReady` returns false and leaves the element
as it is, but it has stored the fresh rule source data object; the second call therefore
returns true, and the rule source data it reports has no style source data, hence no body
range. -/
theorem inline_ensureParsedDataReady_changes_its_result
    (parseDeclaration : Str → CSSStyleSourceData) (s : InspectorStyleSheetForInlineStyle)
    (hnone : s.m_ruleSourceData = none) (hel : s.m_element.isStyledElement = false) :
    (s.ensureParsedDataReady parseDeclaration).1 = false ∧
      (s.ensureParsedDataReady parseDeclaration).2.m_element = s.m_element ∧
      ((s.ensureParsedDataReady parseDeclaration).2.ensureParsedDataReady parseDeclaration).1
        = true ∧
      ((s.ensureParsedDataReady parseDeclaration).2.ensureParsedDataReady
        parseDeclaration).2.m_ruleSourceData = some { styleSourceData := none } := by
  simp [InspectorStyleSheetForInlineStyle.ensureParsedDataReady,
    InspectorStyleSheetForInlineStyle.getStyleAttributeRanges, hnone, hel]

/-- C28, witness: the inline style sheet of an element that is not a styled element. -/
theorem inline_ensureParsedDataReady_changes_its_result_witness :
    unstyledElementSheet.m_ruleSourceData = none ∧
      unstyledElementSheet.m_element.isStyledElement = false ∧
      (unstyledElementSheet.ensureParsedDataReady exampleParseDeclaration).1 = false ∧
      ((unstyledElementSheet.ensureParsedDataReady exampleParseDeclaration).2.ensureParsedDataReady
        exampleParseDeclaration).1 = true :=
  ⟨rfl, rfl,
    (inline_ensureParsedDataReady_changes_its_result exampleParseDeclaration unstyledElementSheet
      rfl rfl).1,
    (inline_ensureParsedDataReady_changes_its_result exampleParseDeclaration unstyledElementSheet
      rfl rfl).2.2.1⟩

/-! ## From the flat index to the index of the disabled property -/

theorem filter_split_at {l : List InspectorStyleProperty} {i : Nat} {q : InspectorStyleProperty}
    (hentry : l.get? i = some q) (hq : q.disabled = true) :
    l.filter (fun x => x.disabled) =
      (l.take i).filter (fun x => x.disabled) ++ q :: (l.drop (i + 1)).filter (fun x => x.disabled) := by
  obtain ⟨hsplit, _⟩ := get?_split l i q hentry
  conv_lhs => rw [hsplit]
  simp [List.filter_append, List.filter_cons, hq]

/-- C26: when every disabled property of the style is marked disabled and flat index `i` of
the listing built by `populateAllProperties` holds a disabled entry `q`, then
`disabledIndexByOrdinal(i, false)` over that listing is a position `k` of the list of disabled
properties and the property at `k` is `q`. With parsed data ready and a list that fits an
`unsigned` size, `enableProperty` therefore returns without indexing the list out of bounds,
and the list it leaves is the old one without the property at `k`: the properties in front
of it unchanged, the ones behind it unchanged when the call returns false and shifted by the
length of the restored text when it returns true. -/
theorem disabledIndexByOrdinal_valid (env : Env) (s : InspectorStyleSheet)
    (style : InspectorStyle) (i : Nat) (q : InspectorStyleProperty)
    (hinv : ∀ x ∈ style.m_disabledProperties, x.disabled = true)
    (hentry : (InspectorStyle.populateAllProperties env s style).1.get? i = some q)
    (hq : q.disabled = true) :
    InspectorStyle.disabledIndexByOrdinal i false (InspectorStyle.populateAllProperties env s style).1
        < style.m_disabledProperties.length ∧
      style.m_disabledProperties.get? (InspectorStyle.disabledIndexByOrdinal i false
        (InspectorStyle.populateAllProperties env s style).1) = some q ∧
      ∀ rd, Ready s style.m_style rd → style.m_disabledProperties.length < 4294967296 →
        ∃ success s1 style1,
          InspectorStyle.enableProperty env s style i
            (InspectorStyle.populateAllProperties env s style).1 = some (success, s1, style1) ∧
          style.m_disabledProperties =
            ((InspectorStyle.populateAllProperties env s style).1.take i).filter
                (fun x => x.disabled) ++
              q :: ((InspectorStyle.populateAllProperties env s style).1.drop (i + 1)).filter
                (fun x => x.disabled) ∧
          style1.m_disabledProperties =
            ((InspectorStyle.populateAllProperties env s style).1.take i).filter
                (fun x => x.disabled) ++
              if success then
                (((InspectorStyle.populateAllProperties env s style).1.drop (i + 1)).filter
                  (fun x => x.disabled)).map (InspectorStyle.shiftRange q.rawText.length)
              else ((InspectorStyle.populateAllProperties env s style).1.drop (i + 1)).filter
                (fun x => x.disabled) := by
  have hidx := disabledIndexByOrdinal_of_disabled false _ i q hentry hq
  have hparts : style.m_disabledProperties = _ :=
    (populateAllProperties_filter env s style hinv).symm.trans (filter_split_at hentry hq)
  have hget : style.m_disabledProperties.get?
      (((InspectorStyle.populateAllProperties env s style).1.take i).filter
        (fun x => x.disabled)).length = some q := by
    conv_lhs => rw [hparts]
    exact get?_middle _ _ _
  have hlt : (((InspectorStyle.populateAllProperties env s style).1.take i).filter
      (fun x => x.disabled)).length < style.m_disabledProperties.length := by
    conv_rhs => rw [hparts]
    rw [List.length_append, List.length_cons]
    omega
  rw [hidx]
  refine ⟨hlt, hget, ?_⟩
  intro rd hready hsize
  have hkmax : (((InspectorStyle.populateAllProperties env s style).1.take i).filter
      (fun x => x.disabled)).length ≠ UINT_MAX := by
    unfold UINT_MAX
    omega
  have herase : style.m_disabledProperties.eraseIdx
      (((InspectorStyle.populateAllProperties env s style).1.take i).filter
        (fun x => x.disabled)).length =
      ((InspectorStyle.populateAllProperties env s style).1.take i).filter (fun x => x.disabled) ++
        ((InspectorStyle.populateAllProperties env s style).1.drop (i + 1)).filter
          (fun x => x.disabled) := by
    conv_lhs => rw [hparts]
    exact eraseIdx_middle _ _ _
  have hready2 : Ready s
      ({ style with
        m_disabledProperties := style.m_disabledProperties.eraseIdx
          (((InspectorStyle.populateAllProperties env s style).1.take i).filter
            (fun x => x.disabled)).length } : InspectorStyle).m_style rd := hready
  cases hacc : env.setCssText style.m_style
      (replace (bodyText s rd) q.sourceData.range.start
        (usub q.sourceData.range.end_ q.sourceData.range.start) q.rawText) with
  | none =>
    have hcall : InspectorStyle.enableProperty env s style i
        (InspectorStyle.populateAllProperties env s style).1 =
        some (false, s, { style with
          m_disabledProperties := style.m_disabledProperties.eraseIdx
            (((InspectorStyle.populateAllProperties env s style).1.take i).filter
              (fun x => x.disabled)).length }) := by
      simp only [InspectorStyle.enableProperty, hidx, hkmax, if_false, hget,
        replacePropertyInStyleText_of_ready env hready2, setStyleText_of_ready env hready2, hacc]
    refine ⟨false, s, _, hcall, hparts, ?_⟩
    simp only [herase, Bool.false_eq_true, if_false]
  | some properties =>
    have hcall : InspectorStyle.enableProperty env s style i
        (InspectorStyle.populateAllProperties env s style).1 =
        some (true, committed s style.m_style properties (patchedText s rd
            (replace (bodyText s rd) q.sourceData.range.start
              (usub q.sourceData.range.end_ q.sourceData.range.start) q.rawText)),
          InspectorStyle.shiftDisabledProperties { style with
            m_disabledProperties := style.m_disabledProperties.eraseIdx
              (((InspectorStyle.populateAllProperties env s style).1.take i).filter
                (fun x => x.disabled)).length }
            (((InspectorStyle.populateAllProperties env s style).1.take i).filter
              (fun x => x.disabled)).length q.rawText.length) := by
      simp only [InspectorStyle.enableProperty, hidx, hkmax, if_false, hget,
        replacePropertyInStyleText_of_ready env hready2, setStyleText_of_ready env hready2, hacc]
    refine ⟨true, _, _, hcall, hparts, ?_⟩
    simp only [InspectorStyle.shiftDisabledProperties, herase, if_true, List.take_left,
      List.drop_left]

/-- C26, witness: in `a {  margin: 0; }` with the shadow of `color`, flat index 0 is the
shadow, and the disabled index of flat index 0 is 0. -/
theorem disabledIndexByOrdinal_valid_witness :
    (InspectorStyle.populateAllProperties exampleEnv reparsedColorSheet
        (exampleStyle [colorShadow])).1.get? 0 = some colorShadow ∧
      InspectorStyle.disabledIndexByOrdinal 0 false (InspectorStyle.populateAllProperties exampleEnv
        reparsedColorSheet (exampleStyle [colorShadow])).1 < 1 ∧
      (exampleStyle [colorShadow]).m_disabledProperties.get? (InspectorStyle.disabledIndexByOrdinal
        0 false (InspectorStyle.populateAllProperties exampleEnv reparsedColorSheet
          (exampleStyle [colorShadow])).1) = some colorShadow :=
  ⟨by decide,
    (disabledIndexByOrdinal_valid exampleEnv reparsedColorSheet (exampleStyle [colorShadow]) 0
      colorShadow (by decide) (by decide) rfl).1,
    (disabledIndexByOrdinal_valid exampleEnv reparsedColorSheet (exampleStyle [colorShadow]) 0
      colorShadow (by decide) (by decide) rfl).2.1⟩

/-! ## The shift after an insertion -/

theorem flushDisabled_mem (start : Nat) (ds : List InspectorStyleProperty) :
    (∀ q ∈ (InspectorStyle.flushDisabled start ds).1, q ∈ ds) ∧
      (∀ q ∈ (InspectorStyle.flushDisabled start ds).2, q ∈ ds) := by
  have hf := flushDisabled_append start ds
  constructor
  · intro q hq
    rw [← hf]
    exact List.mem_append_left _ hq
  · intro q hq
    rw [← hf]
    exact List.mem_append_right _ hq

theorem walkSource_cons (it : CSSPropertySourceData) (rest : List CSSPropertySourceData)
    (ds : List InspectorStyleProperty) :
    (InspectorStyle.walkSource (it :: rest) ds).1 ++ (InspectorStyle.walkSource (it :: rest) ds).2 =
      (InspectorStyle.flushDisabled it.range.start ds).1 ++ sourceEntry it ::
        ((InspectorStyle.walkSource rest (InspectorStyle.flushDisabled it.range.start ds).2).1 ++
          (InspectorStyle.walkSource rest (InspectorStyle.flushDisabled it.range.start ds).2).2) := by
  simp only [InspectorStyle.walkSource, List.append_assoc, List.cons_append]
  rfl

/-- The listing of a style in a sheet with parsed data ready: the merge of the source
properties and the disabled properties, followed by the live-only entries. -/
theorem populateAllProperties_of_ready (env : Env) {s : InspectorStyleSheet}
    {style : InspectorStyle} {rd : CSSRuleSourceData} (h : Ready s style.m_style rd) :
    (InspectorStyle.populateAllProperties env s style).1 =
      (InspectorStyle.walkSource rd.styleSourceData.propertyData style.m_disabledProperties).1 ++
        (InspectorStyle.walkSource rd.styleSourceData.propertyData style.m_disabledProperties).2 ++
        match s.m_pageStyleSheet.styleObject style.m_style with
        | some m_style =>
            InspectorStyle.appendStyleProperties m_style (m_style.properties.map fun p => p.name)
              (rd.styleSourceData.propertyData.map fun p => p.name)
        | none => [] := by
  simp only [InspectorStyle.populateAllProperties, ensureParsedDataReady_of_ready env h, h.2.1,
    if_true, Option.map_some']

/-! ## populateAllProperties: the entries that exist only on the live style -/

theorem walkSource_mem (ps : List CSSPropertySourceData) (ds : List InspectorStyleProperty) :
    ∀ x ∈ (InspectorStyle.walkSource ps ds).1 ++ (InspectorStyle.walkSource ps ds).2,
      x ∈ ds ∨ ∃ p ∈ ps, x = sourceEntry p := by
  induction ps generalizing ds with
  | nil => intro x hx; exact Or.inl hx
  | cons it rest ih =>
    intro x hx
    have hm := flushDisabled_mem it.range.start ds
    rw [walkSource_cons, List.mem_append, List.mem_cons] at hx
    rcases hx with hx | rfl | hx
    · exact Or.inl (hm.1 x hx)
    · exact Or.inr ⟨it, List.mem_cons_self _ _, rfl⟩
    · rcases ih _ x hx with h1 | ⟨p, hp, rfl⟩
      · exact Or.inl (hm.2 x h1)
      · exact Or.inr ⟨p, List.mem_cons_of_mem _ hp, rfl⟩

theorem walkSource_source_mem (ps : List CSSPropertySourceData)
    (ds : List InspectorStyleProperty) :
    ∀ p ∈ ps, sourceEntry p ∈
      (InspectorStyle.walkSource ps ds).1 ++ (InspectorStyle.walkSource ps ds).2 := by
  induction ps generalizing ds with
  | nil => intro p hp; simp at hp
  | cons it rest ih =>
    intro p hp
    rw [walkSource_cons, List.mem_append, List.mem_cons]
    rcases List.mem_cons.mp hp with rfl | hp
    · exact Or.inr (Or.inl rfl)
    · exact Or.inr (Or.inr (ih _ p hp))

theorem appendStyleProperties_names (m_style : CSSStyleDeclaration) (names seen : List Str) :
    (∀ e ∈ InspectorStyle.appendStyleProperties m_style names seen,
        e.sourceData.name ∉ seen ∧ e.sourceData.name ∈ names ∧ e.hasSource = false ∧
          e.disabled = false) ∧
      (InspectorStyle.appendStyleProperties m_style names seen).Pairwise
        (fun x e => x.sourceData.name ≠ e.sourceData.name) := by
  induction names generalizing seen with
  | nil => exact ⟨fun e he => by simp [InspectorStyle.appendStyleProperties] at he, List.Pairwise.nil⟩
  | cons name rest ih =>
    unfold InspectorStyle.appendStyleProperties
    split
    · refine ⟨fun e he => ?_, (ih seen).2⟩
      obtain ⟨h1, h2, h3⟩ := (ih seen).1 e he
      exact ⟨h1, List.mem_cons_of_mem _ h2, h3⟩
    · rename_i hnot
      obtain ⟨ih1, ih2⟩ := ih (name :: seen)
      refine ⟨fun e he => ?_, ?_⟩
      · rcases List.mem_cons.mp he with rfl | he
        · exact ⟨hnot, List.mem_cons_self _ _, rfl, rfl⟩
        · obtain ⟨h1, h2, h3⟩ := ih1 e he
          exact ⟨fun hmem => h1 (List.mem_cons_of_mem _ hmem), List.mem_cons_of_mem _ h2, h3⟩
      · rw [List.pairwise_cons]
        refine ⟨fun e he => ?_, ih2⟩
        intro heq
        exact (ih1 e he).1 (by rw [← heq]; exact List.mem_cons_self _ _)

theorem appendStyleProperties_covers (m_style : CSSStyleDeclaration) (names seen : List Str) :
    ∀ n ∈ names, n ∈ seen ∨ ∃ e ∈ InspectorStyle.appendStyleProperties m_style names seen,
      e.disabled = false ∧ e.sourceData.name = n := by
  induction names generalizing seen with
  | nil => intro n hn; simp at hn
  | cons name rest ih =>
    intro n hn
    unfold InspectorStyle.appendStyleProperties
    split
    · rename_i hin
      rcases List.mem_cons.mp hn with rfl | hn
      · exact Or.inl hin
      · exact ih seen n hn
    · rcases List.mem_cons.mp hn with rfl | hn
      · exact Or.inr ⟨_, List.mem_cons_self _ _, rfl, rfl⟩
      · rcases ih (n := n) (name :: seen) hn with h1 | ⟨e, he, h2⟩
        · rcases List.mem_cons.mp h1 with rfl | h1
          · exact Or.inr ⟨_, List.mem_cons_self _ _, rfl, rfl⟩
          · exact Or.inl h1
        · exact Or.inr ⟨e, List.mem_cons_of_mem _ he, h2⟩

/-- The shape of every listing: the merge of some list of source properties with the disabled
properties, followed by the entries for the names of the live style that are not names of
those source properties. -/
theorem populateAllProperties_shape (env : Env) (s : InspectorStyleSheet) (style : InspectorStyle) :
    ∃ ps : List CSSPropertySourceData,
      (InspectorStyle.populateAllProperties env s style).1 =
        (InspectorStyle.walkSource ps style.m_disabledProperties).1 ++
          (InspectorStyle.walkSource ps style.m_disabledProperties).2 ++
          InspectorStyle.appendStyleProperties
            (InspectorStyle.liveStyle (s.ensureParsedDataReady env).2 style)
            ((InspectorStyle.liveStyle (s.ensureParsedDataReady env).2 style).properties.map
              fun p => p.name)
            (ps.map fun p => p.name) := by
  have hlive : ∀ seen : List Str,
      (match (s.ensureParsedDataReady env).2.m_pageStyleSheet.styleObject style.m_style with
        | some m_style =>
            InspectorStyle.appendStyleProperties m_style (m_style.properties.map fun p => p.name) seen
        | none => []) =
      InspectorStyle.appendStyleProperties
        (InspectorStyle.liveStyle (s.ensureParsedDataReady env).2 style)
        ((InspectorStyle.liveStyle (s.ensureParsedDataReady env).2 style).properties.map
          fun p => p.name) seen := by
    intro seen
    unfold InspectorStyle.liveStyle
    cases (s.ensureParsedDataReady env).2.m_pageStyleSheet.styleObject style.m_style <;> rfl
  unfold InspectorStyle.populateAllProperties
  simp only
  cases Option.map (fun d : CSSRuleSourceData => d.styleSourceData.propertyData)
      (if (s.ensureParsedDataReady env).1 = true then
        (s.ensureParsedDataReady env).2.ruleSourceDataFor style.m_style else none) with
  | none => exact ⟨[], by simp only [hlive]; rfl⟩
  | some ps => exact ⟨ps, by simp only [hlive]⟩

/-- C22, counterexample: in `a {  margin: 0; }` with the shadow of a disabled
`margin-top: 1px;`, the live style enumerates the longhand `margin-top` of `margin`. The
listing holds the shadow, the source property `margin` and then the live-only entries; the
first of them is named `margin-top`, the name of the shadow two entries in front of it. -/
theorem populateAllProperties_repeats_shadow_name :
    entryKinds (InspectorStyle.populateAllProperties exampleEnv reparsedColorSheet
        (exampleStyle [marginTopShadow])).1 =
      [("margin-top".toList, true, true), ("margin".toList, true, false),
        ("margin-top".toList, false, false), ("margin-right".toList, false, false),
        ("margin-bottom".toList, false, false), ("margin-left".toList, false, false)] := by
  decide

/-- C22, amended: in every listing of a style whose disabled properties are marked disabled,
the name of an entry that exists only on the live style (`hasSource = false`, not disabled)
is the name of no entry in front of it that is not disabled, be it a source property or
another live-only entry; a disabled property in front of it may have the same name. Every
name that the live style enumerates is the name of an entry of the listing that is not
disabled. -/
theorem populateAllProperties_live_only_names (env : Env) (s : InspectorStyleSheet)
    (style : InspectorStyle) (hinv : ∀ q ∈ style.m_disabledProperties, q.disabled = true) :
    (InspectorStyle.populateAllProperties env s style).1.Pairwise
        (fun x e => e.hasSource = false → e.disabled = false → x.disabled = false →
          x.sourceData.name ≠ e.sourceData.name) ∧
      ∀ p ∈ (InspectorStyle.liveStyle (s.ensureParsedDataReady env).2 style).properties,
        ∃ e ∈ (InspectorStyle.populateAllProperties env s style).1,
          e.disabled = false ∧ e.sourceData.name = p.name := by
  obtain ⟨ps, hshape⟩ := populateAllProperties_shape env s style
  rw [hshape]
  have hwalk := walkSource_mem ps style.m_disabledProperties
  have hnames := appendStyleProperties_names
    (InspectorStyle.liveStyle (s.ensureParsedDataReady env).2 style)
    ((InspectorStyle.liveStyle (s.ensureParsedDataReady env).2 style).properties.map
      fun p => p.name) (ps.map fun p => p.name)
  constructor
  · rw [List.pairwise_append]
    refine ⟨?_, ?_, ?_⟩
    · rw [List.Pairwise.imp_mem]
      refine List.pairwise_of_forall ?_
      intro x e _ he h1 h2 _
      rcases hwalk e he with hd | ⟨p, _, rfl⟩
      · rw [hinv e hd] at h2
        exact absurd h2 (by decide)
      · exact absurd (show true = false from h1) (by decide)
    · exact hnames.2.imp (fun hne _ _ _ => hne)
    · intro x hx e he _ _ hxd
      rcases hwalk x hx with hd | ⟨p, hp, rfl⟩
      · rw [hinv x hd] at hxd
        exact absurd hxd (by decide)
      · intro heq
        refine (hnames.1 e he).1 ?_
        rw [← heq]
        exact List.mem_map.mpr ⟨p, hp, rfl⟩
  · intro p hp
    rcases appendStyleProperties_covers
      (InspectorStyle.liveStyle (s.ensureParsedDataReady env).2 style)
      ((InspectorStyle.liveStyle (s.ensureParsedDataReady env).2 style).properties.map
        fun p => p.name) (ps.map fun p => p.name) p.name (List.mem_map.mpr ⟨p, hp, rfl⟩) with
      hseen | ⟨e, he, h1, h2⟩
    · obtain ⟨p2, hp2, hname⟩ := List.mem_map.mp hseen
      exact ⟨sourceEntry p2, List.mem_append_left _ (walkSource_source_mem ps _ p2 hp2), rfl,
        hname⟩
    · exact ⟨e, List.mem_append_right _ he, h1, h2⟩

/-- C22, witness: in `a {  margin: 0; }` with the shadow of a disabled `margin-top: 1px;`,
the name `margin-top` of the live style is the name of an entry that is not disabled. -/
theorem populateAllProperties_live_only_names_witness :
    (∀ q ∈ (exampleStyle [marginTopShadow]).m_disabledProperties, q.disabled = true) ∧
      ∃ e ∈ (InspectorStyle.populateAllProperties exampleEnv reparsedColorSheet
          (exampleStyle [marginTopShadow])).1,
        e.disabled = false ∧ e.sourceData.name = "margin-top".toList :=
  ⟨by decide,
    (populateAllProperties_live_only_names exampleEnv reparsedColorSheet
      (exampleStyle [marginTopShadow]) (by decide)).2
      (implicitLonghand "margin-top" "0px" "margin") (by decide)⟩

/-! ## populateObjectWithStyleProperties: active and inactive properties -/

theorem get?_some_lt {α : Type} {l : List α} {j : Nat} {e : α} (h : l.get? j = some e) :
    j < l.length := by
  rcases Nat.lt_or_ge j l.length with h1 | h1
  · exact h1
  · rw [List.get?_eq_none.mpr h1] at h
    exact absurd h (by simp)

theorem get?_snoc_lt {α : Type} (l : List α) (x : α) {i : Nat} (h : i < l.length) :
    (l ++ [x]).get? i = l.get? i := by
  simp only [List.get?_eq_getElem?]
  exact List.getElem?_append_left h

theorem get?_snoc_some {α : Type} {l : List α} {x e : α} {j : Nat}
    (h : (l ++ [x]).get? j = some e) :
    (j < l.length ∧ l.get? j = some e) ∨ (j = l.length ∧ e = x) := by
  rcases Nat.lt_or_ge j l.length with h1 | h1
  · rw [get?_snoc_lt l x h1] at h
    exact Or.inl ⟨h1, h⟩
  · have h2 := get?_some_lt h
    rw [List.length_append, List.length_singleton] at h2
    have h3 : j = l.length := by omega
    subst h3
    rw [get?_middle] at h
    exact Or.inr ⟨rfl, (Option.some.inj h).symm⟩

theorem shadowedLater_snoc (l : List InspectorStyleProperty) (x : InspectorStyleProperty)
    (i : Nat) (name : Str) (hi : i < l.length) :
    shadowedLater (l ++ [x]) i name ↔ shadowedLater l i name ∨ isActive x name := by
  constructor
  · rintro ⟨j, e, hij, hj, he⟩
    rcases get?_snoc_some hj with ⟨_, h2⟩ | ⟨_, rfl⟩
    · exact Or.inl ⟨j, e, hij, h2, he⟩
    · exact Or.inr he
  · rintro (⟨j, e, hij, hj, he⟩ | hx)
    · exact ⟨j, e, hij, by rw [get?_snoc_lt l x (get?_some_lt hj)]; exact hj, he⟩
    · exact ⟨l.length, x, hi, get?_middle l [] x, hx⟩

theorem not_shadowedLater_last (l : List InspectorStyleProperty) (x : InspectorStyleProperty)
    (name : Str) : ¬shadowedLater (l ++ [x]) l.length name := by
  rintro ⟨j, e, hij, hj, _⟩
  have := get?_some_lt hj
  rw [List.length_append, List.length_singleton] at this
  omega

theorem setInactive_length (objs : List PropertyObject) (a : Nat) :
    (InspectorStyle.setInactive objs a).length = objs.length := by
  unfold InspectorStyle.setInactive
  split
  · exact List.length_set _ _ _
  · rfl

theorem setInactive_get?_ne (objs : List PropertyObject) (a j : Nat) (h : j ≠ a) :
    (InspectorStyle.setInactive objs a).get? j = objs.get? j := by
  unfold InspectorStyle.setInactive
  split
  · simp only [List.get?_eq_getElem?]
    exact List.getElem?_set_ne (Ne.symm h)
  · rfl

theorem setInactive_get?_eq (objs : List PropertyObject) (a : Nat) (o : PropertyObject)
    (h : objs.get? a = some o) :
    (InspectorStyle.setInactive objs a).get? a =
      some { o with status := "inactive".toList, shorthandName := some [] } := by
  unfold InspectorStyle.setInactive
  rw [h]
  simp only [List.get?_eq_getElem?]
  rw [List.getElem?_set_self (get?_some_lt h)]

theorem propertyObject_status (m_style : CSSStyleDeclaration) (x : InspectorStyleProperty) :
    (InspectorStyle.propertyObject m_style x).status =
      if x.disabled then "disabled".toList
      else if x.hasSource then "active".toList else "style".toList := by
  unfold InspectorStyle.propertyObject
  cases hd : x.disabled <;> cases hs : x.hasSource <;> cases hp : x.sourceData.parsedOk <;>
    simp only [hp, Bool.not_false, Bool.not_true, Bool.false_eq_true, if_false, if_true]

/-- One iteration for an entry that is disabled or has no source: a record is added, the
records and the map are left as they are. -/
theorem populateObjectStep_other (m_style : CSSStyleDeclaration) (st : StylePropertiesState)
    (x : InspectorStyleProperty) (h : ¬(x.disabled = false ∧ x.hasSource = true)) :
    (InspectorStyle.populateObjectStep m_style st x).propertiesObject =
        st.propertiesObject ++ [InspectorStyle.propertyObject m_style x] ∧
      (InspectorStyle.populateObjectStep m_style st x).propertyNameToPreviousActiveProperty =
        st.propertyNameToPreviousActiveProperty := by
  have hc : (!x.disabled && x.hasSource) = false := by
    cases hd : x.disabled <;> cases hs : x.hasSource <;> simp_all
  simp only [InspectorStyle.populateObjectStep, hc, Bool.false_eq_true, if_false, and_self]

/-- One iteration for a source property that is not disabled: the record that the map holds
for its name is set to `inactive`, a record is added, and the map points to it. -/
theorem populateObjectStep_active (m_style : CSSStyleDeclaration) (st : StylePropertiesState)
    (x : InspectorStyleProperty) (hd : x.disabled = false) (hs : x.hasSource = true) :
    (InspectorStyle.populateObjectStep m_style st x).propertiesObject =
        (match st.propertyNameToPreviousActiveProperty x.sourceData.name with
          | some activeIt => InspectorStyle.setInactive st.propertiesObject activeIt
          | none => st.propertiesObject) ++ [InspectorStyle.propertyObject m_style x] ∧
      (InspectorStyle.populateObjectStep m_style st x).propertyNameToPreviousActiveProperty =
        (fun key => if key = x.sourceData.name then some st.propertiesObject.length
          else st.propertyNameToPreviousActiveProperty key) := by
  simp only [InspectorStyle.populateObjectStep, hd, hs, Bool.not_false, Bool.and_true,
    if_true, and_self]

theorem statusAsSpecified_snoc (l : List InspectorStyleProperty) (x e : InspectorStyleProperty)
    (i : Nat) (o : PropertyObject) (hi : i < l.length)
    (hx : ¬isActive x e.sourceData.name) (h : StatusAsSpecified l i e o) :
    StatusAsSpecified (l ++ [x]) i e o := by
  obtain ⟨h1, h2, h3, h4⟩ := h
  have hiff := shadowedLater_snoc l x i e.sourceData.name hi
  refine ⟨h1, h2, fun hd hs hl => h3 hd hs ?_, fun hd hs hl => h4 hd hs ?_⟩
  · rcases hiff.mp hl with hl | hl
    · exact hl
    · exact absurd hl hx
  · exact fun hl2 => hl (hiff.mpr (Or.inl hl2))

theorem statusAsSpecified_last (m_style : CSSStyleDeclaration) (l : List InspectorStyleProperty)
    (x : InspectorStyleProperty) :
    StatusAsSpecified (l ++ [x]) l.length x (InspectorStyle.propertyObject m_style x) := by
  have hst := propertyObject_status m_style x
  refine ⟨fun hd => ?_, fun hd hs => ?_, fun _ _ hl => ?_, fun hd hs _ => ?_⟩
  · rw [hst, hd]; rfl
  · rw [hst, hd, hs]; rfl
  · exact absurd hl (not_shadowedLater_last l x _)
  · rw [hst, hd, hs]; rfl

/-- One iteration keeps what the loop has established. -/
theorem loopInvariant_step (m_style : CSSStyleDeclaration) (l : List InspectorStyleProperty)
    (x : InspectorStyleProperty) (st : StylePropertiesState) (hinv : LoopInvariant l st) :
    LoopInvariant (l ++ [x]) (InspectorStyle.populateObjectStep m_style st x) := by
  obtain ⟨hlen, hsome, hnone, hobj⟩ := hinv
  by_cases hact : x.disabled = false ∧ x.hasSource = true
  · obtain ⟨hobjs, hmap⟩ := populateObjectStep_active m_style st x hact.1 hact.2
    have hxact : isActive x x.sourceData.name := ⟨hact.1, hact.2, rfl⟩
    have hbase : (match st.propertyNameToPreviousActiveProperty x.sourceData.name with
        | some activeIt => InspectorStyle.setInactive st.propertiesObject activeIt
        | none => st.propertiesObject).length = l.length := by
      split
      · rw [setInactive_length, hlen]
      · exact hlen
    refine ⟨?_, ?_, ?_, ?_⟩
    · rw [hobjs, List.length_append, List.length_append, hbase]
      rfl
    · intro name a ha
      rw [hmap] at ha
      by_cases hname : name = x.sourceData.name
      · simp only [hname, if_true, Option.some.injEq] at ha
        subst hname
        rw [← ha, hlen]
        refine ⟨x, get?_middle l [] x, hxact, ?_⟩
        intro j e2 hj hje
        have := get?_some_lt hje
        rw [List.length_append, List.length_singleton] at this
        omega
      · simp only [hname, if_false] at ha
        obtain ⟨e, he, hea, hlater⟩ := hsome name a ha
        refine ⟨e, by rw [get?_snoc_lt l x (get?_some_lt he)]; exact he, hea, ?_⟩
        intro j e2 hj hje
        rcases get?_snoc_some hje with ⟨_, h2⟩ | ⟨_, rfl⟩
        · exact hlater j e2 hj h2
        · exact fun hc => hname hc.2.2.symm
    · intro name hn j e2 hje
      rw [hmap] at hn
      by_cases hname : name = x.sourceData.name
      · simp only [hname, if_true] at hn
        exact absurd hn (by simp)
      · simp only [hname, if_false] at hn
        rcases get?_snoc_some hje with ⟨_, h2⟩ | ⟨_, rfl⟩
        · exact hnone name hn j e2 h2
        · exact fun hc => hname hc.2.2.symm
    · intro i e hie
      rcases get?_snoc_some hie with ⟨hil, h2⟩ | ⟨rfl, rfl⟩
      · obtain ⟨o, ho, hspec⟩ := hobj i e h2
        rw [hobjs]
        cases hprev : st.propertyNameToPreviousActiveProperty x.sourceData.name with
        | none =>
          refine ⟨o, ?_, ?_⟩
          · simp only
            rw [get?_snoc_lt _ _ (by rw [hlen]; exact hil)]
            exact ho
          · by_cases hx : isActive x e.sourceData.name
            · have hea : e.sourceData.name = x.sourceData.name := hx.2.2.symm
              obtain ⟨h1, h2', h3, h4⟩ := hspec
              refine ⟨h1, h2', fun hd hs _ => ?_, fun hd hs hl => ?_⟩
              · exact absurd ⟨hd, hs, hea⟩ (hnone _ hprev i e h2)
              · exact absurd ⟨hd, hs, hea⟩ (hnone _ hprev i e h2)
            · exact statusAsSpecified_snoc l x e i o hil hx hspec
        | some a =>
          simp only
          obtain ⟨ea, hea, heact, hlater⟩ := hsome _ a hprev
          by_cases hia : i = a
          · subst hia
            have hee : ea = e := Option.some.inj (hea.symm.trans h2)
            subst hee
            refine ⟨{ o with status := "inactive".toList, shorthandName := some [] }, ?_, ?_⟩
            · rw [get?_snoc_lt _ _ (by rw [setInactive_length, hlen]; exact hil)]
              exact setInactive_get?_eq _ _ _ ho
            · refine ⟨fun hd => ?_, fun _ hs => ?_, fun _ _ _ => ⟨rfl, rfl⟩, fun _ _ hl => ?_⟩
              · rw [heact.1] at hd
                exact absurd hd (by decide)
              · rw [heact.2.1] at hs
                exact absurd hs (by decide)
              · refine absurd ((shadowedLater_snoc l x i _ hil).mpr (Or.inr ?_)) hl
                exact ⟨hact.1, hact.2, heact.2.2.symm⟩
          · refine ⟨o, ?_, ?_⟩
            · rw [get?_snoc_lt _ _ (by rw [setInactive_length, hlen]; exact hil),
                setInactive_get?_ne _ _ _ hia]
              exact ho
            · by_cases hx : isActive x e.sourceData.name
              · have hname : e.sourceData.name = x.sourceData.name := hx.2.2.symm
                obtain ⟨h1, h2', h3, h4⟩ := hspec
                have hshadow : e.disabled = false → e.hasSource = true →
                    shadowedLater l i e.sourceData.name := by
                  intro hd hs
                  have hlt : i < a := by
                    rcases Nat.lt_or_ge i a with h5 | h5
                    · exact h5
                    · have h6 : a < i := by omega
                      exact absurd ⟨hd, hs, hname⟩ (hlater i e h6 h2)
                  exact ⟨a, ea, hlt, hea, by rw [hname]; exact heact⟩
                refine ⟨h1, h2', fun hd hs _ => h3 hd hs (hshadow hd hs), fun hd hs hl => ?_⟩
                exact absurd ((shadowedLater_snoc l x i _ hil).mpr (Or.inl (hshadow hd hs))) hl
              · exact statusAsSpecified_snoc l x e i o hil hx hspec
      · refine ⟨InspectorStyle.propertyObject m_style e, ?_, statusAsSpecified_last m_style l e⟩
        rw [hobjs, ← hbase]
        exact get?_middle _ [] _
  · obtain ⟨hobjs, hmap⟩ := populateObjectStep_other m_style st x hact
    have hx : ∀ name, ¬isActive x name := fun name hc => hact ⟨hc.1, hc.2.1⟩
    refine ⟨?_, ?_, ?_, ?_⟩
    · rw [hobjs, List.length_append, List.length_append, hlen]
      rfl
    · intro name a ha
      rw [hmap] at ha
      obtain ⟨e, he, hea, hlater⟩ := hsome name a ha
      refine ⟨e, by rw [get?_snoc_lt l x (get?_some_lt he)]; exact he, hea, ?_⟩
      intro j e2 hj hje
      rcases get?_snoc_some hje with ⟨_, h2⟩ | ⟨_, rfl⟩
      · exact hlater j e2 hj h2
      · exact hx name
    · intro name hn j e2 hje
      rw [hmap] at hn
      rcases get?_snoc_some hje with ⟨_, h2⟩ | ⟨_, rfl⟩
      · exact hnone name hn j e2 h2
      · exact hx name
    · intro i e hie
      rw [hobjs]
      rcases get?_snoc_some hie with ⟨hil, h2⟩ | ⟨rfl, rfl⟩
      · obtain ⟨o, ho, hspec⟩ := hobj i e h2
        refine ⟨o, ?_, statusAsSpecified_snoc l x e i o hil (hx _) hspec⟩
        rw [get?_snoc_lt _ _ (by rw [hlen]; exact hil)]
        exact ho
      · refine ⟨InspectorStyle.propertyObject m_style e, ?_, statusAsSpecified_last m_style l e⟩
        rw [← hlen]
        exact get?_middle _ [] _

/-- The loop establishes its invariant for every listing. -/
theorem populateObjectLoop_invariant (m_style : CSSStyleDeclaration)
    (l : List InspectorStyleProperty) :
    LoopInvariant l (InspectorStyle.populateObjectLoop m_style l) := by
  induction l using List.reverseRecOn with
  | nil =>
    refine ⟨rfl, ?_, ?_, ?_⟩
    · intro name a ha
      exact absurd ha (by simp [InspectorStyle.populateObjectLoop])
    · intro name _ j e2 hje
      exact absurd hje (by simp)
    · intro i e hie
      exact absurd hie (by simp)
  | append_singleton l x ih =>
    have : InspectorStyle.populateObjectLoop m_style (l ++ [x]) =
        InspectorStyle.populateObjectStep m_style (InspectorStyle.populateObjectLoop m_style l) x := by
      unfold InspectorStyle.populateObjectLoop
      rw [List.foldl_append]
      rfl
    rw [this]
    exact loopInvariant_step m_style l x _ ih

/-- C24: `populateObjectWithStyleProperties` emits one record per entry of the listing. The
record of a disabled entry has the status `disabled` and the record of an entry that exists
only on the live style has the status `style`. The record of a source property that is not
disabled has the status `inactive` and an empty `shorthandName` when a later source property
that is not disabled has the same name, and the status `active` when none has: of the
source properties of one name that are not disabled exactly the last one is `active`. -/
theorem populateObjectWithStyleProperties_status (env : Env) (s : InspectorStyleSheet)
    (style : InspectorStyle) (i : Nat) (e : InspectorStyleProperty)
    (hentry : (InspectorStyle.populateAllProperties env s style).1.get? i = some e) :
    (InspectorStyle.populateObjectWithStyleProperties env s style).1.1.length =
        (InspectorStyle.populateAllProperties env s style).1.length ∧
      ∃ o, (InspectorStyle.populateObjectWithStyleProperties env s style).1.1.get? i = some o ∧
        (e.disabled = true → o.status = "disabled".toList) ∧
        (e.disabled = false → e.hasSource = false → o.status = "style".toList) ∧
        (e.disabled = false → e.hasSource = true →
          shadowedLater (InspectorStyle.populateAllProperties env s style).1 i e.sourceData.name →
          o.status = "inactive".toList ∧ o.shorthandName = some []) ∧
        (e.disabled = false → e.hasSource = true →
          ¬shadowedLater (InspectorStyle.populateAllProperties env s style).1 i e.sourceData.name →
          o.status = "active".toList) := by
  obtain ⟨hlen, _, _, hobj⟩ := populateObjectLoop_invariant
    (InspectorStyle.liveStyle (InspectorStyle.populateAllProperties env s style).2 style)
    (InspectorStyle.populateAllProperties env s style).1
  exact ⟨hlen, hobj i e hentry⟩

/-- C24, witness: in `a { color: red; color: blue; }` the record of the first `color` is
`inactive` with an empty `shorthandName`, the record of the second one is `active`. -/
theorem populateObjectWithStyleProperties_status_witness :
    (InspectorStyle.populateAllProperties exampleEnv twoColorSheet (exampleStyle [])).1.get? 0 =
        some (sourceEntry (sourceProperty "color" "red" 1 12)) ∧
      (∃ o, (InspectorStyle.populateObjectWithStyleProperties exampleEnv twoColorSheet
          (exampleStyle [])).1.1.get? 0 = some o ∧
        o.status = "inactive".toList ∧ o.shorthandName = some []) ∧
      statuses (InspectorStyle.populateObjectWithStyleProperties exampleEnv twoColorSheet
        (exampleStyle [topShadow])) =
        ["disabled".toList, "inactive".toList, "active".toList] := by
  obtain ⟨_, o, ho, _, _, h3, _⟩ := populateObjectWithStyleProperties_status exampleEnv
    twoColorSheet (exampleStyle []) 0 (sourceEntry (sourceProperty "color" "red" 1 12))
    (by decide)
  refine ⟨by decide, ⟨o, ho, h3 rfl rfl ?_⟩, by decide⟩
  exact ⟨1, sourceEntry (sourceProperty "color" "blue" 13 25), by decide, by decide, rfl, rfl, rfl⟩

/-! ## The disabled properties are marked disabled -/

theorem shiftRange_disabled (delta : Int) (q : InspectorStyleProperty) (h : q.disabled = true) :
    (InspectorStyle.shiftRange delta q).disabled = true := h

/-- In every state that a sequence of `toggleProperty` and `setPropertyText` calls reaches
from a style without disabled properties, every disabled property of the style is marked
`disabled`. -/
theorem reachable_disabled (env : Env) (s : InspectorStyleSheet) (style : InspectorStyle)
    (h : Reachable env s style) : ∀ q ∈ style.m_disabledProperties, q.disabled = true := by
  induction h with
  | start s styleId style =>
    intro q hq
    simp [InspectorStyle.create] at hq
  | step c success _ hcall ih =>
    cases c with
    | toggleProperty index disable =>
      exact toggleProperty_forall _ shiftRange_disabled (fun _ _ hq => hq) env _ _ _ _ _ _ _
        hcall ih
    | setPropertyText index propertyText overwrite =>
      exact setPropertyText_forall _ shiftRange_disabled env _ _ _ _ _ _ _ _ hcall ih

end WebCore
